import Mathlib

/-!
# Smoothieware `Robot` module: motion-command interpreter and line/arc segmentation

A shallow embedding of `src/modules/robot/Robot.cpp`.

* C `double` is idealised as an element of a linearly ordered field `α` with a floor
  function (no rounding, no infinities, no NaN); every definition is generic in `α`, so it
  runs on `ℚ` and is reasoned about on `ℝ`.
* The C math library (`sqrt`, `hypot`, `atan2`, `cos`, `sin`, `M_PI`) is not part of the
  repository: it is passed in as a `Libm α` record. `Libm.real` is its mathematical meaning.
* `uint16_t` values are naturals reduced modulo `2 ^ 16`.
* Where a property depends on rounding, the statements concerned are embedded a second time on
  binary64 numbers (`F64`): `+`, `-`, `*` round the exact result to 53 significant bits, to
  nearest, ties to even.
* The planner and the arm solution are external collaborators: every call of
  `append_milestone` is recorded as one `Milestone` of a trace, together with the block that
  was handed to `Planner::append_block`, if any.
* The configuration source is a `Config` record of the four values that `on_config_reload`
  looks up.
-/

namespace Smoothie

/-! ## Data model -/

/-- The axis indices `X_AXIS = 0`, `Y_AXIS = 1`, `Z_AXIS = 2` used to index `double[3]`. -/
inductive Axis where
  | X_AXIS
  | Y_AXIS
  | Z_AXIS
deriving DecidableEq, Repr

/-- A `double[3]` (or `int[3]`) array. -/
@[ext]
structure Vec3 (α : Type) where
  x : α
  y : α
  z : α
deriving DecidableEq, Repr

/-- Array read `v[axis]`. -/
def Vec3.get {α : Type} (v : Vec3 α) : Axis → α
  | .X_AXIS => v.x
  | .Y_AXIS => v.y
  | .Z_AXIS => v.z

/-- Array write `v[axis] = c`. -/
def Vec3.set {α : Type} (v : Vec3 α) (a : Axis) (c : α) : Vec3 α :=
  match a with
  | .X_AXIS => { v with x := c }
  | .Y_AXIS => { v with y := c }
  | .Z_AXIS => { v with z := c }

/-- The constants `MOTION_MODE_*` of `Robot.h`. -/
inductive MotionMode where
  | MOTION_MODE_SEEK
  | MOTION_MODE_LINEAR
  | MOTION_MODE_CW_ARC
  | MOTION_MODE_CCW_ARC
  | MOTION_MODE_CANCEL
deriving DecidableEq, Repr

/-- A parsed command: its words (letter, numeric value) in the order they were written. -/
structure Gcode (α : Type) where
  words : List (Char × α)

/-- Method `Gcode::has_letter`. -/
def Gcode.has_letter {α : Type} (g : Gcode α) (letter : Char) : Bool :=
  g.words.any (fun w => w.1 == letter)

/-- Method `Gcode::get_value`: the value that follows the first occurrence of the letter. -/
def Gcode.get_value {α : Type} [Zero α] (g : Gcode α) (letter : Char) : α :=
  match g.words.find? (fun w => w.1 == letter) with
  | some w => w.2
  | none => 0

/-- The functions and the constant of the C math library that `Robot.cpp` calls. -/
structure Libm (α : Type) where
  sqrt : α → α
  hypot : α → α → α
  atan2 : α → α → α
  cos : α → α
  sin : α → α
  M_PI : α

/-- The arguments of one call of `Planner::append_block`. -/
structure Block (α : Type) where
  steps : Vec3 Int
  rate : α
  millimeters : α
  deltas : Vec3 α

/-- One call of `append_milestone`: the point and rate handed to it, and the block it
submitted to the planner (`none` when the move was discarded as negligible). -/
structure Milestone (α : Type) where
  target : Vec3 α
  rate : α
  block : Option (Block α)

/-- The blocks submitted to the planner along a trace of `append_milestone` calls. -/
def blocks {α : Type} (trace : List (Milestone α)) : List (Block α) :=
  trace.filterMap (fun c => c.block)

/-- The member variables of `class Robot`. `arm_solution` stands for
`arm_solution->millimeters_to_steps`. -/
structure Robot (α : Type) where
  inch_mode : Bool
  absolute_mode : Bool
  motion_mode : MotionMode
  plane_axis_0 : Axis
  plane_axis_1 : Axis
  plane_axis_2 : Axis
  current_position : Vec3 α
  last_milestone : Vec3 α
  feed_rate : α
  seek_rate : α
  mm_per_line_segment : α
  mm_per_arc_segment : α
  arm_solution : Vec3 α → Vec3 Int

/-- The four numeric settings that `on_config_reload` looks up with
`kernel->config->get`. -/
structure Config (α : Type) where
  default_feed_rate : α
  default_seek_rate : α
  mm_per_line_segment : α
  mm_per_arc_segment : α

section Code

variable {α : Type} [LinearOrderedField α] [FloorRing α]

/-- Conversion `(int) v` of a `double`: truncation toward zero. -/
def to_int (v : α) : Int :=
  if 0 ≤ v then Int.floor v else Int.ceil v

/-- Conversion of an integral `double` to `uint16_t`: reduction modulo `2 ^ 16`. -/
def to_uint16 (z : Int) : Nat :=
  (z % 65536).toNat

/-- Function `Robot::select_plane` (Robot.cpp 327-331). -/
def select_plane (r : Robot α) (axis_0 axis_1 axis_2 : Axis) : Robot α :=
  { r with plane_axis_0 := axis_0, plane_axis_1 := axis_1, plane_axis_2 := axis_2 }

/-- Function `Robot::to_millimeters` (Robot.cpp 318-320). -/
def to_millimeters (r : Robot α) (value : α) : α :=
  if r.inch_mode then value / 25.4 else value

/-- Function `Robot::append_milestone` (Robot.cpp 106-122). -/
def append_milestone (m : Libm α) (r : Robot α) (target : Vec3 α) (rate : α) :
    Robot α × Milestone α :=
  let steps := r.arm_solution target
  let deltas : Vec3 α :=
    ⟨target.x - r.last_milestone.x, target.y - r.last_milestone.y,
      target.z - r.last_milestone.z⟩
  let millimeters_of_travel := m.sqrt (deltas.x ^ 2 + deltas.y ^ 2 + deltas.z ^ 2)
  if millimeters_of_travel < 0.001 then
    (r, ⟨target, rate, none⟩)
  else
    ({ r with last_milestone := target },
      ⟨target, rate, some ⟨steps, rate * 60, millimeters_of_travel, deltas⟩⟩)

/-- Local `millimeters_of_travel` of `Robot::append_line` (Robot.cpp 128). -/
def line_millimeters_of_travel (m : Libm α) (r : Robot α) (target : Vec3 α) : α :=
  m.sqrt ((target.x - r.current_position.x) ^ 2 + (target.y - r.current_position.y) ^ 2
    + (target.z - r.current_position.z) ^ 2)

/-- Local `uint16_t segments` of `Robot::append_line` (Robot.cpp 131). -/
def line_segments (m : Libm α) (r : Robot α) (target : Vec3 α) : Nat :=
  to_uint16 (Int.ceil (line_millimeters_of_travel m r target / r.mm_per_line_segment))

/-- The `for` loop of `Robot::append_line` (Robot.cpp 138-141), `n` iterations to go. -/
def append_line_loop (m : Libm α) (target : Vec3 α) (rate : α) (segments : Nat) :
    Nat → Robot α → Vec3 α → Robot α × List (Milestone α)
  | 0, r, _ => (r, [])
  | n + 1, r, temp_target =>
    let temp_target : Vec3 α :=
      ⟨temp_target.x + (target.x - r.current_position.x) / segments,
        temp_target.y + (target.y - r.current_position.y) / segments,
        temp_target.z + (target.z - r.current_position.z) / segments⟩
    let r1 := append_milestone m r temp_target rate
    let r2 := append_line_loop m target rate segments n r1.1 temp_target
    (r2.1, r1.2 :: r2.2)

/-- Function `Robot::append_line` (Robot.cpp 124-143). The loop `i = 0 .. segments-2` runs
`segments - 1` times, and not at all when `segments` is `0`. -/
def append_line (m : Libm α) (r : Robot α) (target : Vec3 α) (rate : α) :
    Robot α × List (Milestone α) :=
  if line_millimeters_of_travel m r target = 0 then (r, [])
  else
    let segments := line_segments m r target
    let r1 := append_line_loop m target rate segments (segments - 1) r r.current_position
    let r2 := append_milestone m r1.1 target rate
    (r2.1, r1.2 ++ [r2.2])

/-- Local `angular_travel` of `Robot::append_arc` (Robot.cpp 148-159). In an ordered field the
cross product `r_axis0*rt_axis1 - r_axis1*rt_axis0` of a full-circle request (target =
`current_position`) cancels to exactly `0`; on binary64 it can keep a rounding residue, see
`arc_atan2_operands_f64`. -/
def arc_angular_travel (m : Libm α) (r : Robot α) (target offset : Vec3 α)
    (is_clockwise : Bool) : α :=
  let center_axis0 := r.current_position.get r.plane_axis_0 + offset.get r.plane_axis_0
  let center_axis1 := r.current_position.get r.plane_axis_1 + offset.get r.plane_axis_1
  let r_axis0 := -offset.get r.plane_axis_0
  let r_axis1 := -offset.get r.plane_axis_1
  let rt_axis0 := target.get r.plane_axis_0 - center_axis0
  let rt_axis1 := target.get r.plane_axis_1 - center_axis1
  let angular_travel :=
    m.atan2 (r_axis0 * rt_axis1 - r_axis1 * rt_axis0) (r_axis0 * rt_axis0 + r_axis1 * rt_axis1)
  let angular_travel := if angular_travel < 0 then angular_travel + 2 * m.M_PI else angular_travel
  if is_clockwise then angular_travel - 2 * m.M_PI else angular_travel

/-- The statements `angular_travel = atan2(y, x)`, `if (angular_travel < 0) ...` and
`if (is_clockwise) ...` of `Robot::append_arc` (Robot.cpp 157-159) for given operands `y`, `x`
of `atan2`. -/
def arc_angular_travel_of (m : Libm α) (y x : α) (is_clockwise : Bool) : α :=
  let angular_travel := m.atan2 y x
  let angular_travel := if angular_travel < 0 then angular_travel + 2 * m.M_PI else angular_travel
  if is_clockwise then angular_travel - 2 * m.M_PI else angular_travel

/-- Local `millimeters_of_travel` of `Robot::append_arc` (Robot.cpp 150, 161). -/
def arc_millimeters_of_travel (m : Libm α) (r : Robot α) (target offset : Vec3 α) (radius : α)
    (is_clockwise : Bool) : α :=
  let linear_travel := target.get r.plane_axis_2 - r.current_position.get r.plane_axis_2
  m.hypot (arc_angular_travel m r target offset is_clockwise * radius) |linear_travel|

/-- Local `uint16_t segments` of `Robot::append_arc` (Robot.cpp 163). -/
def arc_segments (m : Libm α) (r : Robot α) (target offset : Vec3 α) (radius : α)
    (is_clockwise : Bool) : Nat :=
  to_uint16 (Int.floor
    (arc_millimeters_of_travel m r target offset radius is_clockwise / r.mm_per_arc_segment))

/-- The `for` loop of `Robot::append_arc` (Robot.cpp 205-229): `n` iterations to go, `i` the
loop index, `r_axis0`, `r_axis1`, `count` and `arc_target` the loop-carried locals. -/
def append_arc_loop (m : Libm α) (offset : Vec3 α)
    (center_axis0 center_axis1 theta_per_segment linear_per_segment cos_T sin_T : α) :
    Nat → Nat → Robot α → α → α → Nat → Vec3 α → Robot α × List (Milestone α)
  | 0, _, r, _, _, _, _ => (r, [])
  | n + 1, i, r, r_axis0, r_axis1, count, arc_target =>
    let rot : α × α × Nat :=
      if count < 25 then
        let r_axisi := r_axis0 * sin_T + r_axis1 * cos_T
        (r_axis0 * cos_T - r_axis1 * sin_T, r_axisi, count + 1)
      else
        let cos_Ti := m.cos (i * theta_per_segment)
        let sin_Ti := m.sin (i * theta_per_segment)
        (-offset.get r.plane_axis_0 * cos_Ti + offset.get r.plane_axis_1 * sin_Ti,
          -offset.get r.plane_axis_0 * sin_Ti - offset.get r.plane_axis_1 * cos_Ti, 0)
    let arc_target := arc_target.set r.plane_axis_0 (center_axis0 + rot.1)
    let arc_target := arc_target.set r.plane_axis_1 (center_axis1 + rot.2.1)
    let arc_target :=
      arc_target.set r.plane_axis_2 (arc_target.get r.plane_axis_2 + linear_per_segment)
    let r1 := append_milestone m r arc_target r.feed_rate
    let r2 := append_arc_loop m offset center_axis0 center_axis1 theta_per_segment
      linear_per_segment cos_T sin_T n (i + 1) r1.1 rot.1 rot.2.1 rot.2.2 arc_target
    (r2.1, r1.2 :: r2.2)

/-- Function `Robot::append_arc` (Robot.cpp 146-232). The two in-plane entries of the local
array `arc_target` are uninitialised in the source and written before they are read; they
start at `0` here. The loop `i = 1 .. segments-1` runs `segments - 1` times. -/
def append_arc (m : Libm α) (r : Robot α) (target offset : Vec3 α) (radius : α)
    (is_clockwise : Bool) : Robot α × List (Milestone α) :=
  let center_axis0 := r.current_position.get r.plane_axis_0 + offset.get r.plane_axis_0
  let center_axis1 := r.current_position.get r.plane_axis_1 + offset.get r.plane_axis_1
  let linear_travel := target.get r.plane_axis_2 - r.current_position.get r.plane_axis_2
  let r_axis0 := -offset.get r.plane_axis_0
  let r_axis1 := -offset.get r.plane_axis_1
  let angular_travel := arc_angular_travel m r target offset is_clockwise
  if arc_millimeters_of_travel m r target offset radius is_clockwise = 0 then (r, [])
  else
    let segments := arc_segments m r target offset radius is_clockwise
    let theta_per_segment := angular_travel / segments
    let linear_per_segment := linear_travel / segments
    let cos_T := 1 - 0.5 * theta_per_segment * theta_per_segment
    let sin_T := theta_per_segment
    let arc_target : Vec3 α :=
      (⟨0, 0, 0⟩ : Vec3 α).set r.plane_axis_2 (r.current_position.get r.plane_axis_2)
    let r1 := append_arc_loop m offset center_axis0 center_axis1 theta_per_segment
      linear_per_segment cos_T sin_T (segments - 1) 1 r r_axis0 r_axis1 0 arc_target
    let r2 := append_milestone m r1.1 target r.feed_rate
    (r2.1, r1.2 ++ [r2.2])

/-- Local `radius` of `Robot::compute_arc` (Robot.cpp 268). -/
def arc_radius (m : Libm α) (r : Robot α) (offset : Vec3 α) : α :=
  m.hypot (offset.get r.plane_axis_0) (offset.get r.plane_axis_1)

/-- Function `Robot::compute_arc` (Robot.cpp 265-277). -/
def compute_arc (m : Libm α) (r : Robot α) (offset target : Vec3 α) :
    Robot α × List (Milestone α) :=
  let radius := arc_radius m r offset
  let is_clockwise : Bool := r.motion_mode = MotionMode.MOTION_MODE_CW_ARC
  append_arc m r target offset radius is_clockwise

/-- The `switch` on the `G` word of `Robot::execute_gcode` (Robot.cpp 60-74). -/
def execute_modal (r : Robot α) (gcode : Gcode α) : Robot α :=
  if gcode.has_letter 'G' then
    let code := to_int (gcode.get_value 'G')
    if code = 0 then { r with motion_mode := MotionMode.MOTION_MODE_SEEK }
    else if code = 1 then { r with motion_mode := MotionMode.MOTION_MODE_LINEAR }
    else if code = 2 then { r with motion_mode := MotionMode.MOTION_MODE_CW_ARC }
    else if code = 3 then { r with motion_mode := MotionMode.MOTION_MODE_CCW_ARC }
    else if code = 17 then select_plane r Axis.X_AXIS Axis.Y_AXIS Axis.Z_AXIS
    else if code = 18 then select_plane r Axis.X_AXIS Axis.Z_AXIS Axis.Y_AXIS
    else if code = 19 then select_plane r Axis.Y_AXIS Axis.Z_AXIS Axis.X_AXIS
    else if code = 20 then { r with inch_mode := true }
    else if code = 21 then { r with inch_mode := false }
    else if code = 90 then { r with absolute_mode := true }
    else if code = 91 then { r with absolute_mode := false }
    else r
  else r

/-- The letters `'X' .. 'Z'` with the array index `letter - 'X'` of each. -/
def axis_letters : List (Char × Axis) :=
  [('X', Axis.X_AXIS), ('Y', Axis.Y_AXIS), ('Z', Axis.Z_AXIS)]

/-- The letters `'I' .. 'K'` with the array index `letter - 'I'` of each. -/
def offset_letters : List (Char × Axis) :=
  [('I', Axis.X_AXIS), ('J', Axis.Y_AXIS), ('K', Axis.Z_AXIS)]

/-- The loop over the letters `I`, `J`, `K` (Robot.cpp 78, 82). -/
def gcode_offset (r : Robot α) (gcode : Gcode α) : Vec3 α :=
  offset_letters.foldl
    (fun offset la =>
      if gcode.has_letter la.1 then offset.set la.2 (to_millimeters r (gcode.get_value la.1))
      else offset)
    ⟨0, 0, 0⟩

/-- The loop over the letters `X`, `Y`, `Z` (Robot.cpp 80, 83). -/
def gcode_target (r : Robot α) (gcode : Gcode α) : Vec3 α :=
  axis_letters.foldl
    (fun target la =>
      if gcode.has_letter la.1 then
        target.set la.2 (to_millimeters r (gcode.get_value la.1)
          + (if r.absolute_mode then 0 else target.get la.2))
      else target)
    r.current_position

/-- The handling of the `F` word (Robot.cpp 85). -/
def execute_feed (r : Robot α) (gcode : Gcode α) : Robot α :=
  if gcode.has_letter 'F' then
    if r.motion_mode = MotionMode.MOTION_MODE_SEEK then
      { r with seek_rate := to_millimeters r (gcode.get_value 'F') / 60 }
    else
      { r with feed_rate := to_millimeters r (gcode.get_value 'F') / 60 }
  else r

/-- Function `Robot::execute_gcode` (Robot.cpp 54-103); `next_action` is always
`NEXT_ACTION_DEFAULT`. -/
def execute_gcode (m : Libm α) (r : Robot α) (gcode : Gcode α) :
    Robot α × List (Milestone α) :=
  let r := execute_modal r gcode
  let target := gcode_target r gcode
  let offset := gcode_offset r gcode
  let r := execute_feed r gcode
  let r1 : Robot α × List (Milestone α) :=
    match r.motion_mode with
    | MotionMode.MOTION_MODE_CANCEL => (r, [])
    | MotionMode.MOTION_MODE_SEEK => append_line m r target r.seek_rate
    | MotionMode.MOTION_MODE_LINEAR => append_line m r target r.feed_rate
    | MotionMode.MOTION_MODE_CW_ARC => compute_arc m r offset target
    | MotionMode.MOTION_MODE_CCW_ARC => compute_arc m r offset target
  ({ r1.1 with current_position := target }, r1.2)

/-- Function `Robot::on_gcode_received` (Robot.cpp 47-51) on each command of a list in turn;
the state after the last one. -/
def execute_gcodes (m : Libm α) (r : Robot α) (gcodes : List (Gcode α)) : Robot α :=
  gcodes.foldl (fun s gcode => (execute_gcode m s gcode).1) r

/-- Constructor `Robot::Robot` (Robot.cpp 21-28); the members it leaves unset (rates, segment
lengths, arm solution) are those of `r`, filled in later by `on_module_loaded`. -/
def Robot.init (r : Robot α) : Robot α :=
  { select_plane { r with inch_mode := true, absolute_mode := true,
                          motion_mode := MotionMode.MOTION_MODE_SEEK }
      Axis.X_AXIS Axis.Y_AXIS Axis.Z_AXIS with
    current_position := ⟨0, 0, 0⟩, last_milestone := ⟨0, 0, 0⟩ }

/-- Function `Robot::on_config_reload` (Robot.cpp 39-44). -/
def on_config_reload (config : Config α) (r : Robot α) : Robot α :=
  { r with feed_rate := config.default_feed_rate / 60,
           seek_rate := config.default_seek_rate / 60,
           mm_per_line_segment := config.mm_per_line_segment,
           mm_per_arc_segment := config.mm_per_arc_segment }

end Code

/-! ## Vocabulary of the specification -/

section Spec

variable {α : Type} [LinearOrderedField α]

/-- Euclidean distance between two points, as `append_milestone` and `append_line` compute
it. -/
def distance (m : Libm α) (p q : Vec3 α) : α :=
  m.sqrt ((q.x - p.x) ^ 2 + (q.y - p.y) ^ 2 + (q.z - p.z) ^ 2)

/-- Component-wise difference `p - q`. -/
def Vec3.sub (p q : Vec3 α) : Vec3 α :=
  ⟨p.x - q.x, p.y - q.y, p.z - q.z⟩

/-- Component-wise sum `p + q`. -/
def Vec3.add (p q : Vec3 α) : Vec3 α :=
  ⟨p.x + q.x, p.y + q.y, p.z + q.z⟩

/-- The point reached from `c` after `i` of `n` equal steps toward `target`. -/
def line_point (c target : Vec3 α) (n i : Nat) : Vec3 α :=
  ⟨c.x + i * ((target.x - c.x) / n), c.y + i * ((target.y - c.y) / n),
    c.z + i * ((target.z - c.z) / n)⟩

/-- One of `n` equal steps from `c` to `target`. -/
def line_step (c target : Vec3 α) (n : Nat) : Vec3 α :=
  ⟨(target.x - c.x) / n, (target.y - c.y) / n, (target.z - c.z) / n⟩

/-- The record of an `append_milestone` call that submitted a block. -/
def emitted (r : Robot α) (p : Vec3 α) (rate millimeters : α) (deltas : Vec3 α) : Milestone α :=
  ⟨p, rate, some ⟨r.arm_solution p, rate * 60, millimeters, deltas⟩⟩

/-- The trace of `k` consecutive interpolated milestones after the `j`-th, all submitted. -/
def line_trace (m : Libm α) (r : Robot α) (target : Vec3 α) (rate : α) (n j k : Nat) :
    List (Milestone α) :=
  (List.range k).map fun i =>
    emitted r (line_point r.current_position target n (j + i + 1)) rate
      (distance m r.current_position target / n) (line_step r.current_position target n)

/-- The points of the milestones that were submitted to the planner. -/
def emitted_points (trace : List (Milestone α)) : List (Vec3 α) :=
  (trace.filter fun c => c.block.isSome).map fun c => c.target

/-- The lengths of the segments of the polyline that starts at `start` and runs through
`pts`. -/
def segment_lengths (m : Libm α) : Vec3 α → List (Vec3 α) → List α
  | _, [] => []
  | p, q :: qs => distance m p q :: segment_lengths m q qs

/-- Component-wise sum of the `deltas` of a list of blocks. -/
def sum_deltas (bs : List (Block α)) : Vec3 α :=
  bs.foldr (fun b acc => b.deltas.add acc) ⟨0, 0, 0⟩

/-- A machine whose modal state is that of the line scenario: plane XY, absolute mode,
millimetre units, at the origin, with `mm_per_line_segment = 5`; every other member is that
of `r`. -/
def line_scenario (r : Robot α) : Robot α :=
  { select_plane r Axis.X_AXIS Axis.Y_AXIS Axis.Z_AXIS with
    inch_mode := false, absolute_mode := true, current_position := ⟨0, 0, 0⟩,
    last_milestone := ⟨0, 0, 0⟩, mm_per_line_segment := 5 }

/-- A machine in the state of the arc scenario: plane XY, clockwise-arc mode, at
`(10,0,0)`; every other member is that of `r`. -/
def arc_scenario (r : Robot α) : Robot α :=
  { select_plane r Axis.X_AXIS Axis.Y_AXIS Axis.Z_AXIS with
    motion_mode := MotionMode.MOTION_MODE_CW_ARC, current_position := ⟨10, 0, 0⟩ }

/-- A machine about to trace a quarter circle of radius `1`: plane XY, absolute mode,
millimetre units, counter-clockwise-arc mode, at rest at `(1,0,0)`, with
`mm_per_arc_segment = 5`. -/
def small_arc_robot [FloorRing α] : Robot α where
  inch_mode := false
  absolute_mode := true
  motion_mode := MotionMode.MOTION_MODE_CCW_ARC
  plane_axis_0 := Axis.X_AXIS
  plane_axis_1 := Axis.Y_AXIS
  plane_axis_2 := Axis.Z_AXIS
  current_position := ⟨1, 0, 0⟩
  last_milestone := ⟨1, 0, 0⟩
  feed_rate := 1
  seek_rate := 1
  mm_per_line_segment := 5
  mm_per_arc_segment := 5
  arm_solution := fun v => ⟨Int.floor v.x, Int.floor v.y, Int.floor v.z⟩

/-- The state `r'` differs from `r` at most in `last_milestone`. -/
def only_milestone_moved (r r' : Robot α) : Prop :=
  r' = { r with last_milestone := r'.last_milestone }

/-- One component of the resolved target in the words of the specification: when the axis
letter is present, its value converted to millimetres replaces the previous component, or is
added to it in relative mode; when it is absent the previous component is kept. -/
def resolved_component (inch_mode absolute_mode : Bool) (gcode : Gcode α) (letter : Char)
    (previous : α) : α :=
  if gcode.has_letter letter then
    let millimeters := if inch_mode then gcode.get_value letter / 25.4 else gcode.get_value letter
    if absolute_mode then millimeters else previous + millimeters
  else previous

/-- The resolved absolute target of a command in the words of the specification, under the
units and positioning mode in force once the command's own `G` word has been applied. -/
def resolved_target [FloorRing α] (r : Robot α) (gcode : Gcode α) : Vec3 α :=
  ⟨resolved_component (execute_modal r gcode).inch_mode (execute_modal r gcode).absolute_mode
      gcode 'X' r.current_position.x,
    resolved_component (execute_modal r gcode).inch_mode (execute_modal r gcode).absolute_mode
      gcode 'Y' r.current_position.y,
    resolved_component (execute_modal r gcode).inch_mode (execute_modal r gcode).absolute_mode
      gcode 'Z' r.current_position.z⟩

/-- A machine at rest at the origin in plane XY, absolute mode, millimetre units, seeking,
with the given segment lengths, unit rates and one step per millimetre. -/
def origin_robot [FloorRing α] (mm_per_line_segment mm_per_arc_segment : α) : Robot α where
  inch_mode := false
  absolute_mode := true
  motion_mode := MotionMode.MOTION_MODE_SEEK
  plane_axis_0 := Axis.X_AXIS
  plane_axis_1 := Axis.Y_AXIS
  plane_axis_2 := Axis.Z_AXIS
  current_position := ⟨0, 0, 0⟩
  last_milestone := ⟨0, 0, 0⟩
  feed_rate := 1
  seek_rate := 1
  mm_per_line_segment := mm_per_line_segment
  mm_per_arc_segment := mm_per_arc_segment
  arm_solution := fun v => ⟨Int.floor v.x, Int.floor v.y, Int.floor v.z⟩

/-- The three plane assignments that `execute_gcode` selects (Robot.cpp 66-68). -/
def plane_assignments : List (Axis × Axis × Axis) :=
  [(Axis.X_AXIS, Axis.Y_AXIS, Axis.Z_AXIS), (Axis.X_AXIS, Axis.Z_AXIS, Axis.Y_AXIS),
    (Axis.Y_AXIS, Axis.Z_AXIS, Axis.X_AXIS)]

/-- The `G` codes that the `switch` of `execute_gcode` has a `case` for. -/
def recognized_codes : List Int :=
  [0, 1, 2, 3, 17, 18, 19, 20, 21, 90, 91]

/-- The point at fraction `f` of the way from `c` to `target`. -/
def interpolate (c target : Vec3 α) (f : α) : Vec3 α :=
  ⟨c.x + f * (target.x - c.x), c.y + f * (target.y - c.y), c.z + f * (target.z - c.z)⟩

/-- The statement `if (count < 25) { ... } else { ... }` of the loop of `append_arc`
(Robot.cpp 207-221) at loop index `i`: the new `r_axis0`, `r_axis1` and `count`. `offset_0`
and `offset_1` are `offset[plane_axis_0]` and `offset[plane_axis_1]`. -/
def arc_rotate (m : Libm α) (offset_0 offset_1 theta_per_segment cos_T sin_T : α) (i : Nat)
    (r_axis0 r_axis1 : α) (count : Nat) : α × α × Nat :=
  if count < 25 then
    (r_axis0 * cos_T - r_axis1 * sin_T, r_axis0 * sin_T + r_axis1 * cos_T, count + 1)
  else
    (-offset_0 * m.cos (i * theta_per_segment) + offset_1 * m.sin (i * theta_per_segment),
      -offset_0 * m.sin (i * theta_per_segment) - offset_1 * m.cos (i * theta_per_segment), 0)

/-- The loop-carried `r_axis0`, `r_axis1` and `count` of `append_arc` after the iteration of
index `i` (Robot.cpp 151-152, 200, 205-221); index `0` is the state before the loop. -/
def arc_radius_vector (m : Libm α) (offset_0 offset_1 theta_per_segment cos_T sin_T : α) :
    Nat → α × α × Nat
  | 0 => (-offset_0, -offset_1, 0)
  | i + 1 =>
    arc_rotate m offset_0 offset_1 theta_per_segment cos_T sin_T (i + 1)
      (arc_radius_vector m offset_0 offset_1 theta_per_segment cos_T sin_T i).1
      (arc_radius_vector m offset_0 offset_1 theta_per_segment cos_T sin_T i).2.1
      (arc_radius_vector m offset_0 offset_1 theta_per_segment cos_T sin_T i).2.2

/-- The vector `(x, y)` rotated by the angle `phi`, with the library's `cos` and `sin`. -/
def rotate_vector (m : Libm α) (x y phi : α) : α × α :=
  (x * m.cos phi - y * m.sin phi, x * m.sin phi + y * m.cos phi)

/-- The statements that update `arc_target` in the loop of `append_arc` (Robot.cpp 224-226),
for the rotated radius vector `s`. -/
def arc_point (plane_axis_0 plane_axis_1 plane_axis_2 : Axis)
    (center_axis0 center_axis1 linear_per_segment : α) (arc_target : Vec3 α)
    (s : α × α × Nat) : Vec3 α :=
  ((arc_target.set plane_axis_0 (center_axis0 + s.1)).set plane_axis_1
      (center_axis1 + s.2.1)).set plane_axis_2
    (((arc_target.set plane_axis_0 (center_axis0 + s.1)).set plane_axis_1
      (center_axis1 + s.2.1)).get plane_axis_2 + linear_per_segment)

/-- The points built by `n` iterations of the loop of `append_arc` after the one of index
`j`, from the radius vectors `S (j + 1)`, `S (j + 2)`, ... -/
def arc_points (plane_axis_0 plane_axis_1 plane_axis_2 : Axis)
    (center_axis0 center_axis1 linear_per_segment : α) (S : Nat → α × α × Nat) :
    Nat → Nat → Vec3 α → List (Vec3 α)
  | 0, _, _ => []
  | n + 1, j, arc_target =>
    arc_point plane_axis_0 plane_axis_1 plane_axis_2 center_axis0 center_axis1
        linear_per_segment arc_target (S (j + 1))
      :: arc_points plane_axis_0 plane_axis_1 plane_axis_2 center_axis0 center_axis1
        linear_per_segment S n (j + 1)
        (arc_point plane_axis_0 plane_axis_1 plane_axis_2 center_axis0 center_axis1
          linear_per_segment arc_target (S (j + 1)))

/-- Local `theta_per_segment` of `Robot::append_arc` (Robot.cpp 165). -/
def arc_theta_per_segment [FloorRing α] (m : Libm α) (r : Robot α) (target offset : Vec3 α)
    (radius : α) (is_clockwise : Bool) : α :=
  arc_angular_travel m r target offset is_clockwise
    / (arc_segments m r target offset radius is_clockwise : ℕ)

/-- The loop-carried `r_axis0`, `r_axis1` and `count` of `append_arc` after the iteration of
index `i`, for the arc that `append_arc` is called on: `arc_radius_vector` at the values of
`theta_per_segment`, `cos_T` and `sin_T` that `append_arc` computes (Robot.cpp 165, 192-193). -/
def arc_loop_state [FloorRing α] (m : Libm α) (r : Robot α) (target offset : Vec3 α)
    (radius : α) (is_clockwise : Bool) (i : Nat) : α × α × Nat :=
  arc_radius_vector m (offset.get r.plane_axis_0) (offset.get r.plane_axis_1)
    (arc_theta_per_segment m r target offset radius is_clockwise)
    (1 - 0.5 * arc_theta_per_segment m r target offset radius is_clockwise
      * arc_theta_per_segment m r target offset radius is_clockwise)
    (arc_theta_per_segment m r target offset radius is_clockwise) i

/-- The path of an arc: the start position, then the points that `append_arc` hands to
`append_milestone`, in order. -/
def arc_path [FloorRing α] (m : Libm α) (r : Robot α) (target offset : Vec3 α) (radius : α)
    (is_clockwise : Bool) : List (Vec3 α) :=
  r.current_position :: (append_arc m r target offset radius is_clockwise).2.map
    (fun c => c.target)

/-- The in-plane vector from the arc centre `current_position + offset` to the point `p`. -/
def center_vector (r : Robot α) (offset p : Vec3 α) : α × α :=
  (p.get r.plane_axis_0 - (r.current_position.get r.plane_axis_0 + offset.get r.plane_axis_0),
    p.get r.plane_axis_1 - (r.current_position.get r.plane_axis_1 + offset.get r.plane_axis_1))

/-- The distance of the point `p` from the arc centre, in the plane of the arc, with the
library's `hypot`. -/
def center_distance (m : Libm α) (r : Robot α)
    (offset p : Vec3 α) : α :=
  m.hypot (center_vector r offset p).1 (center_vector r offset p).2

end Spec

/-- The mathematical meaning of the C math library on real numbers; `atan2 y x` is the
argument of the point `(x, y)`, in `(-π, π]`, and `0` at the origin. -/
noncomputable def Libm.real : Libm ℝ where
  sqrt := Real.sqrt
  hypot := fun x y => Real.sqrt (x ^ 2 + y ^ 2)
  atan2 := fun y x => Complex.arg ⟨x, y⟩
  cos := Real.cos
  sin := Real.sin
  M_PI := Real.pi

/-! ## Binary64 arithmetic

A second embedding of the statements of `append_arc` whose outcome depends on rounding. A
`double` is a finite binary64 number `m · 2 ^ e`, and `+`, `-`, `*` round the exact result to
53 significant bits, to nearest, ties to even (the default mode of IEEE 754); overflow,
underflow, infinities and NaN are left out. -/

/-- A finite binary64 number: the value `m · 2 ^ e`. The pair is not normalised; numbers are
compared through `F64.toRat`. -/
structure F64 where
  m : Int
  e : Int
deriving DecidableEq, Repr

/-- The rational value of a binary64 number. -/
def F64.toRat (x : F64) : ℚ :=
  x.m * (2 : ℚ) ^ x.e

/-- The number of low bits by which `n` exceeds a 53-bit significand (`fuel` bounds the
count; `n` itself is enough). -/
def F64.excess : Nat → Nat → Nat
  | 0, _ => 0
  | fuel + 1, n => if n < 2 ^ 53 then 0 else F64.excess fuel (n / 2) + 1

/-- The exact value `m · 2 ^ e` rounded to 53 significant bits, to nearest, ties to even. -/
def F64.round (m e : Int) : F64 :=
  let n := m.natAbs
  let k := F64.excess n n
  if k = 0 then ⟨m, e⟩
  else
    let q := n / 2 ^ k
    let rest := n % 2 ^ k
    let q := if 2 ^ (k - 1) < rest ∨ (rest = 2 ^ (k - 1) ∧ q % 2 = 1) then q + 1 else q
    ⟨if m < 0 then -(q : Int) else q, e + k⟩

/-- Binary64 `x * y`. -/
def F64.mul (x y : F64) : F64 :=
  F64.round (x.m * y.m) (x.e + y.e)

/-- Binary64 `x + y`. -/
def F64.add (x y : F64) : F64 :=
  let e := min x.e y.e
  F64.round (x.m * 2 ^ (x.e - e).toNat + y.m * 2 ^ (y.e - e).toNat) e

/-- Binary64 `-x` (exact). -/
def F64.neg (x : F64) : F64 :=
  ⟨-x.m, x.e⟩

/-- Binary64 `x - y`. -/
def F64.sub (x y : F64) : F64 :=
  F64.add x (F64.neg y)

/-- The small-angle rotation of the loop of `append_arc` on binary64 (Robot.cpp 192-193,
209-211): the new `r_axis0` and `r_axis1`. The constants `1` and `0.5` are `⟨1, 0⟩` and
`⟨1, -1⟩`. -/
def arc_small_angle_f64 (theta_per_segment r_axis0 r_axis1 : F64) : F64 × F64 :=
  let cos_T :=
    F64.sub ⟨1, 0⟩ (F64.mul (F64.mul ⟨1, -1⟩ theta_per_segment) theta_per_segment)
  let sin_T := theta_per_segment
  let r_axisi := F64.add (F64.mul r_axis0 sin_T) (F64.mul r_axis1 cos_T)
  let r_axis0 := F64.sub (F64.mul r_axis0 cos_T) (F64.mul r_axis1 sin_T)
  (r_axis0, r_axisi)

/-- The two operands of `atan2` in `append_arc` on binary64 (Robot.cpp 148-149, 151-154, 157):
the cross product and the dot product of the radius vectors to the start and to the target.
The arguments are the entries of `current_position`, `target` and `offset` on `plane_axis_0`
and `plane_axis_1`. -/
def arc_atan2_operands_f64 (current_0 current_1 target_0 target_1 offset_0 offset_1 : F64) :
    F64 × F64 :=
  let center_axis0 := F64.add current_0 offset_0
  let center_axis1 := F64.add current_1 offset_1
  let r_axis0 := F64.neg offset_0
  let r_axis1 := F64.neg offset_1
  let rt_axis0 := F64.sub target_0 center_axis0
  let rt_axis1 := F64.sub target_1 center_axis1
  (F64.sub (F64.mul r_axis0 rt_axis1) (F64.mul r_axis1 rt_axis0),
    F64.add (F64.mul r_axis0 rt_axis0) (F64.mul r_axis1 rt_axis1))

/-! ## Lemmas -/

/-- Truncation leaves a natural number unchanged. -/
theorem to_int_natCast {α : Type} [LinearOrderedField α] [FloorRing α] (n : ℕ) :
    to_int (n : α) = n := by
  simp [to_int]

/-- A milestone at least `0.001` away from `last_milestone` is submitted and becomes
`last_milestone`. -/
theorem append_milestone_of_not_lt {α : Type} [LinearOrderedField α] (m : Libm α)
    (r : Robot α) (target : Vec3 α) (rate : α)
    (h : ¬ distance m r.last_milestone target < 0.001) :
    append_milestone m r target rate
      = ({ r with last_milestone := target },
          emitted r target rate (distance m r.last_milestone target)
            ⟨target.x - r.last_milestone.x, target.y - r.last_milestone.y,
              target.z - r.last_milestone.z⟩) := by
  unfold distance at h
  simp only [append_milestone, emitted, distance, if_neg h]

/-- A milestone closer than `0.001` to `last_milestone` is discarded and the state is
unchanged. -/
theorem append_milestone_of_lt {α : Type} [LinearOrderedField α] (m : Libm α)
    (r : Robot α) (target : Vec3 α) (rate : α)
    (h : distance m r.last_milestone target < 0.001) :
    append_milestone m r target rate = (r, ⟨target, rate, none⟩) := by
  unfold distance at h
  simp only [append_milestone, if_pos h]

/-- Consecutive interpolated points are one `n`-th of the whole distance apart. -/
theorem distance_line_point (c target : Vec3 ℝ) (n i : Nat) :
    distance Libm.real (line_point c target n i) (line_point c target n (i + 1))
      = distance Libm.real c target / n := by
  simp only [distance, line_point, Libm.real]
  have e : ∀ a b : ℝ, a + ((i + 1 : ℕ) : ℝ) * (b / n) - (a + (i : ℝ) * (b / n)) = b / n := by
    intro a b; push_cast; ring
  rw [e, e, e]
  have : ((target.x - c.x) / n) ^ 2 + ((target.y - c.y) / n) ^ 2 + ((target.z - c.z) / n) ^ 2
      = ((target.x - c.x) ^ 2 + (target.y - c.y) ^ 2 + (target.z - c.z) ^ 2) / (n : ℝ) ^ 2 := by
    simp only [div_pow]; ring
  rw [this, Real.sqrt_div (by positivity), Real.sqrt_sq (by positivity)]

/-- The `n`-th of `n` steps reaches the target. -/
theorem line_point_last (c target : Vec3 ℝ) (n : Nat) (hn : n ≠ 0) :
    line_point c target n n = target := by
  have h : (n : ℝ) ≠ 0 := by exact_mod_cast hn
  ext <;> simp only [line_point] <;> field_simp

/-- No step leaves the start point. -/
theorem line_point_zero (c target : Vec3 ℝ) (n : Nat) : line_point c target n 0 = c := by
  ext <;> simp [line_point]

/-- The loop of `append_line`, started on the `j`-th interpolated point with
`last_milestone` there, submits every milestone when one step is not negligible. -/
theorem append_line_loop_eq (target : Vec3 ℝ) (rate : ℝ) (n : Nat)
    (k : Nat) : ∀ (j : Nat) (r : Robot ℝ),
    ¬ distance Libm.real r.current_position target / n < 0.001 →
    r.last_milestone = line_point r.current_position target n j →
    append_line_loop Libm.real target rate n k r (line_point r.current_position target n j)
      = ({ r with last_milestone := line_point r.current_position target n (j + k) },
          line_trace Libm.real r target rate n j k) := by
  induction k with
  | zero =>
    intro j r _ hl
    simp [append_line_loop, line_trace, ← hl]
  | succ k ih =>
    intro j r hd hl
    have hp : (⟨(line_point r.current_position target n j).x
          + (target.x - r.current_position.x) / n,
        (line_point r.current_position target n j).y + (target.y - r.current_position.y) / n,
        (line_point r.current_position target n j).z
          + (target.z - r.current_position.z) / n⟩ : Vec3 ℝ)
        = line_point r.current_position target n (j + 1) := by
      ext <;> simp only [line_point] <;> push_cast <;> ring
    have hd1 : ¬ distance Libm.real r.last_milestone
        (line_point r.current_position target n (j + 1)) < 0.001 := by
      rw [hl, distance_line_point]; exact hd
    simp only [append_line_loop, hp]
    rw [append_milestone_of_not_lt _ _ _ _ hd1]
    have := ih (j + 1) { r with last_milestone := line_point r.current_position target n (j + 1) }
      hd rfl
    simp only at this
    rw [this]
    simp only [line_trace, List.range_succ_eq_map, List.map_cons, List.map_map]
    refine Prod.ext ?_ ?_
    · simp only [Nat.add_assoc, Nat.add_comm 1 k]
    · simp only [List.cons.injEq]
      refine ⟨?_, ?_⟩
      · rw [hl, distance_line_point]
        simp only [emitted, line_step, line_point, Nat.add_zero]
        congr 3
        congr 1 <;> (push_cast; ring)
      · apply List.map_congr_left
        intro i _
        simp only [Function.comp, emitted, Nat.add_assoc, Nat.add_comm 1 i, Nat.succ_eq_add_one]

/-- When the move starts on `last_milestone` and one step is not negligible, `append_line`
submits `segments` blocks, one per equal step, and ends with `last_milestone = target`. -/
theorem append_line_eq (r : Robot ℝ) (target : Vec3 ℝ) (rate : ℝ)
    (hl : r.last_milestone = r.current_position)
    (hd : ¬ distance Libm.real r.current_position target / line_segments Libm.real r target
      < 0.001) :
    append_line Libm.real r target rate
      = ({ r with last_milestone := target },
          line_trace Libm.real r target rate (line_segments Libm.real r target) 0
              (line_segments Libm.real r target - 1)
            ++ [emitted r target rate
                (distance Libm.real r.current_position target / line_segments Libm.real r target)
                (line_step r.current_position target (line_segments Libm.real r target))]) := by
  have hn : line_segments Libm.real r target ≠ 0 := by
    intro h0; rw [h0] at hd; norm_num at hd
  have hd0 : line_millimeters_of_travel Libm.real r target ≠ 0 := by
    intro h0
    have : distance Libm.real r.current_position target = 0 := h0
    rw [this] at hd; norm_num at hd
  generalize hN : line_segments Libm.real r target = n at hd hn
  have hloop := append_line_loop_eq target rate n (n - 1) 0 r hd
    (by rw [line_point_zero]; exact hl)
  rw [line_point_zero] at hloop
  simp only [append_line, if_neg hd0, hN, hloop]
  have hlast : distance Libm.real (line_point r.current_position target n (0 + (n - 1))) target
      = distance Libm.real r.current_position target / n := by
    have := distance_line_point r.current_position target n (n - 1)
    rwa [Nat.sub_add_cancel (Nat.pos_of_ne_zero hn), line_point_last _ _ _ hn,
      ← Nat.zero_add (n - 1)] at this
  rw [append_milestone_of_not_lt]
  · simp only [hlast]
    refine Prod.ext rfl ?_
    simp only [emitted, line_step]
    have hn' : (n : ℝ) ≠ 0 := by exact_mod_cast hn
    have hc : ((0 + (n - 1) : ℕ) : ℝ) = n - 1 := by
      rw [Nat.zero_add, Nat.cast_sub (Nat.pos_of_ne_zero hn)]; simp
    congr 5
    congr 1 <;> (simp only [line_point, hc]; field_simp; ring)
  · simp only [hlast]; exact hd

/-- The deltas of a concatenation are the sum of the deltas of its parts. -/
theorem sum_deltas_append {α : Type} [LinearOrderedField α] (as bs : List (Block α)) :
    sum_deltas (as ++ bs) = (sum_deltas as).add (sum_deltas bs) := by
  induction as with
  | nil => simp [sum_deltas, Vec3.add]
  | cons a as ih =>
    have h : sum_deltas (a :: as ++ bs) = a.deltas.add (sum_deltas (as ++ bs)) := rfl
    have h' : sum_deltas (a :: as) = a.deltas.add (sum_deltas as) := rfl
    rw [h, h', ih]
    simp only [Vec3.add, add_assoc]

/-- The delta of the block of one `append_milestone` call, if any, is the change of
`last_milestone`. -/
theorem sum_deltas_append_milestone {α : Type} [LinearOrderedField α] (m : Libm α)
    (r : Robot α) (target : Vec3 α) (rate : α) :
    sum_deltas (blocks [(append_milestone m r target rate).2])
      = (append_milestone m r target rate).1.last_milestone.sub r.last_milestone := by
  simp only [append_milestone]
  split <;> simp [blocks, sum_deltas, Vec3.add, Vec3.sub]

/-- The blocks of a concatenated trace. -/
theorem blocks_append {α : Type} (as bs : List (Milestone α)) :
    blocks (as ++ bs) = blocks as ++ blocks bs := by
  simp [blocks, List.filterMap_append]

/-- Differences telescope. -/
theorem vec_sub_add_sub {α : Type} [LinearOrderedField α] (a b c : Vec3 α) :
    (b.sub a).add (c.sub b) = c.sub a := by
  simp [Vec3.add, Vec3.sub]

/-- The deltas of the blocks submitted by the loop of `append_line` add up to the net change
of `last_milestone`. -/
theorem sum_deltas_append_line_loop {α : Type} [LinearOrderedField α] (m : Libm α)
    (target : Vec3 α) (rate : α) (n k : Nat) : ∀ (r : Robot α) (temp : Vec3 α),
    sum_deltas (blocks (append_line_loop m target rate n k r temp).2)
      = (append_line_loop m target rate n k r temp).1.last_milestone.sub r.last_milestone := by
  induction k with
  | zero => intro r temp; simp [append_line_loop, blocks, sum_deltas, Vec3.sub]
  | succ k ih =>
    intro r temp
    simp only [append_line_loop]
    rw [← List.singleton_append, blocks_append, sum_deltas_append, ih,
      sum_deltas_append_milestone, vec_sub_add_sub]

/-- The deltas of the blocks submitted by `append_line` add up to the net change of
`last_milestone`. -/
theorem sum_deltas_append_line {α : Type} [LinearOrderedField α] [FloorRing α] (m : Libm α)
    (r : Robot α) (target : Vec3 α) (rate : α) :
    sum_deltas (blocks (append_line m r target rate).2)
      = (append_line m r target rate).1.last_milestone.sub r.last_milestone := by
  simp only [append_line]
  split
  · simp [blocks, sum_deltas, Vec3.sub]
  · simp only
    rw [blocks_append, sum_deltas_append, sum_deltas_append_line_loop,
      sum_deltas_append_milestone, vec_sub_add_sub]

/-- Every milestone of `line_trace` is a submitted point. -/
theorem emitted_points_line_trace {α : Type} [LinearOrderedField α] (m : Libm α) (r : Robot α)
    (target : Vec3 α) (rate : α) (n j k : Nat) (rest : List (Milestone α)) :
    emitted_points (line_trace m r target rate n j k ++ rest)
      = (List.range k).map (fun i => line_point r.current_position target n (j + i + 1))
        ++ emitted_points rest := by
  simp only [emitted_points, line_trace, List.filter_append, List.map_append, List.filter_map,
    List.map_map]
  congr 1
  have : ((fun c : Milestone α => c.block.isSome) ∘ fun i =>
      emitted r (line_point r.current_position target n (j + i + 1)) rate
        (distance m r.current_position target / n) (line_step r.current_position target n))
      = fun _ => true := by
    funext i; simp [emitted]
  rw [this]
  simp [Function.comp, emitted]

/-- The polyline through the interpolated points after the `j`-th and the target has equal
segments. -/
theorem segment_lengths_line (c target : Vec3 ℝ) (n : Nat) (hn : n ≠ 0) (k : Nat) :
    ∀ j : Nat, j + k + 1 = n →
    segment_lengths Libm.real (line_point c target n j)
        ((List.range k).map (fun i => line_point c target n (j + i + 1)) ++ [target])
      = List.replicate (k + 1) (distance Libm.real c target / n) := by
  induction k with
  | zero =>
    intro j hj
    have : target = line_point c target n (j + 1) := by
      rw [show j + 1 = n by omega, line_point_last _ _ _ hn]
    simp only [List.range_zero, List.map_nil, List.nil_append, segment_lengths]
    nth_rewrite 2 [this]
    rw [distance_line_point]
    rfl
  | succ k ih =>
    intro j hj
    simp only [List.range_succ_eq_map, List.map_cons, List.map_map, List.cons_append,
      segment_lengths, Nat.add_zero, distance_line_point]
    have := ih (j + 1) (by omega)
    have e : ((fun i => line_point c target n (j + i + 1)) ∘ Nat.succ)
        = fun i => line_point c target n (j + 1 + i + 1) := by
      funext i; simp only [Function.comp, Nat.succ_eq_add_one]; congr 1; omega
    rw [e, this]
    rfl

/-- A segment count that fits 16 bits is not changed by the conversion to `uint16_t`. -/
theorem line_segments_eq_ceil (r : Robot ℝ) (target : Vec3 ℝ)
    (h0 : 0 < r.mm_per_line_segment)
    (hfit : Int.ceil (distance Libm.real r.current_position target / r.mm_per_line_segment)
      < 65536) :
    (line_segments Libm.real r target : ℤ)
      = Int.ceil (distance Libm.real r.current_position target / r.mm_per_line_segment) := by
  have hd : 0 ≤ distance Libm.real r.current_position target := Real.sqrt_nonneg _
  have hc : 0 ≤ Int.ceil (distance Libm.real r.current_position target / r.mm_per_line_segment) :=
    Int.ceil_nonneg (div_nonneg hd h0.le)
  have : line_segments Libm.real r target
      = (Int.ceil (distance Libm.real r.current_position target / r.mm_per_line_segment)
          % 65536).toNat := rfl
  rw [this, Int.emod_eq_of_lt hc hfit, Int.toNat_of_nonneg hc]

/-- Distance between two points that differ in `x` only. -/
theorem distance_along_x (a b y z : ℝ) :
    distance Libm.real ⟨a, y, z⟩ ⟨b, y, z⟩ = |b - a| := by
  simp only [distance, Libm.real, sub_self]
  rw [show (b - a) ^ 2 + 0 ^ 2 + 0 ^ 2 = (b - a) ^ 2 by ring]
  exact Real.sqrt_sq_eq_abs _

/-- A move of 0.0012 along X cut into two steps of 0.0006: the first milestone is discarded
as negligible and the only block spans the whole move. -/
theorem append_line_negligible_step (r : Robot ℝ) (rate : ℝ)
    (hcur : r.current_position = ⟨0, 0, 0⟩) (hlm : r.last_milestone = ⟨0, 0, 0⟩)
    (hmm : r.mm_per_line_segment = 3 / 5000) :
    append_line Libm.real r ⟨3 / 2500, 0, 0⟩ rate
      = ({ r with last_milestone := ⟨3 / 2500, 0, 0⟩ },
          [⟨⟨3 / 5000, 0, 0⟩, rate, none⟩,
            emitted r ⟨3 / 2500, 0, 0⟩ rate (3 / 2500) ⟨3 / 2500, 0, 0⟩]) := by
  have hc : Int.ceil ((3 / 2500 : ℝ) / (3 / 5000)) = 2 := by
    rw [show (3 / 2500 : ℝ) / (3 / 5000) = ((2 : ℤ) : ℝ) by norm_num, Int.ceil_intCast]
  have hdist : line_millimeters_of_travel Libm.real r ⟨3 / 2500, 0, 0⟩ = 3 / 2500 := by
    show distance Libm.real r.current_position ⟨3 / 2500, 0, 0⟩ = _
    rw [hcur, distance_along_x, abs_of_pos (by norm_num)]; norm_num
  have hseg : line_segments Libm.real r ⟨3 / 2500, 0, 0⟩ = 2 := by
    unfold line_segments
    rw [hdist, hmm, hc]; rfl
  have hne : line_millimeters_of_travel Libm.real r ⟨3 / 2500, 0, 0⟩ ≠ 0 := by
    rw [hdist]; norm_num
  have hmid : (⟨(0 : ℝ) + (3 / 2500 - 0) / ((2 : ℕ) : ℝ), 0 + (0 - 0) / ((2 : ℕ) : ℝ),
      0 + (0 - 0) / ((2 : ℕ) : ℝ)⟩ : Vec3 ℝ) = ⟨3 / 5000, 0, 0⟩ := by
    norm_num
  have h1 : distance Libm.real r.last_milestone ⟨3 / 5000, 0, 0⟩ < 0.001 := by
    rw [hlm, distance_along_x, abs_of_pos (by norm_num)]; norm_num
  have h2 : ¬ distance Libm.real r.last_milestone ⟨3 / 2500, 0, 0⟩ < 0.001 := by
    rw [hlm, distance_along_x, abs_of_pos (by norm_num)]; norm_num
  have h3 : distance Libm.real r.last_milestone ⟨3 / 2500, 0, 0⟩ = 3 / 2500 := by
    rw [hlm, distance_along_x, abs_of_pos (by norm_num)]; norm_num
  simp only [append_line, if_neg hne, hseg, append_line_loop, hcur, hmid]
  rw [append_milestone_of_lt _ _ _ _ h1, append_milestone_of_not_lt _ _ _ _ h2, h3, hlm]
  simp
  exact hcur

/-- A move of 0.0005 along X: one segment, discarded as negligible. -/
theorem append_line_negligible_move (r : Robot ℝ) (rate : ℝ)
    (hcur : r.current_position = ⟨0, 0, 0⟩) (hlm : r.last_milestone = ⟨0, 0, 0⟩)
    (hmm : r.mm_per_line_segment = 5) :
    append_line Libm.real r ⟨1 / 2000, 0, 0⟩ rate = (r, [⟨⟨1 / 2000, 0, 0⟩, rate, none⟩]) := by
  have hc : Int.ceil ((1 / 2000 : ℝ) / 5) = 1 := by
    rw [Int.ceil_eq_iff]; norm_num
  have hdist : line_millimeters_of_travel Libm.real r ⟨1 / 2000, 0, 0⟩ = 1 / 2000 := by
    show distance Libm.real r.current_position ⟨1 / 2000, 0, 0⟩ = _
    rw [hcur, distance_along_x, abs_of_pos (by norm_num)]; norm_num
  have hseg : line_segments Libm.real r ⟨1 / 2000, 0, 0⟩ = 1 := by
    unfold line_segments
    rw [hdist, hmm, hc]; rfl
  have hne : line_millimeters_of_travel Libm.real r ⟨1 / 2000, 0, 0⟩ ≠ 0 := by
    rw [hdist]; norm_num
  have h1 : distance Libm.real r.last_milestone ⟨1 / 2000, 0, 0⟩ < 0.001 := by
    rw [hlm, distance_along_x, abs_of_pos (by norm_num)]; norm_num
  simp only [append_line, if_neg hne, hseg, append_line_loop]
  rw [append_milestone_of_lt _ _ _ _ h1]
  simp

/-- The `G` switch does not move `current_position`. -/
theorem execute_modal_current_position {α : Type} [LinearOrderedField α] [FloorRing α]
    (r : Robot α) (g : Gcode α) :
    (execute_modal r g).current_position = r.current_position := by
  simp only [execute_modal, select_plane, apply_ite Robot.current_position, ite_self]

/-- The loop over `X`, `Y`, `Z` computes the resolved components. -/
theorem gcode_target_eq {α : Type} [LinearOrderedField α] [FloorRing α]
    (s : Robot α) (g : Gcode α) :
    gcode_target s g
      = ⟨resolved_component s.inch_mode s.absolute_mode g 'X' s.current_position.x,
          resolved_component s.inch_mode s.absolute_mode g 'Y' s.current_position.y,
          resolved_component s.inch_mode s.absolute_mode g 'Z' s.current_position.z⟩ := by
  simp only [gcode_target, axis_letters, List.foldl, resolved_component, to_millimeters]
  cases g.has_letter 'X' <;> cases g.has_letter 'Y' <;> cases g.has_letter 'Z' <;>
    cases s.absolute_mode <;> cases s.inch_mode <;>
    simp [Vec3.set, Vec3.get, add_comm]

/-- After `execute_gcode` the position is the target computed under the updated modes. -/
theorem execute_gcode_current_position {α : Type} [LinearOrderedField α] [FloorRing α]
    (m : Libm α) (r : Robot α) (g : Gcode α) :
    (execute_gcode m r g).1.current_position = gcode_target (execute_modal r g) g := rfl

/-- Nothing moved. -/
theorem only_milestone_moved_refl {α : Type} (r : Robot α) : only_milestone_moved r r := rfl

/-- Two steps that move `last_milestone` only. -/
theorem only_milestone_moved_trans {α : Type} {a b c : Robot α}
    (h1 : only_milestone_moved a b) (h2 : only_milestone_moved b c) :
    only_milestone_moved a c := by
  unfold only_milestone_moved at *
  rw [h2, h1]

/-- Function `append_milestone` changes `last_milestone` only. -/
theorem append_milestone_frame {α : Type} [LinearOrderedField α] (m : Libm α) (r : Robot α)
    (target : Vec3 α) (rate : α) :
    only_milestone_moved r (append_milestone m r target rate).1 := by
  simp only [append_milestone, only_milestone_moved]
  split <;> rfl

/-- The loop of `append_line` changes `last_milestone` only. -/
theorem append_line_loop_frame {α : Type} [LinearOrderedField α] (m : Libm α)
    (target : Vec3 α) (rate : α) (n k : Nat) : ∀ (r : Robot α) (temp : Vec3 α),
    only_milestone_moved r (append_line_loop m target rate n k r temp).1 := by
  induction k with
  | zero => intro r temp; exact only_milestone_moved_refl r
  | succ k ih =>
    intro r temp
    simp only [append_line_loop]
    exact only_milestone_moved_trans (append_milestone_frame m r _ rate) (ih _ _)

/-- Function `append_line` changes `last_milestone` only. -/
theorem append_line_frame {α : Type} [LinearOrderedField α] [FloorRing α] (m : Libm α)
    (r : Robot α) (target : Vec3 α) (rate : α) :
    only_milestone_moved r (append_line m r target rate).1 := by
  simp only [append_line]
  split
  · exact only_milestone_moved_refl r
  · exact only_milestone_moved_trans (append_line_loop_frame m target rate _ _ r _)
      (append_milestone_frame m _ target rate)

/-- The loop of `append_arc` changes `last_milestone` only. -/
theorem append_arc_loop_frame {α : Type} [LinearOrderedField α] (m : Libm α) (offset : Vec3 α)
    (c0 c1 th lin cos_T sin_T : α) (k : Nat) :
    ∀ (i : Nat) (r : Robot α) (r0 r1 : α) (count : Nat) (arc_target : Vec3 α),
    only_milestone_moved r
      (append_arc_loop m offset c0 c1 th lin cos_T sin_T k i r r0 r1 count arc_target).1 := by
  induction k with
  | zero => intro i r r0 r1 count arc_target; exact only_milestone_moved_refl r
  | succ k ih =>
    intro i r r0 r1 count arc_target
    simp only [append_arc_loop]
    exact only_milestone_moved_trans (append_milestone_frame m r _ _) (ih _ _ _ _ _ _)

/-- Function `append_arc` changes `last_milestone` only. -/
theorem append_arc_frame {α : Type} [LinearOrderedField α] [FloorRing α] (m : Libm α)
    (r : Robot α) (target offset : Vec3 α) (radius : α) (is_clockwise : Bool) :
    only_milestone_moved r (append_arc m r target offset radius is_clockwise).1 := by
  simp only [append_arc]
  split
  · exact only_milestone_moved_refl r
  · exact only_milestone_moved_trans (append_arc_loop_frame m offset _ _ _ _ _ _ _ _ r _ _ _ _)
      (append_milestone_frame m _ target _)

/-- The motion dispatched by `execute_gcode` changes `last_milestone` only; afterwards
`current_position` becomes the target. -/
theorem execute_gcode_frame {α : Type} [LinearOrderedField α] [FloorRing α] (m : Libm α)
    (r : Robot α) (g : Gcode α) :
    (execute_gcode m r g).1
      = { execute_feed (execute_modal r g) g with
          last_milestone := (execute_gcode m r g).1.last_milestone,
          current_position := gcode_target (execute_modal r g) g } := by
  have key : ∀ s : Robot α × List (Milestone α),
      only_milestone_moved (execute_feed (execute_modal r g) g) s.1 →
      ({ s.1 with current_position := gcode_target (execute_modal r g) g } : Robot α)
        = { execute_feed (execute_modal r g) g with
            last_milestone := s.1.last_milestone,
            current_position := gcode_target (execute_modal r g) g } := by
    intro s hs
    rw [hs]
  simp only [execute_gcode]
  split
  · rfl
  · exact key _ (append_line_frame m _ _ _)
  · exact key _ (append_line_frame m _ _ _)
  · exact key _ (append_arc_frame m _ _ _ _ _)
  · exact key _ (append_arc_frame m _ _ _ _ _)

/-- The `F` word changes a rate only. -/
theorem execute_feed_modes {α : Type} [LinearOrderedField α] (r : Robot α) (g : Gcode α) :
    (execute_feed r g).inch_mode = r.inch_mode
    ∧ (execute_feed r g).absolute_mode = r.absolute_mode
    ∧ (execute_feed r g).motion_mode = r.motion_mode := by
  simp only [execute_feed]
  split_ifs <;> exact ⟨rfl, rfl, rfl⟩

/-- After `execute_gcode` the units and the positioning mode are those set by the `G` switch. -/
theorem execute_gcode_modes {α : Type} [LinearOrderedField α] [FloorRing α] (m : Libm α)
    (r : Robot α) (g : Gcode α) :
    (execute_gcode m r g).1.inch_mode = (execute_modal r g).inch_mode
    ∧ (execute_gcode m r g).1.absolute_mode = (execute_modal r g).absolute_mode := by
  rw [execute_gcode_frame]
  exact ⟨(execute_feed_modes _ g).1, (execute_feed_modes _ g).2.1⟩

/-- Each component of the target is the resolved component of its axis letter. -/
theorem gcode_target_get {α : Type} [LinearOrderedField α] [FloorRing α]
    (s : Robot α) (g : Gcode α) (la : Char × Axis) (hla : la ∈ axis_letters) :
    (gcode_target s g).get la.2
      = resolved_component s.inch_mode s.absolute_mode g la.1 (s.current_position.get la.2) := by
  rw [gcode_target_eq]
  simp only [axis_letters, List.mem_cons, List.mem_singleton, List.not_mem_nil, or_false] at hla
  rcases hla with h | h | h <;> subst h <;> rfl

/-- In relative mode and millimetre units a command moves an axis by the value of its letter. -/
theorem relative_move {α : Type} [LinearOrderedField α] [FloorRing α] (m : Libm α)
    (r : Robot α) (gcode : Gcode α) (la : Char × Axis) (hla : la ∈ axis_letters)
    (hmm : (execute_modal r gcode).inch_mode = false)
    (hrel : (execute_modal r gcode).absolute_mode = false)
    (hletter : gcode.has_letter la.1 = true) :
    (execute_gcode m r gcode).1.current_position.get la.2
      = r.current_position.get la.2 + gcode.get_value la.1 := by
  rw [execute_gcode_current_position, gcode_target_get _ _ _ hla,
    execute_modal_current_position]
  simp [resolved_component, hmm, hrel, hletter]

/-- The word `G1` first in a command selects linear motion and nothing else. -/
theorem execute_modal_linear {α : Type} [LinearOrderedField α] [FloorRing α]
    (r : Robot α) (c : Char) (v : α) :
    execute_modal r ⟨[('G', 1), (c, v)]⟩
      = { r with motion_mode := MotionMode.MOTION_MODE_LINEAR } := by
  have hG : to_int (1 : α) = 1 := by simpa using @to_int_natCast α _ _ 1
  simp [execute_modal, Gcode.has_letter, Gcode.get_value, List.find?, hG]

/-- One relative `G1` move of `+1` on an axis keeps the modes and adds `1` to the component. -/
theorem relative_unit_move {α : Type} [LinearOrderedField α] [FloorRing α] (m : Libm α)
    (r : Robot α) (la : Char × Axis) (hla : la ∈ axis_letters)
    (hmm : r.inch_mode = false) (hrel : r.absolute_mode = false) :
    (execute_gcode m r ⟨[('G', 1), (la.1, 1)]⟩).1.inch_mode = false
    ∧ (execute_gcode m r ⟨[('G', 1), (la.1, 1)]⟩).1.absolute_mode = false
    ∧ (execute_gcode m r ⟨[('G', 1), (la.1, 1)]⟩).1.current_position.get la.2
        = r.current_position.get la.2 + 1 := by
  have hne : la.1 ≠ 'G' := by
    simp only [axis_letters, List.mem_cons, List.mem_singleton, List.not_mem_nil, or_false] at hla
    rcases hla with h | h | h <;> subst h <;> decide
  have hmod := execute_modal_linear r la.1 (1 : α)
  have hl : (⟨[('G', 1), (la.1, 1)]⟩ : Gcode α).has_letter la.1 = true := by
    simp [Gcode.has_letter]
  have hv : (⟨[('G', 1), (la.1, 1)]⟩ : Gcode α).get_value la.1 = 1 := by
    have : (('G' : Char) == la.1) = false := by
      simpa using fun h : 'G' = la.1 => hne h.symm
    simp [Gcode.get_value, List.find?, this]
  have hm := execute_gcode_modes m r ⟨[('G', 1), (la.1, 1)]⟩
  rw [hmod] at hm
  refine ⟨hm.1.trans hmm, hm.2.trans hrel, ?_⟩
  rw [relative_move m r _ la hla (by rw [hmod]; exact hmm) (by rw [hmod]; exact hrel) hl, hv]

/-- The record of an `append_milestone` call carries the point handed to it. -/
theorem append_milestone_target {α : Type} [LinearOrderedField α] (m : Libm α) (r : Robot α)
    (target : Vec3 α) (rate : α) : (append_milestone m r target rate).2.target = target := by
  simp only [append_milestone]
  split <;> rfl

/-- The trace of an arc of nonzero path length ends with the call on the target. -/
theorem append_arc_trace {α : Type} [LinearOrderedField α] [FloorRing α] (m : Libm α)
    (r : Robot α) (target offset : Vec3 α) (radius : α) (is_clockwise : Bool)
    (h : arc_millimeters_of_travel m r target offset radius is_clockwise ≠ 0) :
    ∃ (init : List (Milestone α)) (r1 : Robot α),
      (append_arc m r target offset radius is_clockwise).2
        = init ++ [(append_milestone m r1 target r.feed_rate).2] := by
  simp only [append_arc, if_neg h]
  exact ⟨_, _, rfl⟩

/-- In the arc scenario the clockwise angular travel is `-3π/2`. -/
theorem arc_scenario_angular_travel (r : Robot ℝ) :
    arc_angular_travel Libm.real (arc_scenario r) ⟨0, 10, 0⟩ ⟨-10, 0, 0⟩ true
      = -(3 * Real.pi / 2) := by
  have h : Complex.arg ⟨0, 100⟩ = Real.pi / 2 := by
    rw [Complex.arg_eq_pi_div_two_iff]; norm_num
  have hpos : ¬ (Real.pi / 2 < 0) := by
    have := Real.pi_pos; linarith
  simp only [arc_angular_travel, arc_scenario, select_plane, Vec3.get, Libm.real]
  norm_num [h, hpos]
  ring

/-- In the arc scenario the radius is `10`. -/
theorem arc_scenario_radius (r : Robot ℝ) :
    arc_radius Libm.real (arc_scenario r) ⟨-10, 0, 0⟩ = 10 := by
  simp only [arc_radius, arc_scenario, select_plane, Vec3.get, Libm.real]
  rw [show ((-10 : ℝ)) ^ 2 + 0 ^ 2 = 10 ^ 2 by norm_num]
  exact Real.sqrt_sq (by norm_num)

/-- In the arc scenario the path length is `15π`. -/
theorem arc_scenario_travel (r : Robot ℝ) :
    arc_millimeters_of_travel Libm.real (arc_scenario r) ⟨0, 10, 0⟩ ⟨-10, 0, 0⟩ 10 true
      = 15 * Real.pi := by
  simp only [arc_millimeters_of_travel, arc_scenario_angular_travel]
  simp only [arc_scenario, select_plane, Vec3.get, Libm.real]
  rw [show (-(3 * Real.pi / 2) * 10) ^ 2 + |(0:ℝ) - 0| ^ 2 = (15 * Real.pi) ^ 2 by
    norm_num; ring]
  exact Real.sqrt_sq (by positivity)

/-- The last milestone of an arc of nonzero path length is the target. -/
theorem append_arc_last {α : Type} [LinearOrderedField α] [FloorRing α] (m : Libm α)
    (r : Robot α) (target offset : Vec3 α) (radius : α) (is_clockwise : Bool)
    (h : arc_millimeters_of_travel m r target offset radius is_clockwise ≠ 0) :
    ((append_arc m r target offset radius is_clockwise).2.getLast?).map (fun c => c.target)
      = some target := by
  obtain ⟨init, r1, h1⟩ := append_arc_trace m r target offset radius is_clockwise h
  rw [h1, List.getLast?_append, List.getLast?_singleton]
  simp [append_milestone_target]

/-- The quarter circle of radius `1` has path length `π/2`. -/
theorem small_arc_travel :
    arc_millimeters_of_travel Libm.real small_arc_robot ⟨0, 1, 0⟩ ⟨-1, 0, 0⟩
        (arc_radius Libm.real small_arc_robot ⟨-1, 0, 0⟩) false = Real.pi / 2 := by
  have h : Complex.arg ⟨0, 1⟩ = Real.pi / 2 := by
    rw [Complex.arg_eq_pi_div_two_iff]; norm_num
  have hpos : ¬ (Real.pi / 2 < 0) := by
    have := Real.pi_pos; linarith
  have hr : arc_radius Libm.real small_arc_robot ⟨-1, 0, 0⟩ = 1 := by
    simp [arc_radius, small_arc_robot, Vec3.get, Libm.real]
  have ha : arc_angular_travel Libm.real small_arc_robot ⟨0, 1, 0⟩ ⟨-1, 0, 0⟩ false
      = Real.pi / 2 := by
    simp only [arc_angular_travel, small_arc_robot, Vec3.get, Libm.real]
    norm_num [h, hpos]
  simp only [arc_millimeters_of_travel, ha, hr]
  simp only [small_arc_robot, Vec3.get, Libm.real]
  rw [show (Real.pi / 2 * 1) ^ 2 + |(0 : ℝ) - 0| ^ 2 = (Real.pi / 2) ^ 2 by norm_num]
  exact Real.sqrt_sq (by positivity)

/-- The move from the origin to `(10,0,0)` has length `10`. -/
theorem origin_line_distance :
    distance Libm.real (origin_robot 5 1 : Robot ℝ).current_position ⟨10, 0, 0⟩ = 10 := by
  show distance Libm.real ⟨0, 0, 0⟩ ⟨10, 0, 0⟩ = 10
  rw [distance_along_x, abs_of_pos (by norm_num)]; norm_num

/-- The move from the origin to `(10,0,0)` with segments of `5` needs two of them. -/
theorem origin_line_ceil :
    Int.ceil (distance Libm.real (origin_robot 5 1 : Robot ℝ).current_position ⟨10, 0, 0⟩
      / (origin_robot 5 1 : Robot ℝ).mm_per_line_segment) = 2 := by
  rw [origin_line_distance]
  show Int.ceil ((10 : ℝ) / 5) = 2
  rw [show (10 : ℝ) / 5 = ((2 : ℤ) : ℝ) by norm_num, Int.ceil_intCast]

/-- The move from the origin to `(10,0,0)` is cut into two segments. -/
theorem origin_line_segments :
    line_segments Libm.real (origin_robot 5 1 : Robot ℝ) ⟨10, 0, 0⟩ = 2 := by
  have h := origin_line_ceil
  unfold line_segments
  rw [show line_millimeters_of_travel Libm.real (origin_robot 5 1 : Robot ℝ) ⟨10, 0, 0⟩
    = distance Libm.real (origin_robot 5 1 : Robot ℝ).current_position ⟨10, 0, 0⟩ from rfl, h]
  rfl

/-- A command without a `G` word, or with a `G` code that has no `case`, leaves the state
as it is in the `G` switch. -/
theorem execute_modal_unrecognized {α : Type} [LinearOrderedField α] [FloorRing α]
    (r : Robot α) (g : Gcode α)
    (h : g.has_letter 'G' = true → to_int (g.get_value 'G') ∉ recognized_codes) :
    execute_modal r g = r := by
  unfold execute_modal
  by_cases hG : g.has_letter 'G' = true
  · have h' := h hG
    simp only [recognized_codes, List.mem_cons, List.mem_singleton, List.not_mem_nil, or_false,
      not_or] at h'
    obtain ⟨h0, h1, h2, h3, h17, h18, h19, h20, h21, h90, h91⟩ := h'
    simp only [hG, if_true, h0, h1, h2, h3, h17, h18, h19, h20, h21, h90, h91, if_false]
  · simp only [hG, if_false]
    rfl

/-- The `F` word does not touch the plane assignment. -/
theorem execute_feed_planes {α : Type} [LinearOrderedField α] (r : Robot α) (g : Gcode α) :
    (execute_feed r g).plane_axis_0 = r.plane_axis_0
    ∧ (execute_feed r g).plane_axis_1 = r.plane_axis_1
    ∧ (execute_feed r g).plane_axis_2 = r.plane_axis_2 := by
  simp only [execute_feed]
  split_ifs <;> exact ⟨rfl, rfl, rfl⟩

/-- After `execute_gcode` the motion mode, the units, the positioning mode and the plane
assignment are those set by the `G` switch. -/
theorem execute_gcode_modal_fields {α : Type} [LinearOrderedField α] [FloorRing α] (m : Libm α)
    (r : Robot α) (g : Gcode α) :
    (execute_gcode m r g).1.motion_mode = (execute_modal r g).motion_mode
    ∧ (execute_gcode m r g).1.inch_mode = (execute_modal r g).inch_mode
    ∧ (execute_gcode m r g).1.absolute_mode = (execute_modal r g).absolute_mode
    ∧ (execute_gcode m r g).1.plane_axis_0 = (execute_modal r g).plane_axis_0
    ∧ (execute_gcode m r g).1.plane_axis_1 = (execute_modal r g).plane_axis_1
    ∧ (execute_gcode m r g).1.plane_axis_2 = (execute_modal r g).plane_axis_2 := by
  rw [execute_gcode_frame]
  exact ⟨(execute_feed_modes _ g).2.2, (execute_feed_modes _ g).1, (execute_feed_modes _ g).2.1,
    (execute_feed_planes _ g).1, (execute_feed_planes _ g).2.1, (execute_feed_planes _ g).2.2⟩

/-- The `G` switch leaves the state alone, or sets the motion mode, or selects one of the
three plane assignments, or sets the units, or sets the positioning mode. -/
theorem execute_modal_cases {α : Type} [LinearOrderedField α] [FloorRing α]
    (r : Robot α) (g : Gcode α) :
    execute_modal r g = r
    ∨ (∃ mode, execute_modal r g = { r with motion_mode := mode })
    ∨ (∃ p ∈ plane_assignments, execute_modal r g = select_plane r p.1 p.2.1 p.2.2)
    ∨ (∃ b, execute_modal r g = { r with inch_mode := b })
    ∨ (∃ b, execute_modal r g = { r with absolute_mode := b }) := by
  unfold execute_modal
  by_cases hG : g.has_letter 'G' = true
  swap
  · rw [if_neg hG]; exact Or.inl rfl
  rw [if_pos hG]
  dsimp only
  generalize to_int (g.get_value 'G') = code
  by_cases h0 : code = 0
  · rw [if_pos h0]; exact Or.inr (Or.inl ⟨_, rfl⟩)
  rw [if_neg h0]
  by_cases h1 : code = 1
  · rw [if_pos h1]; exact Or.inr (Or.inl ⟨_, rfl⟩)
  rw [if_neg h1]
  by_cases h2 : code = 2
  · rw [if_pos h2]; exact Or.inr (Or.inl ⟨_, rfl⟩)
  rw [if_neg h2]
  by_cases h3 : code = 3
  · rw [if_pos h3]; exact Or.inr (Or.inl ⟨_, rfl⟩)
  rw [if_neg h3]
  by_cases h17 : code = 17
  · rw [if_pos h17]
    exact Or.inr (Or.inr (Or.inl ⟨(Axis.X_AXIS, Axis.Y_AXIS, Axis.Z_AXIS),
      by simp [plane_assignments], rfl⟩))
  rw [if_neg h17]
  by_cases h18 : code = 18
  · rw [if_pos h18]
    exact Or.inr (Or.inr (Or.inl ⟨(Axis.X_AXIS, Axis.Z_AXIS, Axis.Y_AXIS),
      by simp [plane_assignments], rfl⟩))
  rw [if_neg h18]
  by_cases h19 : code = 19
  · rw [if_pos h19]
    exact Or.inr (Or.inr (Or.inl ⟨(Axis.Y_AXIS, Axis.Z_AXIS, Axis.X_AXIS),
      by simp [plane_assignments], rfl⟩))
  rw [if_neg h19]
  by_cases h20 : code = 20
  · rw [if_pos h20]; exact Or.inr (Or.inr (Or.inr (Or.inl ⟨_, rfl⟩)))
  rw [if_neg h20]
  by_cases h21 : code = 21
  · rw [if_pos h21]; exact Or.inr (Or.inr (Or.inr (Or.inl ⟨_, rfl⟩)))
  rw [if_neg h21]
  by_cases h90 : code = 90
  · rw [if_pos h90]; exact Or.inr (Or.inr (Or.inr (Or.inr ⟨_, rfl⟩)))
  rw [if_neg h90]
  by_cases h91 : code = 91
  · rw [if_pos h91]; exact Or.inr (Or.inr (Or.inr (Or.inr ⟨_, rfl⟩)))
  rw [if_neg h91]
  exact Or.inl rfl

/-- The `G` switch keeps the plane assignment among the three that it selects. -/
theorem plane_of_execute_modal {α : Type} [LinearOrderedField α] [FloorRing α]
    (r : Robot α) (g : Gcode α)
    (h : (r.plane_axis_0, r.plane_axis_1, r.plane_axis_2) ∈ plane_assignments) :
    ((execute_modal r g).plane_axis_0, (execute_modal r g).plane_axis_1,
      (execute_modal r g).plane_axis_2) ∈ plane_assignments := by
  rcases execute_modal_cases r g with e | ⟨_, e⟩ | ⟨p, hp, e⟩ | ⟨_, e⟩ | ⟨_, e⟩
  · rw [e]; exact h
  · rw [e]; exact h
  · rw [e]; exact hp
  · rw [e]; exact h
  · rw [e]; exact h

/-- A sequence of commands keeps the plane assignment among the three that are selected. -/
theorem plane_of_execute_gcodes {α : Type} [LinearOrderedField α] [FloorRing α] (m : Libm α)
    (gs : List (Gcode α)) : ∀ r : Robot α,
    (r.plane_axis_0, r.plane_axis_1, r.plane_axis_2) ∈ plane_assignments →
    ((execute_gcodes m r gs).plane_axis_0, (execute_gcodes m r gs).plane_axis_1,
      (execute_gcodes m r gs).plane_axis_2) ∈ plane_assignments := by
  induction gs with
  | nil => intro r h; exact h
  | cons g gs ih =>
    intro r h
    simp only [execute_gcodes, List.foldl]
    apply ih
    obtain ⟨_, _, _, h0, h1, h2⟩ := execute_gcode_modal_fields m r g
    rw [h0, h1, h2]
    exact plane_of_execute_modal r g h

/-- A submitted milestone becomes `last_milestone`. -/
theorem append_milestone_submitted {α : Type} [LinearOrderedField α] (m : Libm α) (r : Robot α)
    (target : Vec3 α) (rate : α)
    (h : (append_milestone m r target rate).2.block.isSome = true) :
    (append_milestone m r target rate).1.last_milestone = target := by
  simp only [append_milestone] at h ⊢
  split at h
  · simp at h
  · rename_i hlt
    rw [if_neg hlt]

/-- The trace of `append_line` is empty and the state unchanged, or the trace ends with the
call of `append_milestone` on the target that produced the final state. -/
theorem append_line_shape {α : Type} [LinearOrderedField α] [FloorRing α] (m : Libm α)
    (r : Robot α) (target : Vec3 α) (rate : α) :
    append_line m r target rate = (r, [])
    ∨ ∃ (init : List (Milestone α)) (r1 : Robot α),
        append_line m r target rate
          = ((append_milestone m r1 target rate).1,
              init ++ [(append_milestone m r1 target rate).2]) := by
  simp only [append_line]
  split
  · exact Or.inl rfl
  · exact Or.inr ⟨_, _, rfl⟩

/-- The trace of `append_arc` is empty and the state unchanged, or the trace ends with the
call of `append_milestone` on the target that produced the final state. -/
theorem append_arc_shape {α : Type} [LinearOrderedField α] [FloorRing α] (m : Libm α)
    (r : Robot α) (target offset : Vec3 α) (radius : α) (is_clockwise : Bool) :
    append_arc m r target offset radius is_clockwise = (r, [])
    ∨ ∃ (init : List (Milestone α)) (r1 : Robot α) (rate : α),
        append_arc m r target offset radius is_clockwise
          = ((append_milestone m r1 target rate).1,
              init ++ [(append_milestone m r1 target rate).2]) := by
  simp only [append_arc]
  split
  · exact Or.inl rfl
  · exact Or.inr ⟨_, _, _, rfl⟩

/-- A command hands no milestone and leaves `last_milestone` alone, or its trace ends with
the call of `append_milestone` on the target that decided `last_milestone`. -/
theorem dispatch_shape {α : Type} [LinearOrderedField α] [FloorRing α] (m : Libm α)
    (r : Robot α) (g : Gcode α) :
    (execute_gcode m r g).1.last_milestone = r.last_milestone ∧ (execute_gcode m r g).2 = []
    ∨ ∃ (init : List (Milestone α)) (r1 : Robot α) (rate : α),
        (execute_gcode m r g).1.last_milestone
            = (append_milestone m r1 (gcode_target (execute_modal r g) g) rate).1.last_milestone
        ∧ (execute_gcode m r g).2
            = init ++ [(append_milestone m r1 (gcode_target (execute_modal r g) g) rate).2] := by
  have hlm : (execute_feed (execute_modal r g) g).last_milestone = r.last_milestone := by
    have h1 : (execute_feed (execute_modal r g) g).last_milestone
        = (execute_modal r g).last_milestone := by
      simp only [execute_feed]; split_ifs <;> rfl
    rw [h1]
    simp only [execute_modal, select_plane, apply_ite Robot.last_milestone, ite_self]
  simp only [execute_gcode]
  split
  · exact Or.inl ⟨hlm, rfl⟩
  · rcases append_line_shape m (execute_feed (execute_modal r g) g)
      (gcode_target (execute_modal r g) g) (execute_feed (execute_modal r g) g).seek_rate
      with e | ⟨init, r1, e⟩
    · rw [e]; exact Or.inl ⟨hlm, rfl⟩
    · rw [e]; exact Or.inr ⟨init, r1, _, rfl, rfl⟩
  · rcases append_line_shape m (execute_feed (execute_modal r g) g)
      (gcode_target (execute_modal r g) g) (execute_feed (execute_modal r g) g).feed_rate
      with e | ⟨init, r1, e⟩
    · rw [e]; exact Or.inl ⟨hlm, rfl⟩
    · rw [e]; exact Or.inr ⟨init, r1, _, rfl, rfl⟩
  · simp only [compute_arc]
    rcases append_arc_shape m (execute_feed (execute_modal r g) g)
      (gcode_target (execute_modal r g) g) (gcode_offset (execute_modal r g) g)
      (arc_radius m (execute_feed (execute_modal r g) g) (gcode_offset (execute_modal r g) g))
      (decide ((execute_feed (execute_modal r g) g).motion_mode = MotionMode.MOTION_MODE_CW_ARC))
      with e | ⟨init, r1, rate, e⟩
    · rw [e]; exact Or.inl ⟨hlm, rfl⟩
    · rw [e]; exact Or.inr ⟨init, r1, rate, rfl, rfl⟩
  · simp only [compute_arc]
    rcases append_arc_shape m (execute_feed (execute_modal r g) g)
      (gcode_target (execute_modal r g) g) (gcode_offset (execute_modal r g) g)
      (arc_radius m (execute_feed (execute_modal r g) g) (gcode_offset (execute_modal r g) g))
      (decide ((execute_feed (execute_modal r g) g).motion_mode = MotionMode.MOTION_MODE_CW_ARC))
      with e | ⟨init, r1, rate, e⟩
    · rw [e]; exact Or.inl ⟨hlm, rfl⟩
    · rw [e]; exact Or.inr ⟨init, r1, rate, rfl, rfl⟩

/-- The command `G1 X0.0005` at the origin: its only milestone is discarded, so
`last_milestone` stays at the origin while `current_position` moves to the target. -/
theorem negligible_command :
    execute_gcode Libm.real (origin_robot 5 1) ⟨[('G', 1), ('X', 1 / 2000)]⟩
      = ({ (origin_robot 5 1 : Robot ℝ) with
            motion_mode := MotionMode.MOTION_MODE_LINEAR,
            current_position := ⟨1 / 2000, 0, 0⟩ },
          [⟨⟨1 / 2000, 0, 0⟩, 1, none⟩]) := by
  have hm := execute_modal_linear (origin_robot (5 : ℝ) 1) 'X' (1 / 2000)
  have ht : gcode_target ({ (origin_robot 5 1 : Robot ℝ) with
      motion_mode := MotionMode.MOTION_MODE_LINEAR }) ⟨[('G', 1), ('X', 1 / 2000)]⟩
      = ⟨1 / 2000, 0, 0⟩ := by
    simp [gcode_target, axis_letters, Gcode.has_letter, Gcode.get_value, List.find?,
      to_millimeters, Vec3.set, origin_robot]
  have hf : execute_feed ({ (origin_robot 5 1 : Robot ℝ) with
      motion_mode := MotionMode.MOTION_MODE_LINEAR }) ⟨[('G', 1), ('X', 1 / 2000)]⟩
      = { (origin_robot 5 1 : Robot ℝ) with motion_mode := MotionMode.MOTION_MODE_LINEAR } := by
    simp [execute_feed, Gcode.has_letter]
  simp only [execute_gcode, hm, ht, hf]
  rw [append_line_negligible_move _ _ rfl rfl rfl]
  rfl

/-- The command `X10` at the origin in seek mode is the line move to `(10,0,0)`. -/
theorem origin_seek_command :
    (execute_gcode Libm.real (origin_robot 5 1) ⟨[('X', 10)]⟩).2
      = (append_line Libm.real (origin_robot 5 1) ⟨10, 0, 0⟩ 1).2 := by
  have hm : execute_modal (origin_robot (5 : ℝ) 1) ⟨[('X', 10)]⟩ = origin_robot 5 1 := by
    simp [execute_modal, Gcode.has_letter]
  have ht : gcode_target (origin_robot (5 : ℝ) 1) ⟨[('X', 10)]⟩ = ⟨10, 0, 0⟩ := by
    simp [gcode_target, axis_letters, Gcode.has_letter, Gcode.get_value, List.find?,
      to_millimeters, Vec3.set, origin_robot]
  have hf : execute_feed (origin_robot (5 : ℝ) 1) ⟨[('X', 10)]⟩ = origin_robot 5 1 := by
    simp [execute_feed, Gcode.has_letter]
  simp only [execute_gcode, hm, ht, hf]
  rfl

/-- The move from the origin to `(10,0,0)` ends with a submitted milestone. -/
theorem origin_line_last :
    ∃ c, (append_line Libm.real (origin_robot 5 1) ⟨10, 0, 0⟩ 1).2.getLast? = some c
      ∧ c.block.isSome = true := by
  have hd : ¬ distance Libm.real (origin_robot 5 1 : Robot ℝ).current_position ⟨10, 0, 0⟩
      / line_segments Libm.real (origin_robot 5 1) ⟨10, 0, 0⟩ < 0.001 := by
    rw [origin_line_distance, origin_line_segments]; norm_num
  rw [append_line_eq _ _ _ rfl hd, List.getLast?_append, List.getLast?_singleton]
  exact ⟨_, rfl, rfl⟩

/-- Function `append_milestone` does not move `current_position`. -/
theorem append_milestone_current_position {α : Type} [LinearOrderedField α] (m : Libm α)
    (r : Robot α) (target : Vec3 α) (rate : α) :
    (append_milestone m r target rate).1.current_position = r.current_position := by
  rw [append_milestone_frame m r target rate]

/-- The points handed to `append_milestone` by the loop of `append_line`, started on the
`j`-th interpolated point, are the next `k` interpolated points. -/
theorem append_line_loop_targets {α : Type} [LinearOrderedField α] (m : Libm α)
    (target : Vec3 α) (rate : α) (n k : Nat) : ∀ (j : Nat) (r : Robot α),
    (append_line_loop m target rate n k r (line_point r.current_position target n j)).2.map
        (fun c => c.target)
      = (List.range k).map (fun i => line_point r.current_position target n (j + i + 1)) := by
  induction k with
  | zero => intro j r; rfl
  | succ k ih =>
    intro j r
    have hp : (⟨(line_point r.current_position target n j).x
          + (target.x - r.current_position.x) / n,
        (line_point r.current_position target n j).y + (target.y - r.current_position.y) / n,
        (line_point r.current_position target n j).z
          + (target.z - r.current_position.z) / n⟩ : Vec3 α)
        = line_point r.current_position target n (j + 1) := by
      ext <;> simp only [line_point] <;> push_cast <;> ring
    simp only [append_line_loop, hp, List.map_cons, append_milestone_target]
    have := ih (j + 1) (append_milestone m r (line_point r.current_position target n (j + 1))
      rate).1
    rw [append_milestone_current_position] at this
    rw [this, List.range_succ_eq_map, List.map_cons, List.map_map]
    simp only [Nat.add_zero, List.cons.injEq, true_and]
    apply List.map_congr_left
    intro i _
    simp only [Function.comp, Nat.succ_eq_add_one]
    congr 1
    omega

/-- The `i`-th of `n` equal steps is the point at fraction `i / n`. -/
theorem line_point_eq_interpolate {α : Type} [LinearOrderedField α] (c target : Vec3 α)
    (n i : Nat) : line_point c target n i = interpolate c target ((i : α) / n) := by
  ext <;> simp only [line_point, interpolate] <;> ring

/-- The points handed to `append_milestone` by a line move of nonzero length. -/
theorem append_line_targets {α : Type} [LinearOrderedField α] [FloorRing α] (m : Libm α)
    (r : Robot α) (target : Vec3 α) (rate : α)
    (hd : line_millimeters_of_travel m r target ≠ 0) :
    (append_line m r target rate).2.map (fun c => c.target)
      = (List.range (line_segments m r target - 1)).map
          (fun i => interpolate r.current_position target
            (((i + 1 : ℕ) : α) / (line_segments m r target : ℕ)))
        ++ [target] := by
  have h0 : line_point r.current_position target (line_segments m r target) 0
      = r.current_position := by
    ext <;> simp [line_point]
  have := append_line_loop_targets m target rate (line_segments m r target)
    (line_segments m r target - 1) 0 r
  rw [h0] at this
  simp only [append_line, if_neg hd, List.map_append, this, List.map_cons, List.map_nil,
    append_milestone_target, line_point_eq_interpolate, Nat.zero_add]

/-- One iteration of the loop of `append_arc` updates `r_axis0`, `r_axis1` and `count` by
`arc_rotate`, hands the point built from the rotated vector to `append_milestone` and goes
on with them. -/
theorem append_arc_loop_step {α : Type} [LinearOrderedField α] (m : Libm α) (offset : Vec3 α)
    (c0 c1 th lin cos_T sin_T : α) (n i : Nat) (r : Robot α) (r0 r1 : α) (count : Nat)
    (arc_target : Vec3 α) :
    append_arc_loop m offset c0 c1 th lin cos_T sin_T (n + 1) i r r0 r1 count arc_target
      = ((append_arc_loop m offset c0 c1 th lin cos_T sin_T n (i + 1)
            (append_milestone m r
              (arc_point r.plane_axis_0 r.plane_axis_1 r.plane_axis_2 c0 c1 lin arc_target
                (arc_rotate m (offset.get r.plane_axis_0) (offset.get r.plane_axis_1)
                  th cos_T sin_T i r0 r1 count))
              r.feed_rate).1
            (arc_rotate m (offset.get r.plane_axis_0) (offset.get r.plane_axis_1)
              th cos_T sin_T i r0 r1 count).1
            (arc_rotate m (offset.get r.plane_axis_0) (offset.get r.plane_axis_1)
              th cos_T sin_T i r0 r1 count).2.1
            (arc_rotate m (offset.get r.plane_axis_0) (offset.get r.plane_axis_1)
              th cos_T sin_T i r0 r1 count).2.2
            (arc_point r.plane_axis_0 r.plane_axis_1 r.plane_axis_2 c0 c1 lin arc_target
              (arc_rotate m (offset.get r.plane_axis_0) (offset.get r.plane_axis_1)
                th cos_T sin_T i r0 r1 count))).1,
          (append_milestone m r
              (arc_point r.plane_axis_0 r.plane_axis_1 r.plane_axis_2 c0 c1 lin arc_target
                (arc_rotate m (offset.get r.plane_axis_0) (offset.get r.plane_axis_1)
                  th cos_T sin_T i r0 r1 count))
              r.feed_rate).2
            :: (append_arc_loop m offset c0 c1 th lin cos_T sin_T n (i + 1)
            (append_milestone m r
              (arc_point r.plane_axis_0 r.plane_axis_1 r.plane_axis_2 c0 c1 lin arc_target
                (arc_rotate m (offset.get r.plane_axis_0) (offset.get r.plane_axis_1)
                  th cos_T sin_T i r0 r1 count))
              r.feed_rate).1
            (arc_rotate m (offset.get r.plane_axis_0) (offset.get r.plane_axis_1)
              th cos_T sin_T i r0 r1 count).1
            (arc_rotate m (offset.get r.plane_axis_0) (offset.get r.plane_axis_1)
              th cos_T sin_T i r0 r1 count).2.1
            (arc_rotate m (offset.get r.plane_axis_0) (offset.get r.plane_axis_1)
              th cos_T sin_T i r0 r1 count).2.2
            (arc_point r.plane_axis_0 r.plane_axis_1 r.plane_axis_2 c0 c1 lin arc_target
              (arc_rotate m (offset.get r.plane_axis_0) (offset.get r.plane_axis_1)
                th cos_T sin_T i r0 r1 count))).2) :=
  rfl

/-- Function `append_milestone` does not touch the plane assignment. -/
theorem append_milestone_planes {α : Type} [LinearOrderedField α] (m : Libm α)
    (r : Robot α) (target : Vec3 α) (rate : α) :
    (append_milestone m r target rate).1.plane_axis_0 = r.plane_axis_0
    ∧ (append_milestone m r target rate).1.plane_axis_1 = r.plane_axis_1
    ∧ (append_milestone m r target rate).1.plane_axis_2 = r.plane_axis_2 := by
  rw [append_milestone_frame m r target rate]
  exact ⟨rfl, rfl, rfl⟩

/-- The points handed to `append_milestone` by the loop of `append_arc`, entered after the
iteration of index `j` with the loop-carried radius vector and counter of that index, are
built from the radius vectors of the following indices. -/
theorem append_arc_loop_targets {α : Type} [LinearOrderedField α] (m : Libm α)
    (offset : Vec3 α) (c0 c1 th lin cos_T sin_T : α) (n : Nat) :
    ∀ (j : Nat) (r : Robot α) (arc_target : Vec3 α),
    (append_arc_loop m offset c0 c1 th lin cos_T sin_T n (j + 1) r
        (arc_radius_vector m (offset.get r.plane_axis_0) (offset.get r.plane_axis_1)
          th cos_T sin_T j).1
        (arc_radius_vector m (offset.get r.plane_axis_0) (offset.get r.plane_axis_1)
          th cos_T sin_T j).2.1
        (arc_radius_vector m (offset.get r.plane_axis_0) (offset.get r.plane_axis_1)
          th cos_T sin_T j).2.2
        arc_target).2.map (fun c => c.target)
      = arc_points r.plane_axis_0 r.plane_axis_1 r.plane_axis_2 c0 c1 lin
          (arc_radius_vector m (offset.get r.plane_axis_0) (offset.get r.plane_axis_1)
            th cos_T sin_T) n j arc_target := by
  induction n with
  | zero => intro j r arc_target; rfl
  | succ n ih =>
    intro j r arc_target
    rw [append_arc_loop_step]
    simp only [List.map_cons, append_milestone_target, arc_points]
    have hS : arc_rotate m (offset.get r.plane_axis_0) (offset.get r.plane_axis_1)
        th cos_T sin_T (j + 1)
        (arc_radius_vector m (offset.get r.plane_axis_0) (offset.get r.plane_axis_1)
          th cos_T sin_T j).1
        (arc_radius_vector m (offset.get r.plane_axis_0) (offset.get r.plane_axis_1)
          th cos_T sin_T j).2.1
        (arc_radius_vector m (offset.get r.plane_axis_0) (offset.get r.plane_axis_1)
          th cos_T sin_T j).2.2
        = arc_radius_vector m (offset.get r.plane_axis_0) (offset.get r.plane_axis_1)
          th cos_T sin_T (j + 1) := rfl
    rw [hS]
    obtain ⟨h0, h1, h2⟩ := append_milestone_planes m r
      (arc_point r.plane_axis_0 r.plane_axis_1 r.plane_axis_2 c0 c1 lin arc_target
        (arc_radius_vector m (offset.get r.plane_axis_0) (offset.get r.plane_axis_1)
          th cos_T sin_T (j + 1))) r.feed_rate
    have := ih (j + 1) (append_milestone m r
      (arc_point r.plane_axis_0 r.plane_axis_1 r.plane_axis_2 c0 c1 lin arc_target
        (arc_radius_vector m (offset.get r.plane_axis_0) (offset.get r.plane_axis_1)
          th cos_T sin_T (j + 1))) r.feed_rate).1
      (arc_point r.plane_axis_0 r.plane_axis_1 r.plane_axis_2 c0 c1 lin arc_target
        (arc_radius_vector m (offset.get r.plane_axis_0) (offset.get r.plane_axis_1)
          th cos_T sin_T (j + 1)))
    rw [h0, h1, h2] at this
    rw [this]

/-- The drift counter after the iteration of index `k` is `k mod 26`. -/
theorem arc_radius_vector_count {α : Type} [LinearOrderedField α] (m : Libm α)
    (o0 o1 th cos_T sin_T : α) (k : Nat) :
    (arc_radius_vector m o0 o1 th cos_T sin_T k).2.2 = k % 26 := by
  induction k with
  | zero => rfl
  | succ k ih =>
    simp only [arc_radius_vector, arc_rotate, ih]
    split_ifs with h
    · simp only; omega
    · simp only; omega

/-- An iteration whose index is not a multiple of `26` applies the small-angle rotation. -/
theorem arc_radius_vector_approx {α : Type} [LinearOrderedField α] (m : Libm α)
    (o0 o1 th cos_T sin_T : α) (k : Nat) (h : (k + 1) % 26 ≠ 0) :
    arc_radius_vector m o0 o1 th cos_T sin_T (k + 1)
      = ((arc_radius_vector m o0 o1 th cos_T sin_T k).1 * cos_T
            - (arc_radius_vector m o0 o1 th cos_T sin_T k).2.1 * sin_T,
          (arc_radius_vector m o0 o1 th cos_T sin_T k).1 * sin_T
            + (arc_radius_vector m o0 o1 th cos_T sin_T k).2.1 * cos_T,
          (arc_radius_vector m o0 o1 th cos_T sin_T k).2.2 + 1) := by
  have hc := arc_radius_vector_count m o0 o1 th cos_T sin_T k
  have hlt : (arc_radius_vector m o0 o1 th cos_T sin_T k).2.2 < 25 := by omega
  simp only [arc_radius_vector, arc_rotate, if_pos hlt]

/-- An iteration whose index is a multiple of `26` recomputes the radius vector from the
offset with `cos` and `sin` of the cumulative angle and resets the counter. -/
theorem arc_radius_vector_exact {α : Type} [LinearOrderedField α] (m : Libm α)
    (o0 o1 th cos_T sin_T : α) (k : Nat) (h : (k + 1) % 26 = 0) :
    arc_radius_vector m o0 o1 th cos_T sin_T (k + 1)
      = ((rotate_vector m (-o0) (-o1) (((k + 1 : ℕ) : α) * th)).1,
          (rotate_vector m (-o0) (-o1) (((k + 1 : ℕ) : α) * th)).2, 0) := by
  have hc := arc_radius_vector_count m o0 o1 th cos_T sin_T k
  have hlt : ¬ (arc_radius_vector m o0 o1 th cos_T sin_T k).2.2 < 25 := by omega
  simp only [arc_radius_vector, arc_rotate, if_neg hlt, rotate_vector, Prod.mk.injEq, and_true]
  constructor <;> ring

/-- The small-angle rotation scales the squared length by `1 + θ⁴/4`. -/
theorem small_angle_sq (th x y : ℝ) :
    (x * (1 - 0.5 * th * th) - y * th) ^ 2 + (x * th + y * (1 - 0.5 * th * th)) ^ 2
      = (1 + th ^ 4 / 4) * (x ^ 2 + y ^ 2) := by
  norm_num
  ring

/-- For a full-circle request (target = start) the `atan2` of `append_arc` is `0`. -/
theorem full_circle_atan2 (r : Robot ℝ) (offset : Vec3 ℝ) :
    arc_angular_travel Libm.real r r.current_position offset false = 0
    ∧ arc_angular_travel Libm.real r r.current_position offset true = -(2 * Real.pi) := by
  have h : Complex.arg
      ⟨-offset.get r.plane_axis_0 * (r.current_position.get r.plane_axis_0
            - (r.current_position.get r.plane_axis_0 + offset.get r.plane_axis_0))
          + -offset.get r.plane_axis_1 * (r.current_position.get r.plane_axis_1
            - (r.current_position.get r.plane_axis_1 + offset.get r.plane_axis_1)),
        -offset.get r.plane_axis_0 * (r.current_position.get r.plane_axis_1
            - (r.current_position.get r.plane_axis_1 + offset.get r.plane_axis_1))
          - -offset.get r.plane_axis_1 * (r.current_position.get r.plane_axis_0
            - (r.current_position.get r.plane_axis_0 + offset.get r.plane_axis_0))⟩ = 0 := by
    rw [Complex.arg_eq_zero_iff]
    constructor
    · show 0 ≤ -offset.get r.plane_axis_0 * (r.current_position.get r.plane_axis_0
            - (r.current_position.get r.plane_axis_0 + offset.get r.plane_axis_0))
          + -offset.get r.plane_axis_1 * (r.current_position.get r.plane_axis_1
            - (r.current_position.get r.plane_axis_1 + offset.get r.plane_axis_1))
      nlinarith [sq_nonneg (offset.get r.plane_axis_0), sq_nonneg (offset.get r.plane_axis_1)]
    · show _ = (0 : ℝ)
      ring
  simp only [arc_angular_travel, Libm.real, h, lt_irrefl, if_false, if_true,
    Bool.false_eq_true]
  exact ⟨trivial, by ring⟩

/-- The points handed to `append_milestone` by an arc of nonzero path length: those built
from the radius vectors of the indices `1 .. segments - 1`, then the target. -/
theorem append_arc_targets {α : Type} [LinearOrderedField α] [FloorRing α] (m : Libm α)
    (r : Robot α) (target offset : Vec3 α) (radius : α) (is_clockwise : Bool)
    (h : arc_millimeters_of_travel m r target offset radius is_clockwise ≠ 0) :
    (append_arc m r target offset radius is_clockwise).2.map (fun c => c.target)
      = arc_points r.plane_axis_0 r.plane_axis_1 r.plane_axis_2
          (r.current_position.get r.plane_axis_0 + offset.get r.plane_axis_0)
          (r.current_position.get r.plane_axis_1 + offset.get r.plane_axis_1)
          ((target.get r.plane_axis_2 - r.current_position.get r.plane_axis_2)
            / (arc_segments m r target offset radius is_clockwise : ℕ))
          (arc_radius_vector m (offset.get r.plane_axis_0) (offset.get r.plane_axis_1)
            (arc_angular_travel m r target offset is_clockwise
              / (arc_segments m r target offset radius is_clockwise : ℕ))
            (1 - 0.5 * (arc_angular_travel m r target offset is_clockwise
                / (arc_segments m r target offset radius is_clockwise : ℕ))
              * (arc_angular_travel m r target offset is_clockwise
                / (arc_segments m r target offset radius is_clockwise : ℕ)))
            (arc_angular_travel m r target offset is_clockwise
              / (arc_segments m r target offset radius is_clockwise : ℕ)))
          (arc_segments m r target offset radius is_clockwise - 1) 0
          ((⟨0, 0, 0⟩ : Vec3 α).set r.plane_axis_2 (r.current_position.get r.plane_axis_2))
        ++ [target] := by
  simp only [append_arc, if_neg h, List.map_append, List.map_cons, List.map_nil,
    append_milestone_target]
  congr 1
  exact append_arc_loop_targets m offset _ _ _ _ _ _ _ 0 r _

/-- The in-plane entries of a point built by the loop of `append_arc` are the centre plus the
radius vector, when the three plane axes are distinct. -/
theorem arc_point_get {α : Type} [LinearOrderedField α] (p0 p1 p2 : Axis)
    (h01 : p0 ≠ p1) (h02 : p0 ≠ p2) (h12 : p1 ≠ p2) (c0 c1 lin : α) (arc_target : Vec3 α)
    (s : α × α × Nat) :
    (arc_point p0 p1 p2 c0 c1 lin arc_target s).get p0 = c0 + s.1
    ∧ (arc_point p0 p1 p2 c0 c1 lin arc_target s).get p1 = c1 + s.2.1 := by
  cases p0 <;> cases p1 <;> cases p2 <;>
    first
    | exact absurd rfl h01
    | exact absurd rfl h02
    | exact absurd rfl h12
    | exact ⟨rfl, rfl⟩

/-- The loop of `append_arc` builds as many points as it has iterations. -/
theorem arc_points_length {α : Type} [LinearOrderedField α] (p0 p1 p2 : Axis)
    (c0 c1 lin : α) (S : Nat → α × α × Nat) (n : Nat) :
    ∀ (j : Nat) (arc_target : Vec3 α),
      (arc_points p0 p1 p2 c0 c1 lin S n j arc_target).length = n := by
  induction n with
  | zero => intro j arc_target; rfl
  | succ n ih =>
    intro j arc_target
    simp only [arc_points, List.length_cons, ih]

/-- The `k`-th point built by the loop of `append_arc` entered after the iteration of index
`j` is the centre plus the radius vector of index `j + k + 1`, in the plane. -/
theorem arc_points_getElem {α : Type} [LinearOrderedField α] (p0 p1 p2 : Axis)
    (h01 : p0 ≠ p1) (h02 : p0 ≠ p2) (h12 : p1 ≠ p2) (c0 c1 lin : α)
    (S : Nat → α × α × Nat) (n : Nat) :
    ∀ (j : Nat) (arc_target : Vec3 α) (k : Nat), k < n →
      ∃ p, (arc_points p0 p1 p2 c0 c1 lin S n j arc_target)[k]? = some p
        ∧ p.get p0 = c0 + (S (j + k + 1)).1 ∧ p.get p1 = c1 + (S (j + k + 1)).2.1 := by
  induction n with
  | zero => intro j arc_target k hk; omega
  | succ n ih =>
    intro j arc_target k hk
    cases k with
    | zero =>
      refine ⟨arc_point p0 p1 p2 c0 c1 lin arc_target (S (j + 1)),
        by simp only [arc_points, List.getElem?_cons_zero], ?_⟩
      exact arc_point_get p0 p1 p2 h01 h02 h12 c0 c1 lin arc_target (S (j + 1))
    | succ k =>
      obtain ⟨p, hp, hp0, hp1⟩ := ih (j + 1)
        (arc_point p0 p1 p2 c0 c1 lin arc_target (S (j + 1))) k (by omega)
      refine ⟨p, ?_, ?_, ?_⟩
      · simpa only [arc_points, List.getElem?_cons_succ] using hp
      · rw [hp0, show j + 1 + k + 1 = j + (k + 1) + 1 by omega]
      · rw [hp1, show j + 1 + k + 1 = j + (k + 1) + 1 by omega]

/-- The point of index `i` on the path of an arc of nonzero path length, for `i` below
`segments`, exists and lies at the loop's radius vector of index `i` from the centre: index
`0` is the start position, index `i ≥ 1` the point handed over by the iteration `i`. -/
theorem arc_path_point {α : Type} [LinearOrderedField α] [FloorRing α] (m : Libm α)
    (r : Robot α) (target offset : Vec3 α) (radius : α) (is_clockwise : Bool)
    (hpath : arc_millimeters_of_travel m r target offset radius is_clockwise ≠ 0)
    (h01 : r.plane_axis_0 ≠ r.plane_axis_1) (h02 : r.plane_axis_0 ≠ r.plane_axis_2)
    (h12 : r.plane_axis_1 ≠ r.plane_axis_2)
    (i : Nat) (hi : i < arc_segments m r target offset radius is_clockwise) :
    ∃ p, (arc_path m r target offset radius is_clockwise)[i]? = some p
      ∧ center_vector r offset p
        = ((arc_loop_state m r target offset radius is_clockwise i).1,
            (arc_loop_state m r target offset radius is_clockwise i).2.1) := by
  cases i with
  | zero =>
    refine ⟨r.current_position, by simp only [arc_path, List.getElem?_cons_zero], ?_⟩
    simp only [center_vector, arc_loop_state, arc_radius_vector, Prod.mk.injEq]
    constructor <;> ring
  | succ k =>
    have htar := append_arc_targets m r target offset radius is_clockwise hpath
    obtain ⟨p, hp, hp0, hp1⟩ := arc_points_getElem r.plane_axis_0 r.plane_axis_1
      r.plane_axis_2 h01 h02 h12
      (r.current_position.get r.plane_axis_0 + offset.get r.plane_axis_0)
      (r.current_position.get r.plane_axis_1 + offset.get r.plane_axis_1)
      ((target.get r.plane_axis_2 - r.current_position.get r.plane_axis_2)
        / (arc_segments m r target offset radius is_clockwise : ℕ))
      (arc_loop_state m r target offset radius is_clockwise)
      (arc_segments m r target offset radius is_clockwise - 1) 0
      ((⟨0, 0, 0⟩ : Vec3 α).set r.plane_axis_2 (r.current_position.get r.plane_axis_2))
      k (by omega)
    refine ⟨p, ?_, ?_⟩
    · simp only [arc_path, List.getElem?_cons_succ]
      rw [htar, List.getElem?_append_left]
      · exact hp
      · rw [arc_points_length]; omega
    · simp only [center_vector, hp0, hp1, Nat.zero_add, add_sub_cancel_left]

/-- On the path of an arc, the point handed over by an iteration whose index `k + 1` is not a
multiple of `26` lies, seen from the centre, at the small-angle rotation of the previous
point of the path. -/
theorem arc_path_small_angle {α : Type} [LinearOrderedField α] [FloorRing α] (m : Libm α)
    (r : Robot α) (target offset : Vec3 α) (radius : α) (is_clockwise : Bool)
    (hpath : arc_millimeters_of_travel m r target offset radius is_clockwise ≠ 0)
    (h01 : r.plane_axis_0 ≠ r.plane_axis_1) (h02 : r.plane_axis_0 ≠ r.plane_axis_2)
    (h12 : r.plane_axis_1 ≠ r.plane_axis_2)
    (k : Nat) (hk : k + 1 < arc_segments m r target offset radius is_clockwise)
    (happrox : (k + 1) % 26 ≠ 0) :
    ∃ q p, (arc_path m r target offset radius is_clockwise)[k]? = some q
      ∧ (arc_path m r target offset radius is_clockwise)[k + 1]? = some p
      ∧ center_vector r offset p
        = ((center_vector r offset q).1
              * (1 - 0.5 * arc_theta_per_segment m r target offset radius is_clockwise
                * arc_theta_per_segment m r target offset radius is_clockwise)
            - (center_vector r offset q).2
              * arc_theta_per_segment m r target offset radius is_clockwise,
            (center_vector r offset q).1
              * arc_theta_per_segment m r target offset radius is_clockwise
            + (center_vector r offset q).2
              * (1 - 0.5 * arc_theta_per_segment m r target offset radius is_clockwise
                * arc_theta_per_segment m r target offset radius is_clockwise)) := by
  obtain ⟨q, hq, hqv⟩ := arc_path_point m r target offset radius is_clockwise hpath h01 h02 h12
    k (by omega)
  obtain ⟨p, hp, hpv⟩ := arc_path_point m r target offset radius is_clockwise hpath h01 h02 h12
    (k + 1) hk
  refine ⟨q, p, hq, hp, ?_⟩
  have ha := arc_radius_vector_approx m (offset.get r.plane_axis_0)
    (offset.get r.plane_axis_1)
    (arc_theta_per_segment m r target offset radius is_clockwise)
    (1 - 0.5 * arc_theta_per_segment m r target offset radius is_clockwise
      * arc_theta_per_segment m r target offset radius is_clockwise)
    (arc_theta_per_segment m r target offset radius is_clockwise) k happrox
  rw [hpv, hqv]
  simp only [arc_loop_state]
  rw [ha]

/-- In the arc scenario with `mm_per_arc_segment = 1` the arc is cut into `47` segments. -/
theorem arc_scenario_segments :
    arc_segments Libm.real (arc_scenario (origin_robot 5 1)) ⟨0, 10, 0⟩ ⟨-10, 0, 0⟩ 10 true
      = 47 := by
  unfold arc_segments
  rw [arc_scenario_travel]
  have hfl : Int.floor
      (15 * Real.pi / (arc_scenario (origin_robot 5 1) : Robot ℝ).mm_per_arc_segment) = 47 := by
    show Int.floor (15 * Real.pi / 1) = 47
    rw [Int.floor_eq_iff]
    have h1 := Real.pi_gt_d2
    have h2 := Real.pi_lt_d2
    constructor
    · norm_num; linarith
    · norm_num; linarith
  rw [hfl]
  rfl

/-- The angular travel of `append_arc` is `arc_angular_travel_of` at the cross product and the
dot product of the radius vectors to the start and to the target. -/
theorem arc_angular_travel_eq_of {α : Type} [LinearOrderedField α] (m : Libm α) (r : Robot α)
    (target offset : Vec3 α) (is_clockwise : Bool) :
    arc_angular_travel m r target offset is_clockwise
      = arc_angular_travel_of m
          (-offset.get r.plane_axis_0
              * (target.get r.plane_axis_1
                - (r.current_position.get r.plane_axis_1 + offset.get r.plane_axis_1))
            - -offset.get r.plane_axis_1
              * (target.get r.plane_axis_0
                - (r.current_position.get r.plane_axis_0 + offset.get r.plane_axis_0)))
          (-offset.get r.plane_axis_0
              * (target.get r.plane_axis_0
                - (r.current_position.get r.plane_axis_0 + offset.get r.plane_axis_0))
            + -offset.get r.plane_axis_1
              * (target.get r.plane_axis_1
                - (r.current_position.get r.plane_axis_1 + offset.get r.plane_axis_1)))
          is_clockwise :=
  rfl

/-- The count `F64.excess` leaves fewer than 54 bits, and no fewer than 53 when it is not
zero. -/
theorem F64.excess_spec (fuel : Nat) :
    ∀ n, n < 2 ^ (53 + fuel) →
      n / 2 ^ F64.excess fuel n < 2 ^ 53
      ∧ (0 < F64.excess fuel n → 2 ^ 53 ≤ n / 2 ^ (F64.excess fuel n - 1)) := by
  induction fuel with
  | zero =>
    intro n hn
    simp only [F64.excess, pow_zero, Nat.div_one, lt_irrefl, false_implies, and_true]
    simpa using hn
  | succ fuel ih =>
    intro n hn
    by_cases h : n < 2 ^ 53
    · simp only [F64.excess, if_pos h, pow_zero, Nat.div_one, lt_irrefl, false_implies,
        and_true]
      exact h
    · simp only [F64.excess, if_neg h]
      have hn2 : n / 2 < 2 ^ (53 + fuel) := by
        apply Nat.div_lt_of_lt_mul
        calc n < 2 ^ (53 + (fuel + 1)) := hn
          _ = 2 * 2 ^ (53 + fuel) := by ring
      obtain ⟨h1, h2⟩ := ih (n / 2) hn2
      constructor
      · rw [pow_succ, mul_comm, ← Nat.div_div_eq_div_mul]
        exact h1
      · intro _
        simp only [Nat.add_sub_cancel]
        rcases Nat.eq_zero_or_pos (F64.excess fuel (n / 2)) with h0 | hpos
        · rw [h0, pow_zero, Nat.div_one]
          exact Nat.le_of_not_lt h
        · have := h2 hpos
          obtain ⟨j, hj⟩ : ∃ j, F64.excess fuel (n / 2) = j + 1 :=
            ⟨_, (Nat.succ_pred_eq_of_pos hpos).symm⟩
          rw [hj] at this ⊢
          simp only [Nat.add_sub_cancel] at this
          rw [show n / 2 ^ (j + 1) = n / 2 / 2 ^ j by
            rw [Nat.div_div_eq_div_mul, pow_succ, mul_comm]]
          exact this

/-- Dropping `k` low bits with rounding to nearest moves a natural number by at most half a
unit of the kept bits. -/
theorem F64.round_nat (n k : Nat) (hk : 0 < k) :
    (if 2 ^ (k - 1) < n % 2 ^ k ∨ (n % 2 ^ k = 2 ^ (k - 1) ∧ n / 2 ^ k % 2 = 1)
        then n / 2 ^ k + 1 else n / 2 ^ k) * 2 ^ k ≤ n + 2 ^ (k - 1)
    ∧ n ≤ (if 2 ^ (k - 1) < n % 2 ^ k ∨ (n % 2 ^ k = 2 ^ (k - 1) ∧ n / 2 ^ k % 2 = 1)
        then n / 2 ^ k + 1 else n / 2 ^ k) * 2 ^ k + 2 ^ (k - 1) := by
  have hdm := Nat.div_add_mod n (2 ^ k)
  have hlt : n % 2 ^ k < 2 ^ k := Nat.mod_lt _ (by positivity)
  have h2 : 2 ^ k = 2 * 2 ^ (k - 1) := by
    obtain ⟨j, rfl⟩ : ∃ j, k = j + 1 := ⟨k - 1, by omega⟩
    simp only [Nat.add_sub_cancel, pow_succ]
    ring
  generalize n / 2 ^ k = q at hdm ⊢
  generalize n % 2 ^ k = rest at hdm hlt ⊢
  generalize 2 ^ (k - 1) = half at h2 ⊢
  generalize 2 ^ k = p at hdm hlt h2 ⊢
  subst h2
  split_ifs with h
  · rcases h with h | ⟨h, -⟩
    · constructor <;> nlinarith
    · constructor <;> nlinarith
  · have hle : rest ≤ half := by
      by_contra hc
      exact h (Or.inl (by omega))
    constructor <;> nlinarith

/-- Function `F64.round` returns a number of at most 53 significant bits that lies within half
a unit in its last place of the exact value; it returns the exact value itself unless that
needs more than 53 bits, and then all 53 bits are in use. -/
theorem F64.round_spec (m e : Int) :
    (F64.round m e).m.natAbs ≤ 2 ^ 53
    ∧ (F64.round m e = ⟨m, e⟩ ∨ 2 ^ 52 ≤ (F64.round m e).m.natAbs)
    ∧ |(F64.round m e).toRat - (m : ℚ) * (2 : ℚ) ^ e| ≤ (2 : ℚ) ^ (F64.round m e).e / 2 := by
  have hfuel : m.natAbs < 2 ^ (53 + m.natAbs) :=
    lt_of_lt_of_le (Nat.lt_two_pow m.natAbs) (Nat.pow_le_pow_right (by norm_num) (by omega))
  obtain ⟨hs1, hs2⟩ := F64.excess_spec m.natAbs m.natAbs hfuel
  by_cases hk0 : F64.excess m.natAbs m.natAbs = 0
  · have hr : F64.round m e = ⟨m, e⟩ := by simp only [F64.round, hk0, if_true]
    rw [hr]
    rw [hk0, pow_zero, Nat.div_one] at hs1
    refine ⟨hs1.le, Or.inl rfl, ?_⟩
    simp only [F64.toRat, sub_self, abs_zero]
    positivity
  · have hkpos : 0 < F64.excess m.natAbs m.natAbs := Nat.pos_of_ne_zero hk0
    have hbig := hs2 hkpos
    obtain ⟨hup, hdown⟩ := F64.round_nat m.natAbs (F64.excess m.natAbs m.natAbs) hkpos
    have hr : F64.round m e
        = ⟨if m < 0 then
              -((if 2 ^ (F64.excess m.natAbs m.natAbs - 1)
                    < m.natAbs % 2 ^ F64.excess m.natAbs m.natAbs
                  ∨ (m.natAbs % 2 ^ F64.excess m.natAbs m.natAbs
                      = 2 ^ (F64.excess m.natAbs m.natAbs - 1)
                    ∧ m.natAbs / 2 ^ F64.excess m.natAbs m.natAbs % 2 = 1)
                then m.natAbs / 2 ^ F64.excess m.natAbs m.natAbs + 1
                else m.natAbs / 2 ^ F64.excess m.natAbs m.natAbs : ℕ) : ℤ)
            else
              ((if 2 ^ (F64.excess m.natAbs m.natAbs - 1)
                    < m.natAbs % 2 ^ F64.excess m.natAbs m.natAbs
                  ∨ (m.natAbs % 2 ^ F64.excess m.natAbs m.natAbs
                      = 2 ^ (F64.excess m.natAbs m.natAbs - 1)
                    ∧ m.natAbs / 2 ^ F64.excess m.natAbs m.natAbs % 2 = 1)
                then m.natAbs / 2 ^ F64.excess m.natAbs m.natAbs + 1
                else m.natAbs / 2 ^ F64.excess m.natAbs m.natAbs : ℕ) : ℤ),
            e + (F64.excess m.natAbs m.natAbs : ℕ)⟩ := by
      simp only [F64.round, if_neg hk0]
    rw [hr]
    have hq52 : 2 ^ 52 ≤ m.natAbs / 2 ^ F64.excess m.natAbs m.natAbs := by
      obtain ⟨j, hj⟩ : ∃ j, F64.excess m.natAbs m.natAbs = j + 1 :=
        ⟨_, (Nat.succ_pred_eq_of_pos hkpos).symm⟩
      rw [hj] at hbig ⊢
      simp only [Nat.add_sub_cancel] at hbig
      rw [show m.natAbs / 2 ^ (j + 1) = m.natAbs / 2 ^ j / 2 by
        rw [Nat.div_div_eq_div_mul, pow_succ]]
      omega
    generalize hq' : (if 2 ^ (F64.excess m.natAbs m.natAbs - 1)
          < m.natAbs % 2 ^ F64.excess m.natAbs m.natAbs
        ∨ (m.natAbs % 2 ^ F64.excess m.natAbs m.natAbs
            = 2 ^ (F64.excess m.natAbs m.natAbs - 1)
          ∧ m.natAbs / 2 ^ F64.excess m.natAbs m.natAbs % 2 = 1)
      then m.natAbs / 2 ^ F64.excess m.natAbs m.natAbs + 1
      else m.natAbs / 2 ^ F64.excess m.natAbs m.natAbs) = q' at hup hdown ⊢
    have hq'le : q' ≤ 2 ^ 53 := by
      rw [← hq']; split_ifs <;> omega
    have hq'ge : 2 ^ 52 ≤ q' := by
      rw [← hq']; split_ifs <;> omega
    generalize F64.excess m.natAbs m.natAbs = k at hkpos hup hdown ⊢
    have habs : (if m < 0 then -(q' : ℤ) else (q' : ℤ)).natAbs = q' := by
      split_ifs <;> simp
    refine ⟨by rw [habs]; exact hq'le, Or.inr (by rw [habs]; exact hq'ge), ?_⟩
    simp only [F64.toRat]
    have hpow : (2 : ℚ) ^ (e + (k : ℤ)) = (2 : ℚ) ^ e * (2 : ℚ) ^ k := by
      rw [zpow_add₀ (by norm_num), zpow_natCast]
    have hhalf : (2 : ℚ) ^ k = 2 * (2 : ℚ) ^ (k - 1) := by
      obtain ⟨j, rfl⟩ : ∃ j, k = j + 1 := ⟨k - 1, by omega⟩
      simp only [Nat.add_sub_cancel, pow_succ]
      ring
    have hupq : (q' : ℚ) * 2 ^ k ≤ (m.natAbs : ℚ) + 2 ^ (k - 1) := by exact_mod_cast hup
    have hdownq : (m.natAbs : ℚ) ≤ (q' : ℚ) * 2 ^ k + 2 ^ (k - 1) := by exact_mod_cast hdown
    have hepos : (0 : ℚ) < (2 : ℚ) ^ e := by positivity
    rw [hpow]
    by_cases hm : m < 0
    · have hmn : (m : ℚ) = -(m.natAbs : ℚ) := by
        have h3 : ((m.natAbs : ℤ) : ℚ) = ((-m : ℤ) : ℚ) := by
          rw [Int.ofNat_natAbs_of_nonpos hm.le]
        rw [Int.cast_natCast, Int.cast_neg] at h3
        linarith
      rw [if_pos hm, hmn]
      push_cast
      rw [show -(q' : ℚ) * ((2 : ℚ) ^ e * 2 ^ k) - -(m.natAbs : ℚ) * 2 ^ e
        = -(((q' : ℚ) * 2 ^ k - m.natAbs) * 2 ^ e) by ring, abs_neg, abs_mul,
        abs_of_pos hepos]
      have : |(q' : ℚ) * 2 ^ k - m.natAbs| ≤ 2 ^ (k - 1) := by
        rw [abs_le]; constructor <;> linarith
      calc |(q' : ℚ) * 2 ^ k - m.natAbs| * 2 ^ e ≤ 2 ^ (k - 1) * 2 ^ e :=
            mul_le_mul_of_nonneg_right this hepos.le
        _ = 2 ^ e * 2 ^ k / 2 := by rw [hhalf]; ring
    · have hmn : (m : ℚ) = (m.natAbs : ℚ) := by
        have h3 : ((m.natAbs : ℤ) : ℚ) = (m : ℚ) := by
          rw [Int.natAbs_of_nonneg (not_lt.mp hm)]
        rw [Int.cast_natCast] at h3
        exact h3.symm
      rw [if_neg hm, hmn]
      push_cast
      rw [show (q' : ℚ) * ((2 : ℚ) ^ e * 2 ^ k) - (m.natAbs : ℚ) * 2 ^ e
        = ((q' : ℚ) * 2 ^ k - m.natAbs) * 2 ^ e by ring, abs_mul,
        abs_of_pos hepos]
      have : |(q' : ℚ) * 2 ^ k - m.natAbs| ≤ 2 ^ (k - 1) := by
        rw [abs_le]; constructor <;> linarith
      calc |(q' : ℚ) * 2 ^ k - m.natAbs| * 2 ^ e ≤ 2 ^ (k - 1) * 2 ^ e :=
            mul_le_mul_of_nonneg_right this hepos.le
        _ = 2 ^ e * 2 ^ k / 2 := by rw [hhalf]; ring

/-- Binary64 `x * y` has at most 53 significant bits and lies within half a unit in its last
place of the exact product; it is the exact product unless that needs more than 53 bits. -/
theorem F64.mul_spec (x y : F64) :
    (F64.mul x y).m.natAbs ≤ 2 ^ 53
    ∧ ((F64.mul x y).toRat = x.toRat * y.toRat ∨ 2 ^ 52 ≤ (F64.mul x y).m.natAbs)
    ∧ |(F64.mul x y).toRat - x.toRat * y.toRat| ≤ (2 : ℚ) ^ (F64.mul x y).e / 2 := by
  obtain ⟨h1, h2, h3⟩ := F64.round_spec (x.m * y.m) (x.e + y.e)
  refine ⟨h1, ?_, ?_⟩
  · rcases h2 with h2 | h2
    · left
      show (F64.round (x.m * y.m) (x.e + y.e)).toRat = _
      rw [h2]
      simp only [F64.toRat]
      rw [zpow_add₀ (by norm_num)]
      push_cast
      ring
    · exact Or.inr h2
  have he : ((x.m * y.m : ℤ) : ℚ) * (2 : ℚ) ^ (x.e + y.e) = x.toRat * y.toRat := by
    simp only [F64.toRat]
    rw [zpow_add₀ (by norm_num)]
    push_cast
    ring
  rw [he] at h3
  exact h3

/-- Binary64 `x + y` has at most 53 significant bits and lies within half a unit in its last
place of the exact sum; it is the exact sum unless that needs more than 53 bits. -/
theorem F64.add_spec (x y : F64) :
    (F64.add x y).m.natAbs ≤ 2 ^ 53
    ∧ ((F64.add x y).toRat = x.toRat + y.toRat ∨ 2 ^ 52 ≤ (F64.add x y).m.natAbs)
    ∧ |(F64.add x y).toRat - (x.toRat + y.toRat)| ≤ (2 : ℚ) ^ (F64.add x y).e / 2 := by
  obtain ⟨h1, h2, h3⟩ := F64.round_spec
    (x.m * 2 ^ (x.e - min x.e y.e).toNat + y.m * 2 ^ (y.e - min x.e y.e).toNat) (min x.e y.e)
  have hshift : ∀ a : ℤ, min x.e y.e ≤ a →
      (2 : ℚ) ^ (a - min x.e y.e).toNat * (2 : ℚ) ^ min x.e y.e = (2 : ℚ) ^ a := by
    intro a ha
    rw [← zpow_natCast, Int.toNat_of_nonneg (by omega), ← zpow_add₀ (by norm_num)]
    congr 1
    ring
  have he : ((x.m * 2 ^ (x.e - min x.e y.e).toNat + y.m * 2 ^ (y.e - min x.e y.e).toNat : ℤ) : ℚ)
        * (2 : ℚ) ^ min x.e y.e = x.toRat + y.toRat := by
    simp only [F64.toRat]
    push_cast
    rw [add_mul, mul_assoc, mul_assoc, hshift x.e (min_le_left _ _),
      hshift y.e (min_le_right _ _)]
  refine ⟨h1, ?_, ?_⟩
  · rcases h2 with h2 | h2
    · left
      show (F64.round _ _).toRat = _
      rw [h2]
      exact he
    · exact Or.inr h2
  · rw [he] at h3
    exact h3

/-- Binary64 `x - y` has at most 53 significant bits and lies within half a unit in its last
place of the exact difference; it is the exact difference unless that needs more than 53
bits. -/
theorem F64.sub_spec (x y : F64) :
    (F64.sub x y).m.natAbs ≤ 2 ^ 53
    ∧ ((F64.sub x y).toRat = x.toRat - y.toRat ∨ 2 ^ 52 ≤ (F64.sub x y).m.natAbs)
    ∧ |(F64.sub x y).toRat - (x.toRat - y.toRat)| ≤ (2 : ℚ) ^ (F64.sub x y).e / 2 := by
  have h := F64.add_spec x (F64.neg y)
  have hn : (F64.neg y).toRat = -y.toRat := by
    simp only [F64.neg, F64.toRat]
    push_cast
    ring
  rw [hn, ← sub_eq_add_neg] at h
  exact h

set_option maxRecDepth 100000 in
/-- One binary64 small-angle step from the radius vector `(1, 0)` with `θ` the double nearest
to `1e-5`: the new vector is `(1 - 56295 · 2⁻⁵⁰, θ)`. -/
theorem small_angle_f64_value :
    arc_small_angle_f64 ⟨5902958103587057, -69⟩ ⟨1, 0⟩ ⟨0, 0⟩
      = (⟨9007199254290632, -53⟩, ⟨5902958103587057, -69⟩) := by
  decide

set_option maxRecDepth 100000 in
/-- The binary64 operands of `atan2` for the full circle from `(0.2, 2.9)` with offset
`(-0.3, 0.2)`: the cross product is `-2⁻⁵⁴`, not `0`. -/
theorem full_circle_operands_f64 :
    arc_atan2_operands_f64 ⟨3602879701896397, -54⟩ ⟨6530219459687219, -51⟩
        ⟨3602879701896397, -54⟩ ⟨6530219459687219, -51⟩
        ⟨-5404319552844595, -54⟩ ⟨3602879701896397, -54⟩
      = (⟨-8, -57⟩, ⟨4683743612465317, -55⟩) := by
  decide

set_option maxRecDepth 100000 in
/-- Where no rounding occurs the two embeddings of the small-angle step agree: from the radius
vector `(1, 0)` with `θ = 2⁻¹⁰`, both give `(1 - 2⁻²¹, 2⁻¹⁰)`. -/
theorem small_angle_f64_exact (m : Libm ℚ) :
    ((arc_small_angle_f64 ⟨1, -10⟩ ⟨1, 0⟩ ⟨0, 0⟩).1.toRat,
        (arc_small_angle_f64 ⟨1, -10⟩ ⟨1, 0⟩ ⟨0, 0⟩).2.toRat)
      = ((arc_rotate m (-1) 0 (1 / 1024) (1 - 0.5 * (1 / 1024) * (1 / 1024)) (1 / 1024) 1
            1 0 0).1,
          (arc_rotate m (-1) 0 (1 / 1024) (1 - 0.5 * (1 / 1024) * (1 / 1024)) (1 / 1024) 1
            1 0 0).2.1) := by
  have h : arc_small_angle_f64 ⟨1, -10⟩ ⟨1, 0⟩ ⟨0, 0⟩ = (⟨2097151, -21⟩, ⟨2048, -21⟩) := by
    decide
  rw [h]
  norm_num [arc_rotate, F64.toRat]

set_option maxRecDepth 100000 in
/-- Where no rounding occurs the cross product of a full-circle request is `0` on binary64
too: at `(1, 0)` with offset `(-1, 0)` the operands of `atan2` are `0` and `1`. -/
theorem full_circle_operands_f64_exact :
    (arc_atan2_operands_f64 ⟨1, 0⟩ ⟨0, 0⟩ ⟨1, 0⟩ ⟨0, 0⟩ ⟨-1, 0⟩ ⟨0, 0⟩).1.toRat = 0
    ∧ (arc_atan2_operands_f64 ⟨1, 0⟩ ⟨0, 0⟩ ⟨1, 0⟩ ⟨0, 0⟩ ⟨-1, 0⟩ ⟨0, 0⟩).2.toRat = 1 := by
  have h : arc_atan2_operands_f64 ⟨1, 0⟩ ⟨0, 0⟩ ⟨1, 0⟩ ⟨0, 0⟩ ⟨-1, 0⟩ ⟨0, 0⟩
      = (⟨0, 0⟩, ⟨1, 0⟩) := by
    decide
  rw [h]
  norm_num [F64.toRat]

/-- When the first operand of `atan2` is negative, the counter-clockwise angular travel
exceeds `π` and the clockwise one exceeds `-π`. -/
theorem arc_angular_travel_of_neg (y x : ℝ) (hy : y < 0) :
    Real.pi < arc_angular_travel_of Libm.real y x false
    ∧ -Real.pi < arc_angular_travel_of Libm.real y x true := by
  have hneg : Complex.arg ⟨x, y⟩ < 0 := Complex.arg_neg_iff.mpr hy
  have hlow : -Real.pi < Complex.arg ⟨x, y⟩ := Complex.neg_pi_lt_arg _
  simp only [arc_angular_travel_of, Libm.real, if_pos hneg, if_true, Bool.false_eq_true,
    if_false]
  constructor <;> linarith

/-- For every line move with nonzero distance `d` and positive
`mm_per_line_segment` whose count `ceil(d / mm_per_line_segment)` fits the 16-bit `segments`
(is below 65536), `append_line` hands exactly `segments = ceil(d / mm_per_line_segment)`
milestones to `append_milestone`: the `i`-th, for `i` from `1` to `segments - 1`, is
`current_position + (i / segments) · (target - current_position)`, and the last is `target`
itself. -/
theorem append_line_milestones (r : Robot ℝ) (target : Vec3 ℝ) (rate : ℝ)
    (hd : line_millimeters_of_travel Libm.real r target ≠ 0)
    (h0 : 0 < r.mm_per_line_segment)
    (hfit : Int.ceil (line_millimeters_of_travel Libm.real r target / r.mm_per_line_segment)
      < 65536) :
    (line_segments Libm.real r target : ℤ)
      = Int.ceil (line_millimeters_of_travel Libm.real r target / r.mm_per_line_segment)
    ∧ (append_line Libm.real r target rate).2.length = line_segments Libm.real r target
    ∧ (append_line Libm.real r target rate).2.map (fun c => c.target)
      = (List.range (line_segments Libm.real r target - 1)).map
          (fun i => interpolate r.current_position target
            (((i + 1 : ℕ) : ℝ) / (line_segments Libm.real r target : ℕ)))
        ++ [target] := by
  have hseg := line_segments_eq_ceil r target h0 hfit
  have htar := append_line_targets Libm.real r target rate hd
  have hpos : 0 < line_millimeters_of_travel Libm.real r target :=
    lt_of_le_of_ne (Real.sqrt_nonneg _) (Ne.symm hd)
  have hn : 0 < line_segments Libm.real r target := by
    have : (0 : ℤ) < line_segments Libm.real r target := by
      rw [hseg]; exact Int.ceil_pos.mpr (div_pos hpos h0)
    exact_mod_cast this
  refine ⟨hseg, ?_, htar⟩
  have hlen := congrArg List.length htar
  simp only [List.length_map, List.length_append, List.length_range, List.length_singleton]
    at hlen
  omega

/-! ## Claims -/

/-- C1. From the origin in plane XY, absolute mode, millimetre units, with
`mm_per_line_segment = 5`, the command `G1 X10 Y0 Z0 F100` hands exactly two milestones to
`append_milestone`, `(5,0,0)` then `(10,0,0)`, and each of them submits a block to the
planner: exactly two blocks, in that order, both at rate `100` (the feed rate `100/60` per
second times `60`) and of length `5`. -/
theorem C1_line_scenario (r : Robot ℝ) :
    (execute_gcode Libm.real (line_scenario r)
        ⟨[('G', 1), ('X', 10), ('Y', 0), ('Z', 0), ('F', 100)]⟩).2
      = [⟨⟨5, 0, 0⟩, 100 / 60, some ⟨r.arm_solution ⟨5, 0, 0⟩, 100, 5, ⟨5, 0, 0⟩⟩⟩,
         ⟨⟨10, 0, 0⟩, 100 / 60, some ⟨r.arm_solution ⟨10, 0, 0⟩, 100, 5, ⟨5, 0, 0⟩⟩⟩]
    ∧ blocks (execute_gcode Libm.real (line_scenario r)
        ⟨[('G', 1), ('X', 10), ('Y', 0), ('Z', 0), ('F', 100)]⟩).2
      = [⟨r.arm_solution ⟨5, 0, 0⟩, 100, 5, ⟨5, 0, 0⟩⟩,
         ⟨r.arm_solution ⟨10, 0, 0⟩, 100, 5, ⟨5, 0, 0⟩⟩] := by
  have hG : to_int (1 : ℝ) = 1 := by simpa using @to_int_natCast ℝ _ _ 1
  have h10 : Real.sqrt ((10 : ℝ) ^ 2) = 10 := Real.sqrt_sq (by norm_num)
  have h5 : Real.sqrt (25 : ℝ) = 5 := by
    rw [show (25 : ℝ) = 5 ^ 2 by norm_num]; exact Real.sqrt_sq (by norm_num)
  have hc : Int.ceil ((10 : ℝ) / 5) = 2 := by
    rw [show (10 : ℝ) / 5 = ((2 : ℤ) : ℝ) by norm_num, Int.ceil_intCast]
  have h : (execute_gcode Libm.real (line_scenario r)
        ⟨[('G', 1), ('X', 10), ('Y', 0), ('Z', 0), ('F', 100)]⟩).2
      = [⟨⟨5, 0, 0⟩, 100 / 60, some ⟨r.arm_solution ⟨5, 0, 0⟩, 100, 5, ⟨5, 0, 0⟩⟩⟩,
         ⟨⟨10, 0, 0⟩, 100 / 60, some ⟨r.arm_solution ⟨10, 0, 0⟩, 100, 5, ⟨5, 0, 0⟩⟩⟩] := by
    simp [execute_gcode, execute_modal, execute_feed, gcode_target, gcode_offset, axis_letters,
      offset_letters, line_scenario, select_plane, Gcode.has_letter, Gcode.get_value,
      List.find?, hG, to_millimeters, Vec3.set, Vec3.get, append_line,
      line_millimeters_of_travel, line_segments, Libm.real, h10, hc, to_uint16,
      append_line_loop, append_milestone]
    norm_num [h5]
  exact ⟨h, by rw [h]; rfl⟩

/-- C2, counterexample. In the arc scenario (at `(10,0,0)`, plane XY, clockwise, target
`(0,10,0)`, offset `(-10,0,0)`) the angular travel computed by `append_arc` is not `-π/2`. -/
theorem C2_counterexample :
    arc_angular_travel Libm.real (arc_scenario (origin_robot 5 1)) ⟨0, 10, 0⟩ ⟨-10, 0, 0⟩ true
      ≠ -(Real.pi / 2) := by
  rw [arc_scenario_angular_travel]
  have := Real.pi_pos
  intro h
  linarith

/-- C2, amended. With `current_position = (10,0,0)` and plane XY, for the clockwise arc to
`(0,10,0)` with offset `(-10,0,0)`: `compute_arc` computes the radius `10`, `append_arc`
computes the angular travel `-3π/2` (three quarters of a turn clockwise), and the last
milestone handed to `append_milestone` is exactly `(0,10,0)`. -/
theorem C2_arc_scenario (r : Robot ℝ) :
    arc_radius Libm.real (arc_scenario r) ⟨-10, 0, 0⟩ = 10
    ∧ arc_angular_travel Libm.real (arc_scenario r) ⟨0, 10, 0⟩ ⟨-10, 0, 0⟩ true
        = -(3 * Real.pi / 2)
    ∧ ((compute_arc Libm.real (arc_scenario r) ⟨-10, 0, 0⟩ ⟨0, 10, 0⟩).2.getLast?).map
        (fun c => c.target) = some ⟨0, 10, 0⟩ := by
  refine ⟨arc_scenario_radius r, arc_scenario_angular_travel r, ?_⟩
  have hcw : (decide ((arc_scenario r).motion_mode = MotionMode.MOTION_MODE_CW_ARC)) = true := by
    simp [arc_scenario]
  simp only [compute_arc, hcw, arc_scenario_radius]
  apply append_arc_last
  rw [arc_scenario_travel]
  exact (mul_pos (by norm_num) Real.pi_pos).ne'

/-- C3. For every machine state and every command, after `execute_gcode` the
`current_position` is the resolved absolute target: on each axis the value of the axis letter,
converted to millimetres, replaces the previous component (absolute mode) or is added to it
(relative mode), and an axis without a letter keeps its component; this holds in every motion
mode, `MOTION_MODE_CANCEL` included, and whether or not a block was submitted. -/
theorem C3_current_position_is_target {α : Type} [LinearOrderedField α] [FloorRing α]
    (m : Libm α) (r : Robot α) (gcode : Gcode α) :
    (execute_gcode m r gcode).1.current_position = resolved_target r gcode := by
  rw [execute_gcode_current_position, gcode_target_eq, execute_modal_current_position]
  rfl

/-- C4, counterexample. With `mm_per_line_segment = 0.0006 > 0`, a move from the origin to
`(0.0012,0,0)` is cut into two steps of `0.0006`; the first is discarded as negligible
(shorter than `0.001`), so the only submitted segment runs from the origin to the target and
has length `0.0012`, more than `mm_per_line_segment`. -/
theorem C4_counterexample :
    (0 : ℝ) < (origin_robot (3 / 5000) 1 : Robot ℝ).mm_per_line_segment
    ∧ segment_lengths Libm.real (origin_robot (3 / 5000) 1 : Robot ℝ).current_position
        (emitted_points (append_line Libm.real (origin_robot (3 / 5000) 1) ⟨3 / 2500, 0, 0⟩ 1).2)
      = [3 / 2500]
    ∧ (origin_robot (3 / 5000) 1 : Robot ℝ).mm_per_line_segment < 3 / 2500 := by
  refine ⟨by norm_num [origin_robot], ?_, by norm_num [origin_robot]⟩
  rw [append_line_negligible_step _ _ rfl rfl rfl]
  have : distance Libm.real (origin_robot (3 / 5000) 1 : Robot ℝ).current_position
      ⟨3 / 2500, 0, 0⟩ = 3 / 2500 := by
    show distance Libm.real ⟨0, 0, 0⟩ ⟨3 / 2500, 0, 0⟩ = _
    rw [distance_along_x, abs_of_pos (by norm_num)]; norm_num
  simp [emitted_points, emitted, segment_lengths, this]

/-- C4, amended. For a line move handled by `append_line` with `mm_per_line_segment > 0` that
starts on `last_milestone`, whose segment count `ceil(d / mm_per_line_segment)` fits the
16-bit counter and whose equal steps `d / segments` are not negligible (at least `0.001`),
the segments between consecutive submitted points, the first measured from the pre-move
position, are `segments` in number, all of length `d / segments`, and each is at most
`mm_per_line_segment`. -/
theorem C4_line_segments_bounded (r : Robot ℝ) (target : Vec3 ℝ) (rate : ℝ)
    (h0 : 0 < r.mm_per_line_segment)
    (hl : r.last_milestone = r.current_position)
    (hfit : Int.ceil (distance Libm.real r.current_position target / r.mm_per_line_segment)
      < 65536)
    (hd : 0.001 ≤ distance Libm.real r.current_position target
      / line_segments Libm.real r target) :
    segment_lengths Libm.real r.current_position
        (emitted_points (append_line Libm.real r target rate).2)
      = List.replicate (line_segments Libm.real r target)
          (distance Libm.real r.current_position target / line_segments Libm.real r target)
    ∧ ∀ len ∈ segment_lengths Libm.real r.current_position
        (emitted_points (append_line Libm.real r target rate).2),
        len ≤ r.mm_per_line_segment := by
  have hn : line_segments Libm.real r target ≠ 0 := by
    intro h; rw [h] at hd; norm_num at hd
  have hseg : segment_lengths Libm.real r.current_position
        (emitted_points (append_line Libm.real r target rate).2)
      = List.replicate (line_segments Libm.real r target)
          (distance Libm.real r.current_position target / line_segments Libm.real r target) := by
    rw [append_line_eq r target rate hl (not_lt.mpr hd)]
    simp only [emitted_points_line_trace]
    have h1 := segment_lengths_line r.current_position target _ hn
      (line_segments Libm.real r target - 1) 0 (by omega)
    rw [line_point_zero, Nat.sub_add_cancel (Nat.pos_of_ne_zero hn)] at h1
    simpa [emitted_points, emitted] using h1
  refine ⟨hseg, ?_⟩
  intro len hlen
  rw [hseg] at hlen
  rw [List.eq_of_mem_replicate hlen]
  have hce := line_segments_eq_ceil r target h0 hfit
  have hpos : (0 : ℝ) < line_segments Libm.real r target := by
    exact_mod_cast Nat.pos_of_ne_zero hn
  rw [div_le_iff₀ hpos]
  have h2 := Int.le_ceil (distance Libm.real r.current_position target / r.mm_per_line_segment)
  rw [← hce, div_le_iff₀ h0] at h2
  simpa [mul_comm] using h2

/-- C4, witness: the move from the origin to `(10,0,0)` with `mm_per_line_segment = 5`. -/
theorem C4_line_segments_bounded_witness :
    (0 : ℝ) < (origin_robot 5 1 : Robot ℝ).mm_per_line_segment
    ∧ (origin_robot 5 1 : Robot ℝ).last_milestone = (origin_robot 5 1 : Robot ℝ).current_position
    ∧ Int.ceil (distance Libm.real (origin_robot 5 1 : Robot ℝ).current_position ⟨10, 0, 0⟩
        / (origin_robot 5 1 : Robot ℝ).mm_per_line_segment) < 65536
    ∧ (0.001 : ℝ) ≤ distance Libm.real (origin_robot 5 1 : Robot ℝ).current_position ⟨10, 0, 0⟩
        / line_segments Libm.real (origin_robot 5 1) ⟨10, 0, 0⟩
    ∧ ∀ len ∈ segment_lengths Libm.real (origin_robot 5 1 : Robot ℝ).current_position
        (emitted_points (append_line Libm.real (origin_robot 5 1) ⟨10, 0, 0⟩ 1).2),
        len ≤ (origin_robot 5 1 : Robot ℝ).mm_per_line_segment :=
  have h0 : (0 : ℝ) < (origin_robot 5 1 : Robot ℝ).mm_per_line_segment := by
    norm_num [origin_robot]
  have hfit : Int.ceil (distance Libm.real (origin_robot 5 1 : Robot ℝ).current_position
      ⟨10, 0, 0⟩ / (origin_robot 5 1 : Robot ℝ).mm_per_line_segment) < 65536 := by
    rw [origin_line_ceil]; norm_num
  have hd : (0.001 : ℝ) ≤ distance Libm.real (origin_robot 5 1 : Robot ℝ).current_position
      ⟨10, 0, 0⟩ / line_segments Libm.real (origin_robot 5 1) ⟨10, 0, 0⟩ := by
    rw [origin_line_distance, origin_line_segments]; norm_num
  ⟨h0, rfl, hfit, hd,
    (C4_line_segments_bounded (origin_robot 5 1) ⟨10, 0, 0⟩ 1 h0 rfl hfit hd).2⟩

/-- C5, counterexample. A move from the origin to `(0.0005,0,0)` has nonzero distance, yet
its only milestone is discarded as negligible: no block is submitted, the deltas sum to
`(0,0,0)` and the displacement `target - current_position` is not `(0,0,0)`. -/
theorem C5_counterexample :
    line_millimeters_of_travel Libm.real (origin_robot 5 1) ⟨1 / 2000, 0, 0⟩ ≠ 0
    ∧ sum_deltas (blocks (append_line Libm.real (origin_robot 5 1) ⟨1 / 2000, 0, 0⟩ 1).2)
        = ⟨0, 0, 0⟩
    ∧ (⟨1 / 2000, 0, 0⟩ : Vec3 ℝ).sub (origin_robot 5 1 : Robot ℝ).current_position
        ≠ ⟨0, 0, 0⟩ := by
  refine ⟨?_, ?_, ?_⟩
  · show distance Libm.real ⟨0, 0, 0⟩ ⟨1 / 2000, 0, 0⟩ ≠ 0
    rw [distance_along_x, abs_of_pos (by norm_num)]; norm_num
  · rw [append_line_negligible_move _ _ rfl rfl rfl]
    simp [blocks, sum_deltas]
  · norm_num [origin_robot, Vec3.sub]

/-- C5, amended. For a line move that starts on `last_milestone` and whose equal steps
`d / segments` are not negligible (at least `0.001`), the component-wise sum of the deltas of
all blocks submitted by `append_line` is `target - current_position`. -/
theorem C5_line_deltas_sum (r : Robot ℝ) (target : Vec3 ℝ) (rate : ℝ)
    (hl : r.last_milestone = r.current_position)
    (hd : 0.001 ≤ distance Libm.real r.current_position target
      / line_segments Libm.real r target) :
    sum_deltas (blocks (append_line Libm.real r target rate).2)
      = target.sub r.current_position := by
  rw [sum_deltas_append_line, append_line_eq r target rate hl (not_lt.mpr hd), hl]

/-- C5, witness: the move from the origin to `(10,0,0)` with `mm_per_line_segment = 5`. -/
theorem C5_line_deltas_sum_witness :
    (origin_robot 5 1 : Robot ℝ).last_milestone = (origin_robot 5 1 : Robot ℝ).current_position
    ∧ (0.001 : ℝ) ≤ distance Libm.real (origin_robot 5 1 : Robot ℝ).current_position ⟨10, 0, 0⟩
        / line_segments Libm.real (origin_robot 5 1) ⟨10, 0, 0⟩
    ∧ sum_deltas (blocks (append_line Libm.real (origin_robot 5 1) ⟨10, 0, 0⟩ 1).2)
        = (⟨10, 0, 0⟩ : Vec3 ℝ).sub (origin_robot 5 1 : Robot ℝ).current_position :=
  have hd : (0.001 : ℝ) ≤ distance Libm.real (origin_robot 5 1 : Robot ℝ).current_position
      ⟨10, 0, 0⟩ / line_segments Libm.real (origin_robot 5 1) ⟨10, 0, 0⟩ := by
    rw [origin_line_distance, origin_line_segments]; norm_num
  ⟨rfl, hd, C5_line_deltas_sum (origin_robot 5 1) ⟨10, 0, 0⟩ 1 rfl hd⟩

/-- C6, failing input. At `(1,0,0)` with `mm_per_arc_segment = 5`, the counter-clockwise
quarter circle to `(0,1,0)` about the origin has path length `π/2`, not zero, and
`segments = floor((π/2)/5) = 0`: the count is not clamped to one, so `theta_per_segment` and
`linear_per_segment` are quotients by zero. The loop then does not run and the only
milestone is the target. -/
theorem C6_zero_segment_count :
    arc_millimeters_of_travel Libm.real small_arc_robot ⟨0, 1, 0⟩ ⟨-1, 0, 0⟩
        (arc_radius Libm.real small_arc_robot ⟨-1, 0, 0⟩) false ≠ 0
    ∧ arc_segments Libm.real small_arc_robot ⟨0, 1, 0⟩ ⟨-1, 0, 0⟩
        (arc_radius Libm.real small_arc_robot ⟨-1, 0, 0⟩) false = 0
    ∧ (compute_arc Libm.real small_arc_robot ⟨-1, 0, 0⟩ ⟨0, 1, 0⟩).2.map (fun c => c.target)
        = [⟨0, 1, 0⟩] := by
  have hpi := Real.pi_pos
  have hpi4 := Real.pi_le_four
  have hne : arc_millimeters_of_travel Libm.real small_arc_robot ⟨0, 1, 0⟩ ⟨-1, 0, 0⟩
      (arc_radius Libm.real small_arc_robot ⟨-1, 0, 0⟩) false ≠ 0 := by
    rw [small_arc_travel]; positivity
  have hseg : arc_segments Libm.real small_arc_robot ⟨0, 1, 0⟩ ⟨-1, 0, 0⟩
      (arc_radius Libm.real small_arc_robot ⟨-1, 0, 0⟩) false = 0 := ?_
  · refine ⟨hne, hseg, ?_⟩
    have hccw : decide ((small_arc_robot : Robot ℝ).motion_mode
        = MotionMode.MOTION_MODE_CW_ARC) = false := by
      simp [small_arc_robot]
    simp only [compute_arc, hccw, append_arc, if_neg hne, hseg, append_arc_loop]
    simp [append_milestone_target]
  · simp only [arc_segments, small_arc_travel]
    have : Int.floor (Real.pi / 2 / (small_arc_robot : Robot ℝ).mm_per_arc_segment) = 0 := by
      rw [Int.floor_eq_zero_iff]
      show Real.pi / 2 / 5 ∈ Set.Ico (0 : ℝ) 1
      constructor
      · positivity
      · linarith
    rw [this]; rfl

/-- C7. For every arc handled by `append_arc` whose path length is nonzero, the last
milestone handed to `append_milestone` is exactly the commanded target, whatever the rotated
radius vector has become. -/
theorem C7_arc_ends_on_target {α : Type} [LinearOrderedField α] [FloorRing α] (m : Libm α)
    (r : Robot α) (target offset : Vec3 α) (radius : α) (is_clockwise : Bool)
    (h : arc_millimeters_of_travel m r target offset radius is_clockwise ≠ 0) :
    ((append_arc m r target offset radius is_clockwise).2.getLast?).map (fun c => c.target)
      = some target :=
  append_arc_last m r target offset radius is_clockwise h

/-- C7, witness: the clockwise arc of the arc scenario, of path length `15π`. -/
theorem C7_arc_ends_on_target_witness :
    arc_millimeters_of_travel Libm.real (arc_scenario (origin_robot 5 1)) ⟨0, 10, 0⟩
        ⟨-10, 0, 0⟩ 10 true ≠ 0
    ∧ ((append_arc Libm.real (arc_scenario (origin_robot 5 1)) ⟨0, 10, 0⟩ ⟨-10, 0, 0⟩ 10
        true).2.getLast?).map (fun c => c.target) = some ⟨0, 10, 0⟩ :=
  have h : arc_millimeters_of_travel Libm.real (arc_scenario (origin_robot 5 1)) ⟨0, 10, 0⟩
      ⟨-10, 0, 0⟩ 10 true ≠ 0 := by
    rw [arc_scenario_travel]
    exact (mul_pos (by norm_num) Real.pi_pos).ne'
  ⟨h, C7_arc_ends_on_target Libm.real (arc_scenario (origin_robot 5 1)) ⟨0, 10, 0⟩ ⟨-10, 0, 0⟩
    10 true h⟩

/-- C9. `to_millimeters` returns `value / 25.4` in inch mode and `value` unchanged in
millimetre mode; and when a command is interpreted in inch mode and absolute mode and carries
the value `1` for an axis letter, the resolved target component of that axis, and the
resulting `current_position` component, is `1 / 25.4`. -/
theorem C9_to_millimeters {α : Type} [LinearOrderedField α] [FloorRing α] (m : Libm α)
    (r : Robot α) (gcode : Gcode α) (value : α) (la : Char × Axis)
    (hla : la ∈ axis_letters)
    (hinch : (execute_modal r gcode).inch_mode = true)
    (habs : (execute_modal r gcode).absolute_mode = true)
    (hletter : gcode.has_letter la.1 = true) (hvalue : gcode.get_value la.1 = 1) :
    to_millimeters { r with inch_mode := true } value = value / 25.4
    ∧ to_millimeters { r with inch_mode := false } value = value
    ∧ (gcode_target (execute_modal r gcode) gcode).get la.2 = 1 / 25.4
    ∧ (execute_gcode m r gcode).1.current_position.get la.2 = 1 / 25.4 := by
  have h : (gcode_target (execute_modal r gcode) gcode).get la.2 = 1 / 25.4 := by
    rw [gcode_target_get _ _ _ hla]
    simp [resolved_component, hinch, habs, hletter, hvalue]
  exact ⟨by simp [to_millimeters], by simp [to_millimeters], h, h⟩

/-- C9, witness: the command `X1` in the state the constructor leaves (inch, absolute). -/
theorem C9_to_millimeters_witness :
    (('X', Axis.X_AXIS) ∈ axis_letters)
    ∧ (execute_modal (Robot.init (origin_robot (5 : ℝ) 1)) ⟨[('X', 1)]⟩).inch_mode = true
    ∧ (execute_modal (Robot.init (origin_robot (5 : ℝ) 1)) ⟨[('X', 1)]⟩).absolute_mode = true
    ∧ (⟨[('X', 1)]⟩ : Gcode ℝ).has_letter 'X' = true
    ∧ (⟨[('X', 1)]⟩ : Gcode ℝ).get_value 'X' = 1
    ∧ (execute_gcode Libm.real (Robot.init (origin_robot 5 1)) ⟨[('X', 1)]⟩).1.current_position.x
        = 1 / 25.4 :=
  have h1 : (('X', Axis.X_AXIS) ∈ axis_letters) := by simp [axis_letters]
  have h2 : (execute_modal (Robot.init (origin_robot (5 : ℝ) 1)) ⟨[('X', 1)]⟩).inch_mode = true :=
    by simp [execute_modal, Gcode.has_letter, Robot.init, select_plane]
  have h3 : (execute_modal (Robot.init (origin_robot (5 : ℝ) 1)) ⟨[('X', 1)]⟩).absolute_mode
      = true := by simp [execute_modal, Gcode.has_letter, Robot.init, select_plane]
  have h4 : (⟨[('X', 1)]⟩ : Gcode ℝ).has_letter 'X' = true := by simp [Gcode.has_letter]
  have h5 : (⟨[('X', 1)]⟩ : Gcode ℝ).get_value 'X' = 1 := by simp [Gcode.get_value]
  ⟨h1, h2, h3, h4, h5,
    (C9_to_millimeters Libm.real (Robot.init (origin_robot 5 1)) ⟨[('X', 1)]⟩ 0
      ('X', Axis.X_AXIS) h1 h2 h3 h4 h5).2.2.2⟩

/-- C10. When a command is interpreted in relative mode and millimetre units and carries an
axis letter with value `v`, `current_position` moves by exactly `v` on that axis; and three
consecutive linear moves of `+1` on an axis, from a state in relative mode and millimetre
units whose component on that axis is `0`, leave that component at `3`. -/
theorem C10_relative_moves {α : Type} [LinearOrderedField α] [FloorRing α] (m : Libm α)
    (r : Robot α) (gcode : Gcode α) (la : Char × Axis) (hla : la ∈ axis_letters)
    (hmm : (execute_modal r gcode).inch_mode = false)
    (hrel : (execute_modal r gcode).absolute_mode = false)
    (hletter : gcode.has_letter la.1 = true) :
    (execute_gcode m r gcode).1.current_position.get la.2
      = r.current_position.get la.2 + gcode.get_value la.1
    ∧ ∀ s : Robot α, s.inch_mode = false → s.absolute_mode = false →
        s.current_position.get la.2 = 0 →
        (execute_gcodes m s [⟨[('G', 1), (la.1, 1)]⟩, ⟨[('G', 1), (la.1, 1)]⟩,
          ⟨[('G', 1), (la.1, 1)]⟩]).current_position.get la.2 = 3 := by
  refine ⟨relative_move m r gcode la hla hmm hrel hletter, ?_⟩
  intro s h1 h2 h0
  obtain ⟨a1, a2, a3⟩ := relative_unit_move m s la hla h1 h2
  obtain ⟨b1, b2, b3⟩ := relative_unit_move m _ la hla a1 a2
  obtain ⟨_, _, c3⟩ := relative_unit_move m _ la hla b1 b2
  simp only [execute_gcodes, List.foldl]
  rw [c3, b3, a3, h0]
  norm_num

/-- C10, witness: three times `G1 X1` from the origin in relative mode. -/
theorem C10_relative_moves_witness :
    (('X', Axis.X_AXIS) ∈ axis_letters)
    ∧ (execute_modal { origin_robot (5 : ℝ) 1 with absolute_mode := false }
        ⟨[('G', 1), ('X', 1)]⟩).inch_mode = false
    ∧ (execute_modal { origin_robot (5 : ℝ) 1 with absolute_mode := false }
        ⟨[('G', 1), ('X', 1)]⟩).absolute_mode = false
    ∧ (⟨[('G', 1), ('X', 1)]⟩ : Gcode ℝ).has_letter 'X' = true
    ∧ (execute_gcodes Libm.real { origin_robot (5 : ℝ) 1 with absolute_mode := false }
        [⟨[('G', 1), ('X', 1)]⟩, ⟨[('G', 1), ('X', 1)]⟩,
          ⟨[('G', 1), ('X', 1)]⟩]).current_position.x = 3 :=
  have h1 : (('X', Axis.X_AXIS) ∈ axis_letters) := by simp [axis_letters]
  have h2 : (execute_modal { origin_robot (5 : ℝ) 1 with absolute_mode := false }
      ⟨[('G', 1), ('X', 1)]⟩).inch_mode = false := by
    rw [execute_modal_linear]; rfl
  have h3 : (execute_modal { origin_robot (5 : ℝ) 1 with absolute_mode := false }
      ⟨[('G', 1), ('X', 1)]⟩).absolute_mode = false := by
    rw [execute_modal_linear]
  have h4 : (⟨[('G', 1), ('X', 1)]⟩ : Gcode ℝ).has_letter 'X' = true := by
    simp [Gcode.has_letter]
  ⟨h1, h2, h3, h4,
    (C10_relative_moves Libm.real { origin_robot (5 : ℝ) 1 with absolute_mode := false }
      ⟨[('G', 1), ('X', 1)]⟩ ('X', Axis.X_AXIS) h1 h2 h3 h4).2
      { origin_robot (5 : ℝ) 1 with absolute_mode := false } rfl rfl rfl⟩

/-- C11, counterexample. At the origin with `last_milestone = current_position`, the command
`G1 X0.0005` moves `current_position` to `(0.0005,0,0)` while its only milestone is
discarded as negligible, so `last_milestone` stays at the origin and differs from
`current_position`. -/
theorem C11_counterexample :
    (origin_robot 5 1 : Robot ℝ).last_milestone = (origin_robot 5 1 : Robot ℝ).current_position
    ∧ (execute_gcode Libm.real (origin_robot 5 1) ⟨[('G', 1), ('X', 1 / 2000)]⟩).1.last_milestone
        = ⟨0, 0, 0⟩
    ∧ (execute_gcode Libm.real (origin_robot 5 1)
        ⟨[('G', 1), ('X', 1 / 2000)]⟩).1.current_position = ⟨1 / 2000, 0, 0⟩
    ∧ (execute_gcode Libm.real (origin_robot 5 1) ⟨[('G', 1), ('X', 1 / 2000)]⟩).1.last_milestone
        ≠ (execute_gcode Libm.real (origin_robot 5 1)
            ⟨[('G', 1), ('X', 1 / 2000)]⟩).1.current_position := by
  rw [negligible_command]
  refine ⟨rfl, rfl, rfl, ?_⟩
  simp [origin_robot]

/-- C11, amended. For every state in which `last_milestone` equals `current_position` and
every command, after `execute_gcode` has processed the command `last_milestone` equals
`current_position` again, provided that the last milestone the command hands to
`append_milestone` is submitted to the planner (not discarded as negligible), or that the
command hands over no milestone at all and its target is the position it started from. -/
theorem C11_milestone_catches_up {α : Type} [LinearOrderedField α] [FloorRing α] (m : Libm α)
    (r : Robot α) (gcode : Gcode α)
    (hl : r.last_milestone = r.current_position)
    (h : ((execute_gcode m r gcode).2 = []
          ∧ gcode_target (execute_modal r gcode) gcode = r.current_position)
        ∨ ∃ c, (execute_gcode m r gcode).2.getLast? = some c ∧ c.block.isSome = true) :
    (execute_gcode m r gcode).1.last_milestone = (execute_gcode m r gcode).1.current_position := by
  rw [execute_gcode_current_position]
  rcases dispatch_shape m r gcode with ⟨e1, e2⟩ | ⟨init, r1, rate, e1, e2⟩
  · rcases h with ⟨_, ht⟩ | ⟨c, hc, _⟩
    · rw [e1, hl, ht]
    · rw [e2] at hc; simp at hc
  · rcases h with ⟨hn, _⟩ | ⟨c, hc, hb⟩
    · rw [e2] at hn; simp at hn
    · rw [e2, List.getLast?_append, List.getLast?_singleton] at hc
      simp at hc
      rw [e1]
      apply append_milestone_submitted
      rw [hc]; exact hb

/-- C11, witness: the seek move `X10` from the origin, whose last milestone is submitted. -/
theorem C11_milestone_catches_up_witness :
    (origin_robot 5 1 : Robot ℝ).last_milestone = (origin_robot 5 1 : Robot ℝ).current_position
    ∧ (∃ c, (execute_gcode Libm.real (origin_robot 5 1) ⟨[('X', 10)]⟩).2.getLast? = some c
        ∧ c.block.isSome = true)
    ∧ (execute_gcode Libm.real (origin_robot 5 1) ⟨[('X', 10)]⟩).1.last_milestone
        = (execute_gcode Libm.real (origin_robot 5 1) ⟨[('X', 10)]⟩).1.current_position :=
  have h : ∃ c, (execute_gcode Libm.real (origin_robot 5 1) ⟨[('X', 10)]⟩).2.getLast? = some c
      ∧ c.block.isSome = true := by
    rw [origin_seek_command]; exact origin_line_last
  ⟨rfl, h, C11_milestone_catches_up Libm.real (origin_robot 5 1) ⟨[('X', 10)]⟩ rfl (Or.inr h)⟩

/-- C12. For every command whose `G` code, the integer `(int) get_value('G')`, is not one of
0, 1, 2, 3, 17, 18, 19, 20, 21, 90, 91 (or that has no `G` word), `execute_gcode` leaves the
motion mode, the units, the positioning mode and the plane axis assignment unchanged. -/
theorem C12_unrecognized_codes {α : Type} [LinearOrderedField α] [FloorRing α] (m : Libm α)
    (r : Robot α) (gcode : Gcode α)
    (h : gcode.has_letter 'G' = true → to_int (gcode.get_value 'G') ∉ recognized_codes) :
    (execute_gcode m r gcode).1.motion_mode = r.motion_mode
    ∧ (execute_gcode m r gcode).1.inch_mode = r.inch_mode
    ∧ (execute_gcode m r gcode).1.absolute_mode = r.absolute_mode
    ∧ (execute_gcode m r gcode).1.plane_axis_0 = r.plane_axis_0
    ∧ (execute_gcode m r gcode).1.plane_axis_1 = r.plane_axis_1
    ∧ (execute_gcode m r gcode).1.plane_axis_2 = r.plane_axis_2 := by
  have h1 := execute_gcode_modal_fields m r gcode
  rw [execute_modal_unrecognized r gcode h] at h1
  exact h1

/-- C12, witness: the command `G4 X1` at the origin. -/
theorem C12_unrecognized_codes_witness :
    ((⟨[('G', 4), ('X', 1)]⟩ : Gcode ℝ).has_letter 'G' = true →
      to_int ((⟨[('G', 4), ('X', 1)]⟩ : Gcode ℝ).get_value 'G') ∉ recognized_codes)
    ∧ (execute_gcode Libm.real (origin_robot 5 1) ⟨[('G', 4), ('X', 1)]⟩).1.motion_mode
        = MotionMode.MOTION_MODE_SEEK
    ∧ (execute_gcode Libm.real (origin_robot 5 1) ⟨[('G', 4), ('X', 1)]⟩).1.inch_mode = false
    ∧ (execute_gcode Libm.real (origin_robot 5 1) ⟨[('G', 4), ('X', 1)]⟩).1.absolute_mode = true
    ∧ (execute_gcode Libm.real (origin_robot 5 1) ⟨[('G', 4), ('X', 1)]⟩).1.plane_axis_0
        = Axis.X_AXIS
    ∧ (execute_gcode Libm.real (origin_robot 5 1) ⟨[('G', 4), ('X', 1)]⟩).1.plane_axis_1
        = Axis.Y_AXIS
    ∧ (execute_gcode Libm.real (origin_robot 5 1) ⟨[('G', 4), ('X', 1)]⟩).1.plane_axis_2
        = Axis.Z_AXIS :=
  have h : (⟨[('G', 4), ('X', 1)]⟩ : Gcode ℝ).has_letter 'G' = true →
      to_int ((⟨[('G', 4), ('X', 1)]⟩ : Gcode ℝ).get_value 'G') ∉ recognized_codes := by
    intro _
    have h4 : to_int (4 : ℝ) = 4 := by simpa using @to_int_natCast ℝ _ _ 4
    have hv : (⟨[('G', 4), ('X', 1)]⟩ : Gcode ℝ).get_value 'G' = 4 := by
      simp [Gcode.get_value, List.find?]
    rw [hv, h4]
    decide
  ⟨h, C12_unrecognized_codes Libm.real (origin_robot 5 1) ⟨[('G', 4), ('X', 1)]⟩ h⟩

/-- C13, counterexample. Reloading a configuration whose line segment length is `0` and whose
arc segment length is `-1` is not rejected: the values are stored as they are and the stored
bounds are not strictly positive. -/
theorem C13_counterexample :
    (on_config_reload (⟨6000, 6000, 0, -1⟩ : Config ℚ) (origin_robot 5 1)).mm_per_line_segment = 0
    ∧ (on_config_reload (⟨6000, 6000, 0, -1⟩ : Config ℚ) (origin_robot 5 1)).mm_per_arc_segment
        = -1
    ∧ ¬ (0 < (on_config_reload (⟨6000, 6000, 0, -1⟩ : Config ℚ)
        (origin_robot 5 1)).mm_per_line_segment)
    ∧ ¬ (0 < (on_config_reload (⟨6000, 6000, 0, -1⟩ : Config ℚ)
        (origin_robot 5 1)).mm_per_arc_segment) := by
  refine ⟨rfl, rfl, ?_, ?_⟩ <;> norm_num [on_config_reload]

/-- C13, amended. The configuration-reload handler checks nothing: after `on_config_reload`
the stored segment length bounds are the configured values, so each is strictly positive
exactly when the configured value is. -/
theorem C13_config_reload_stores {α : Type} [LinearOrderedField α] (config : Config α)
    (r : Robot α) :
    (on_config_reload config r).mm_per_line_segment = config.mm_per_line_segment
    ∧ (on_config_reload config r).mm_per_arc_segment = config.mm_per_arc_segment
    ∧ (0 < (on_config_reload config r).mm_per_line_segment ↔ 0 < config.mm_per_line_segment)
    ∧ (0 < (on_config_reload config r).mm_per_arc_segment ↔ 0 < config.mm_per_arc_segment) :=
  ⟨rfl, rfl, Iff.rfl, Iff.rfl⟩

/-- C14. In every state reached from the constructor's initial state by a sequence of
commands, every axis occurs exactly once in `(plane_axis_0, plane_axis_1, plane_axis_2)`, and
`plane_axis_2` differs from `plane_axis_0` and from `plane_axis_1`. -/
theorem C14_plane_is_permutation {α : Type} [LinearOrderedField α] [FloorRing α] (m : Libm α)
    (r : Robot α) (gcodes : List (Gcode α)) (a : Axis) :
    [(execute_gcodes m (Robot.init r) gcodes).plane_axis_0,
      (execute_gcodes m (Robot.init r) gcodes).plane_axis_1,
      (execute_gcodes m (Robot.init r) gcodes).plane_axis_2].count a = 1
    ∧ (execute_gcodes m (Robot.init r) gcodes).plane_axis_2
        ≠ (execute_gcodes m (Robot.init r) gcodes).plane_axis_0
    ∧ (execute_gcodes m (Robot.init r) gcodes).plane_axis_2
        ≠ (execute_gcodes m (Robot.init r) gcodes).plane_axis_1 := by
  have h := plane_of_execute_gcodes m gcodes (Robot.init r)
    (by simp [Robot.init, select_plane, plane_assignments])
  generalize (execute_gcodes m (Robot.init r) gcodes).plane_axis_0 = p0 at h
  generalize (execute_gcodes m (Robot.init r) gcodes).plane_axis_1 = p1 at h
  generalize (execute_gcodes m (Robot.init r) gcodes).plane_axis_2 = p2 at h
  simp only [plane_assignments, List.mem_cons, List.mem_singleton, List.not_mem_nil, or_false,
    Prod.mk.injEq] at h
  rcases h with ⟨rfl, rfl, rfl⟩ | ⟨rfl, rfl, rfl⟩ | ⟨rfl, rfl, rfl⟩ <;> cases a <;> decide

/-- C15. With `mm_per_line_segment = 1`, the move from the origin to `(65537,0,0)` has nonzero
distance and `ceil(d / mm_per_line_segment) = 65537`, but the 16-bit `segments` holds `1`:
`append_line` hands a single milestone to `append_milestone`, the target, instead of `65537`
interpolated ones. -/
theorem C15_segment_count_wraps :
    line_millimeters_of_travel Libm.real (origin_robot 1 1) ⟨65537, 0, 0⟩ ≠ 0
    ∧ (0 : ℝ) < (origin_robot 1 1 : Robot ℝ).mm_per_line_segment
    ∧ Int.ceil (line_millimeters_of_travel Libm.real (origin_robot 1 1) ⟨65537, 0, 0⟩
        / (origin_robot 1 1 : Robot ℝ).mm_per_line_segment) = 65537
    ∧ line_segments Libm.real (origin_robot 1 1) ⟨65537, 0, 0⟩ = 1
    ∧ (append_line Libm.real (origin_robot 1 1) ⟨65537, 0, 0⟩ 1).2.length = 1
    ∧ (append_line Libm.real (origin_robot 1 1) ⟨65537, 0, 0⟩ 1).2.map (fun c => c.target)
      = [⟨65537, 0, 0⟩] := by
  have hdist : line_millimeters_of_travel Libm.real (origin_robot 1 1) ⟨65537, 0, 0⟩
      = 65537 := by
    show distance Libm.real ⟨0, 0, 0⟩ ⟨65537, 0, 0⟩ = _
    rw [distance_along_x, abs_of_pos (by norm_num)]; norm_num
  have hc : Int.ceil (line_millimeters_of_travel Libm.real (origin_robot 1 1) ⟨65537, 0, 0⟩
      / (origin_robot 1 1 : Robot ℝ).mm_per_line_segment) = 65537 := by
    rw [hdist]
    show Int.ceil ((65537 : ℝ) / 1) = 65537
    rw [show (65537 : ℝ) / 1 = ((65537 : ℤ) : ℝ) by norm_num, Int.ceil_intCast]
  have hseg : line_segments Libm.real (origin_robot 1 1) ⟨65537, 0, 0⟩ = 1 := by
    unfold line_segments
    rw [hc]; rfl
  have hne : line_millimeters_of_travel Libm.real (origin_robot 1 1) ⟨65537, 0, 0⟩ ≠ 0 := by
    rw [hdist]; norm_num
  have htr : (append_line Libm.real (origin_robot 1 1) ⟨65537, 0, 0⟩ 1).2
      = [(append_milestone Libm.real (origin_robot 1 1) ⟨65537, 0, 0⟩ 1).2] := by
    simp only [append_line, if_neg hne, hseg, append_line_loop]
    rfl
  refine ⟨hne, by norm_num [origin_robot], hc, hseg, ?_, ?_⟩
  · rw [htr]; rfl
  · rw [htr]
    simp only [List.map_cons, List.map_nil, append_milestone_target]

/-- C16. For every target and rate, `append_milestone` submits no block and leaves the state,
`last_milestone` included, unchanged when the distance from `last_milestone` to the target is
below `0.001`; otherwise it submits exactly one block, whose deltas are
`target - last_milestone` and whose distance is that Euclidean length (at rate `rate * 60`),
and sets `last_milestone` to the target. -/
theorem C16_append_milestone {α : Type} [LinearOrderedField α] (m : Libm α) (r : Robot α)
    (target : Vec3 α) (rate : α) :
    append_milestone m r target rate
      = if distance m r.last_milestone target < 0.001 then (r, ⟨target, rate, none⟩)
        else ({ r with last_milestone := target },
          ⟨target, rate, some ⟨r.arm_solution target, rate * 60,
            distance m r.last_milestone target, target.sub r.last_milestone⟩⟩) := by
  split_ifs with h
  · exact append_milestone_of_lt m r target rate h
  · exact append_milestone_of_not_lt m r target rate h

/-- C18. For every arc of nonzero path length in a plane of three distinct axes, take the
start position followed by the points that `append_arc` hands to `append_milestone`. The
point `p` handed over by the loop iteration of index `i = k + 1` lies at the loop's radius
vector from the centre `current_position + offset`, and the drift counter after that
iteration is `i mod 26`, never more than `25`. When `i` is not a multiple of `26` the
iteration is a small-angle step: the radius vector is the one of the previous point `q`
rotated with `cos_T = 1 - θ²/2`, `sin_T = θ`, and the counter goes up by one. When `i` is a
multiple of `26` the iteration is an exact step, entered with the counter at `25`: the radius
vector is the original centre-to-start vector `-offset` rotated by the cumulative angle
`i · theta_per_segment` with the library's `cos` and `sin`, and the counter is reset to `0`.
So every exact step comes after exactly `25` consecutive small-angle steps. -/
theorem C18_arc_correction {α : Type} [LinearOrderedField α] [FloorRing α] (m : Libm α)
    (r : Robot α) (target offset : Vec3 α) (radius : α) (is_clockwise : Bool)
    (hpath : arc_millimeters_of_travel m r target offset radius is_clockwise ≠ 0)
    (h01 : r.plane_axis_0 ≠ r.plane_axis_1) (h02 : r.plane_axis_0 ≠ r.plane_axis_2)
    (h12 : r.plane_axis_1 ≠ r.plane_axis_2)
    (k : Nat) (hk : k + 1 < arc_segments m r target offset radius is_clockwise) :
    ∃ q p,
      (r.current_position
          :: (append_arc m r target offset radius is_clockwise).2.map (fun c => c.target))[k]?
        = some q
      ∧ (r.current_position
          :: (append_arc m r target offset radius is_clockwise).2.map
            (fun c => c.target))[k + 1]?
        = some p
      ∧ center_vector r offset p
        = ((arc_loop_state m r target offset radius is_clockwise (k + 1)).1,
            (arc_loop_state m r target offset radius is_clockwise (k + 1)).2.1)
      ∧ (arc_loop_state m r target offset radius is_clockwise (k + 1)).2.2 = (k + 1) % 26
      ∧ ((k + 1) % 26 ≠ 0 →
          center_vector r offset p
            = ((center_vector r offset q).1
                  * (1 - 0.5 * arc_theta_per_segment m r target offset radius is_clockwise
                    * arc_theta_per_segment m r target offset radius is_clockwise)
                - (center_vector r offset q).2
                  * arc_theta_per_segment m r target offset radius is_clockwise,
                (center_vector r offset q).1
                  * arc_theta_per_segment m r target offset radius is_clockwise
                + (center_vector r offset q).2
                  * (1 - 0.5 * arc_theta_per_segment m r target offset radius is_clockwise
                    * arc_theta_per_segment m r target offset radius is_clockwise))
          ∧ (arc_loop_state m r target offset radius is_clockwise (k + 1)).2.2
            = (arc_loop_state m r target offset radius is_clockwise k).2.2 + 1)
      ∧ ((k + 1) % 26 = 0 →
          center_vector r offset p
            = rotate_vector m (-offset.get r.plane_axis_0) (-offset.get r.plane_axis_1)
                (((k + 1 : ℕ) : α) * arc_theta_per_segment m r target offset radius is_clockwise)
          ∧ (arc_loop_state m r target offset radius is_clockwise k).2.2 = 25
          ∧ (arc_loop_state m r target offset radius is_clockwise (k + 1)).2.2 = 0) := by
  obtain ⟨q, hq, hqv⟩ := arc_path_point m r target offset radius is_clockwise hpath h01 h02 h12
    k (by omega)
  obtain ⟨p, hp, hpv⟩ := arc_path_point m r target offset radius is_clockwise hpath h01 h02 h12
    (k + 1) hk
  have hc := arc_radius_vector_count m (offset.get r.plane_axis_0) (offset.get r.plane_axis_1)
    (arc_theta_per_segment m r target offset radius is_clockwise)
    (1 - 0.5 * arc_theta_per_segment m r target offset radius is_clockwise
      * arc_theta_per_segment m r target offset radius is_clockwise)
    (arc_theta_per_segment m r target offset radius is_clockwise)
  refine ⟨q, p, hq, hp, hpv, hc (k + 1), ?_, ?_⟩
  · intro h
    have ha := arc_radius_vector_approx m (offset.get r.plane_axis_0)
      (offset.get r.plane_axis_1)
      (arc_theta_per_segment m r target offset radius is_clockwise)
      (1 - 0.5 * arc_theta_per_segment m r target offset radius is_clockwise
        * arc_theta_per_segment m r target offset radius is_clockwise)
      (arc_theta_per_segment m r target offset radius is_clockwise) k h
    rw [hpv, hqv]
    simp only [arc_loop_state]
    rw [ha]
    exact ⟨rfl, rfl⟩
  · intro h
    have he := arc_radius_vector_exact m (offset.get r.plane_axis_0)
      (offset.get r.plane_axis_1)
      (arc_theta_per_segment m r target offset radius is_clockwise)
      (1 - 0.5 * arc_theta_per_segment m r target offset radius is_clockwise
        * arc_theta_per_segment m r target offset radius is_clockwise)
      (arc_theta_per_segment m r target offset radius is_clockwise) k h
    rw [hpv]
    simp only [arc_loop_state]
    rw [he]
    refine ⟨rfl, ?_, rfl⟩
    rw [hc k]
    omega

/-- C18, witness: the clockwise arc of the arc scenario with `mm_per_arc_segment = 1`, cut
into `47` segments, at the exact step of index `26`. -/
theorem C18_arc_correction_witness :
    arc_millimeters_of_travel Libm.real (arc_scenario (origin_robot 5 1)) ⟨0, 10, 0⟩
        ⟨-10, 0, 0⟩ 10 true ≠ 0
    ∧ (arc_scenario (origin_robot 5 1) : Robot ℝ).plane_axis_0
        ≠ (arc_scenario (origin_robot 5 1) : Robot ℝ).plane_axis_1
    ∧ (arc_scenario (origin_robot 5 1) : Robot ℝ).plane_axis_0
        ≠ (arc_scenario (origin_robot 5 1) : Robot ℝ).plane_axis_2
    ∧ (arc_scenario (origin_robot 5 1) : Robot ℝ).plane_axis_1
        ≠ (arc_scenario (origin_robot 5 1) : Robot ℝ).plane_axis_2
    ∧ 25 + 1 < arc_segments Libm.real (arc_scenario (origin_robot 5 1)) ⟨0, 10, 0⟩
        ⟨-10, 0, 0⟩ 10 true
    ∧ ∃ q p,
      ((arc_scenario (origin_robot 5 1) : Robot ℝ).current_position
          :: (append_arc Libm.real (arc_scenario (origin_robot 5 1)) ⟨0, 10, 0⟩ ⟨-10, 0, 0⟩ 10
            true).2.map (fun c => c.target))[25]?
        = some q
      ∧ ((arc_scenario (origin_robot 5 1) : Robot ℝ).current_position
          :: (append_arc Libm.real (arc_scenario (origin_robot 5 1)) ⟨0, 10, 0⟩ ⟨-10, 0, 0⟩ 10
            true).2.map (fun c => c.target))[25 + 1]?
        = some p
      ∧ center_vector (arc_scenario (origin_robot 5 1)) ⟨-10, 0, 0⟩ p
        = rotate_vector Libm.real 10 0
            (26 * arc_theta_per_segment Libm.real (arc_scenario (origin_robot 5 1)) ⟨0, 10, 0⟩
              ⟨-10, 0, 0⟩ 10 true)
      ∧ (arc_loop_state Libm.real (arc_scenario (origin_robot 5 1)) ⟨0, 10, 0⟩ ⟨-10, 0, 0⟩ 10
          true 25).2.2 = 25
      ∧ (arc_loop_state Libm.real (arc_scenario (origin_robot 5 1)) ⟨0, 10, 0⟩ ⟨-10, 0, 0⟩ 10
          true (25 + 1)).2.2 = 0 :=
  have hpath : arc_millimeters_of_travel Libm.real (arc_scenario (origin_robot 5 1))
      ⟨0, 10, 0⟩ ⟨-10, 0, 0⟩ 10 true ≠ 0 := by
    rw [arc_scenario_travel]
    exact (mul_pos (by norm_num) Real.pi_pos).ne'
  have h01 : (arc_scenario (origin_robot 5 1) : Robot ℝ).plane_axis_0
      ≠ (arc_scenario (origin_robot 5 1) : Robot ℝ).plane_axis_1 := by
    show Axis.X_AXIS ≠ Axis.Y_AXIS
    decide
  have h02 : (arc_scenario (origin_robot 5 1) : Robot ℝ).plane_axis_0
      ≠ (arc_scenario (origin_robot 5 1) : Robot ℝ).plane_axis_2 := by
    show Axis.X_AXIS ≠ Axis.Z_AXIS
    decide
  have h12 : (arc_scenario (origin_robot 5 1) : Robot ℝ).plane_axis_1
      ≠ (arc_scenario (origin_robot 5 1) : Robot ℝ).plane_axis_2 := by
    show Axis.Y_AXIS ≠ Axis.Z_AXIS
    decide
  have hk : 25 + 1 < arc_segments Libm.real (arc_scenario (origin_robot 5 1)) ⟨0, 10, 0⟩
      ⟨-10, 0, 0⟩ 10 true := by
    rw [arc_scenario_segments]
    norm_num
  ⟨hpath, h01, h02, h12, hk, by
    obtain ⟨q, p, hq, hp, -, -, -, hexact⟩ :=
      C18_arc_correction Libm.real (arc_scenario (origin_robot 5 1)) ⟨0, 10, 0⟩ ⟨-10, 0, 0⟩
        10 true hpath h01 h02 h12 25 hk
    obtain ⟨hv, h25, h0⟩ := hexact (by norm_num)
    refine ⟨q, p, hq, hp, ?_, h25, h0⟩
    rw [hv]
    simp only [arc_scenario, select_plane, Vec3.get]
    norm_num⟩

/-- C19, counterexample. On binary64, with `theta_per_segment` the double nearest to `1e-5`,
the small-angle step of `append_arc` takes the radius vector `(1, 0)` to a vector whose
squared length is smaller: the rounding of `1 - 0.5·θ·θ` outweighs the factor `1 + θ⁴/4`. -/
theorem C19_counterexample :
    |(⟨5902958103587057, -69⟩ : F64).toRat - 1 / 100000| < 1 / 2 ^ 70
    ∧ (arc_small_angle_f64 ⟨5902958103587057, -69⟩ ⟨1, 0⟩ ⟨0, 0⟩).1.toRat ^ 2
        + (arc_small_angle_f64 ⟨5902958103587057, -69⟩ ⟨1, 0⟩ ⟨0, 0⟩).2.toRat ^ 2
      < (⟨1, 0⟩ : F64).toRat ^ 2 + (⟨0, 0⟩ : F64).toRat ^ 2 := by
  rw [small_angle_f64_value]
  constructor
  · rw [abs_lt]
    norm_num [F64.toRat]
  · norm_num [F64.toRat]

/-- C19, amended. In exact arithmetic, for every arc of nonzero path length in a plane of
three distinct axes, take the start position followed by the points that `append_arc` hands
to `append_milestone`. A small-angle step of the loop (an iteration whose index `k + 1` is
not a multiple of `26`, with `cos_T = 1 - θ²/2`, `sin_T = θ`) multiplies the squared in-plane
distance from the arc centre by exactly `1 + θ⁴/4`: the point `p` it hands over is not closer
to the centre than the previous point `q`, and it is strictly farther when `θ ≠ 0` and `q` is
not the centre. -/
theorem C19_small_angle_growth (r : Robot ℝ) (target offset : Vec3 ℝ) (radius : ℝ)
    (is_clockwise : Bool)
    (hpath : arc_millimeters_of_travel Libm.real r target offset radius is_clockwise ≠ 0)
    (h01 : r.plane_axis_0 ≠ r.plane_axis_1) (h02 : r.plane_axis_0 ≠ r.plane_axis_2)
    (h12 : r.plane_axis_1 ≠ r.plane_axis_2)
    (k : Nat) (hk : k + 1 < arc_segments Libm.real r target offset radius is_clockwise)
    (happrox : (k + 1) % 26 ≠ 0) :
    ∃ q p,
      (r.current_position
          :: (append_arc Libm.real r target offset radius is_clockwise).2.map
            (fun c => c.target))[k]?
        = some q
      ∧ (r.current_position
          :: (append_arc Libm.real r target offset radius is_clockwise).2.map
            (fun c => c.target))[k + 1]?
        = some p
      ∧ (center_vector r offset p).1 ^ 2 + (center_vector r offset p).2 ^ 2
        = (1 + arc_theta_per_segment Libm.real r target offset radius is_clockwise ^ 4 / 4)
          * ((center_vector r offset q).1 ^ 2 + (center_vector r offset q).2 ^ 2)
      ∧ center_distance Libm.real r offset q ≤ center_distance Libm.real r offset p
      ∧ (arc_theta_per_segment Libm.real r target offset radius is_clockwise ≠ 0 →
          center_distance Libm.real r offset q ≠ 0 →
          center_distance Libm.real r offset q < center_distance Libm.real r offset p) := by
  obtain ⟨q, p, hq, hp, hv⟩ := arc_path_small_angle Libm.real r target offset radius
    is_clockwise hpath h01 h02 h12 k hk happrox
  have hsq := small_angle_sq (arc_theta_per_segment Libm.real r target offset radius
    is_clockwise) (center_vector r offset q).1 (center_vector r offset q).2
  have hnn : 0 ≤ (center_vector r offset q).1 ^ 2 + (center_vector r offset q).2 ^ 2 := by
    positivity
  have h4 : 0 ≤ arc_theta_per_segment Libm.real r target offset radius is_clockwise ^ 4 / 4 := by
    positivity
  have hsq2 : (center_vector r offset p).1 ^ 2 + (center_vector r offset p).2 ^ 2
      = (1 + arc_theta_per_segment Libm.real r target offset radius is_clockwise ^ 4 / 4)
        * ((center_vector r offset q).1 ^ 2 + (center_vector r offset q).2 ^ 2) := by
    rw [hv]
    exact hsq
  refine ⟨q, p, hq, hp, hsq2, ?_, ?_⟩
  · show Real.sqrt _ ≤ Real.sqrt _
    apply Real.sqrt_le_sqrt
    rw [hsq2]
    nlinarith
  · intro hth hr
    have hpos : 0 < (center_vector r offset q).1 ^ 2 + (center_vector r offset q).2 ^ 2 :=
      Real.sqrt_ne_zero'.mp hr
    show Real.sqrt _ < Real.sqrt _
    apply Real.sqrt_lt_sqrt hnn
    rw [hsq2]
    have h4pos : 0 < arc_theta_per_segment Libm.real r target offset radius is_clockwise ^ 4 / 4 := by
      positivity
    nlinarith

/-- C19, witness: the first step of the clockwise arc of the arc scenario with
`mm_per_arc_segment = 1`, cut into `47` segments. -/
theorem C19_small_angle_growth_witness :
    arc_millimeters_of_travel Libm.real (arc_scenario (origin_robot 5 1)) ⟨0, 10, 0⟩
        ⟨-10, 0, 0⟩ 10 true ≠ 0
    ∧ (arc_scenario (origin_robot 5 1) : Robot ℝ).plane_axis_0
        ≠ (arc_scenario (origin_robot 5 1) : Robot ℝ).plane_axis_1
    ∧ (arc_scenario (origin_robot 5 1) : Robot ℝ).plane_axis_0
        ≠ (arc_scenario (origin_robot 5 1) : Robot ℝ).plane_axis_2
    ∧ (arc_scenario (origin_robot 5 1) : Robot ℝ).plane_axis_1
        ≠ (arc_scenario (origin_robot 5 1) : Robot ℝ).plane_axis_2
    ∧ 0 + 1 < arc_segments Libm.real (arc_scenario (origin_robot 5 1)) ⟨0, 10, 0⟩
        ⟨-10, 0, 0⟩ 10 true
    ∧ (0 + 1) % 26 ≠ 0
    ∧ ∃ q p,
      ((arc_scenario (origin_robot 5 1) : Robot ℝ).current_position
          :: (append_arc Libm.real (arc_scenario (origin_robot 5 1)) ⟨0, 10, 0⟩ ⟨-10, 0, 0⟩ 10
            true).2.map (fun c => c.target))[0]?
        = some q
      ∧ ((arc_scenario (origin_robot 5 1) : Robot ℝ).current_position
          :: (append_arc Libm.real (arc_scenario (origin_robot 5 1)) ⟨0, 10, 0⟩ ⟨-10, 0, 0⟩ 10
            true).2.map (fun c => c.target))[0 + 1]?
        = some p
      ∧ (center_vector (arc_scenario (origin_robot 5 1)) ⟨-10, 0, 0⟩ p).1 ^ 2
          + (center_vector (arc_scenario (origin_robot 5 1)) ⟨-10, 0, 0⟩ p).2 ^ 2
        = (1 + arc_theta_per_segment Libm.real (arc_scenario (origin_robot 5 1)) ⟨0, 10, 0⟩
              ⟨-10, 0, 0⟩ 10 true ^ 4 / 4)
          * ((center_vector (arc_scenario (origin_robot 5 1)) ⟨-10, 0, 0⟩ q).1 ^ 2
            + (center_vector (arc_scenario (origin_robot 5 1)) ⟨-10, 0, 0⟩ q).2 ^ 2)
      ∧ center_distance Libm.real (arc_scenario (origin_robot 5 1)) ⟨-10, 0, 0⟩ q
        ≤ center_distance Libm.real (arc_scenario (origin_robot 5 1)) ⟨-10, 0, 0⟩ p
      ∧ (arc_theta_per_segment Libm.real (arc_scenario (origin_robot 5 1)) ⟨0, 10, 0⟩
            ⟨-10, 0, 0⟩ 10 true ≠ 0 →
          center_distance Libm.real (arc_scenario (origin_robot 5 1)) ⟨-10, 0, 0⟩ q ≠ 0 →
          center_distance Libm.real (arc_scenario (origin_robot 5 1)) ⟨-10, 0, 0⟩ q
            < center_distance Libm.real (arc_scenario (origin_robot 5 1)) ⟨-10, 0, 0⟩ p) :=
  have hpath : arc_millimeters_of_travel Libm.real (arc_scenario (origin_robot 5 1))
      ⟨0, 10, 0⟩ ⟨-10, 0, 0⟩ 10 true ≠ 0 := by
    rw [arc_scenario_travel]
    exact (mul_pos (by norm_num) Real.pi_pos).ne'
  have h01 : (arc_scenario (origin_robot 5 1) : Robot ℝ).plane_axis_0
      ≠ (arc_scenario (origin_robot 5 1) : Robot ℝ).plane_axis_1 := by
    show Axis.X_AXIS ≠ Axis.Y_AXIS
    decide
  have h02 : (arc_scenario (origin_robot 5 1) : Robot ℝ).plane_axis_0
      ≠ (arc_scenario (origin_robot 5 1) : Robot ℝ).plane_axis_2 := by
    show Axis.X_AXIS ≠ Axis.Z_AXIS
    decide
  have h12 : (arc_scenario (origin_robot 5 1) : Robot ℝ).plane_axis_1
      ≠ (arc_scenario (origin_robot 5 1) : Robot ℝ).plane_axis_2 := by
    show Axis.Y_AXIS ≠ Axis.Z_AXIS
    decide
  have hk : 0 + 1 < arc_segments Libm.real (arc_scenario (origin_robot 5 1)) ⟨0, 10, 0⟩
      ⟨-10, 0, 0⟩ 10 true := by
    rw [arc_scenario_segments]
    norm_num
  have happrox : (0 + 1) % 26 ≠ 0 := by decide
  ⟨hpath, h01, h02, h12, hk, happrox,
    C19_small_angle_growth (arc_scenario (origin_robot 5 1)) ⟨0, 10, 0⟩ ⟨-10, 0, 0⟩ 10 true
      hpath h01 h02 h12 0 hk happrox⟩

/-- C20, counterexample. On binary64, for the full circle requested at
`current_position = target = (0.2, 2.9, 0)` with offset `(-0.3, 0.2, 0)` in plane XY (the
doubles nearest to these values), the cross product that `append_arc` passes to `atan2` is
`-2⁻⁵⁴` and the dot product is positive, so `atan2` is negative: the counter-clockwise
angular travel is above `π`, not `0`, and the clockwise one is above `-π`, not `-2π`. -/
theorem C20_counterexample :
    (|(⟨3602879701896397, -54⟩ : F64).toRat - 2 / 10| < 1 / 2 ^ 56
      ∧ |(⟨6530219459687219, -51⟩ : F64).toRat - 29 / 10| < 1 / 2 ^ 52
      ∧ |(⟨-5404319552844595, -54⟩ : F64).toRat - -3 / 10| < 1 / 2 ^ 55)
    ∧ (arc_atan2_operands_f64 ⟨3602879701896397, -54⟩ ⟨6530219459687219, -51⟩
        ⟨3602879701896397, -54⟩ ⟨6530219459687219, -51⟩
        ⟨-5404319552844595, -54⟩ ⟨3602879701896397, -54⟩).1.toRat = -(1 / 2 ^ 54)
    ∧ 0 < (arc_atan2_operands_f64 ⟨3602879701896397, -54⟩ ⟨6530219459687219, -51⟩
        ⟨3602879701896397, -54⟩ ⟨6530219459687219, -51⟩
        ⟨-5404319552844595, -54⟩ ⟨3602879701896397, -54⟩).2.toRat
    ∧ Real.pi < arc_angular_travel_of Libm.real
        (((arc_atan2_operands_f64 ⟨3602879701896397, -54⟩ ⟨6530219459687219, -51⟩
          ⟨3602879701896397, -54⟩ ⟨6530219459687219, -51⟩
          ⟨-5404319552844595, -54⟩ ⟨3602879701896397, -54⟩).1.toRat : ℚ) : ℝ)
        (((arc_atan2_operands_f64 ⟨3602879701896397, -54⟩ ⟨6530219459687219, -51⟩
          ⟨3602879701896397, -54⟩ ⟨6530219459687219, -51⟩
          ⟨-5404319552844595, -54⟩ ⟨3602879701896397, -54⟩).2.toRat : ℚ) : ℝ) false
    ∧ -Real.pi < arc_angular_travel_of Libm.real
        (((arc_atan2_operands_f64 ⟨3602879701896397, -54⟩ ⟨6530219459687219, -51⟩
          ⟨3602879701896397, -54⟩ ⟨6530219459687219, -51⟩
          ⟨-5404319552844595, -54⟩ ⟨3602879701896397, -54⟩).1.toRat : ℚ) : ℝ)
        (((arc_atan2_operands_f64 ⟨3602879701896397, -54⟩ ⟨6530219459687219, -51⟩
          ⟨3602879701896397, -54⟩ ⟨6530219459687219, -51⟩
          ⟨-5404319552844595, -54⟩ ⟨3602879701896397, -54⟩).2.toRat : ℚ) : ℝ) true := by
  rw [full_circle_operands_f64]
  have hy : (⟨-8, -57⟩ : F64).toRat = -(1 / 2 ^ 54) := by norm_num [F64.toRat]
  refine ⟨⟨?_, ?_, ?_⟩, hy, ?_, ?_⟩
  · rw [abs_lt]; norm_num [F64.toRat]
  · rw [abs_lt]; norm_num [F64.toRat]
  · rw [abs_lt]; norm_num [F64.toRat]
  · norm_num [F64.toRat]
  · apply arc_angular_travel_of_neg
    rw [hy]
    norm_num

/-- C20, amended. Whenever the cross product that `append_arc` passes to `atan2` is exactly
`0` and the dot product is positive, the counter-clockwise angular travel is `0` and the
clockwise one is `-2π`. In exact arithmetic this is the case of every arc whose target is
`current_position`, with a nonzero in-plane offset: counter-clockwise, `append_arc` computes
the angular travel `0` and the path length `0` and hands over no milestone at all; clockwise,
with the same start, target and offset, it computes the angular travel `-2π` and a nonzero
path length. -/
theorem C20_full_circle (r : Robot ℝ) (offset : Vec3 ℝ)
    (hoff : offset.get r.plane_axis_0 ≠ 0 ∨ offset.get r.plane_axis_1 ≠ 0) :
    (∀ x : ℝ, 0 < x →
      arc_angular_travel_of Libm.real 0 x false = 0
      ∧ arc_angular_travel_of Libm.real 0 x true = -(2 * Real.pi))
    ∧ arc_angular_travel Libm.real r r.current_position offset false = 0
    ∧ arc_millimeters_of_travel Libm.real r r.current_position offset
        (arc_radius Libm.real r offset) false = 0
    ∧ (append_arc Libm.real r r.current_position offset (arc_radius Libm.real r offset)
        false).2 = []
    ∧ arc_angular_travel Libm.real r r.current_position offset true = -(2 * Real.pi)
    ∧ arc_millimeters_of_travel Libm.real r r.current_position offset
        (arc_radius Libm.real r offset) true ≠ 0 := by
  obtain ⟨hccw, hcw⟩ := full_circle_atan2 r offset
  have hpath : arc_millimeters_of_travel Libm.real r r.current_position offset
      (arc_radius Libm.real r offset) false = 0 := by
    simp only [arc_millimeters_of_travel, hccw]
    simp [Libm.real]
  have hsq : 0 < offset.get r.plane_axis_0 ^ 2 + offset.get r.plane_axis_1 ^ 2 := by
    rcases hoff with h | h
    · have := pow_pos (abs_pos.mpr h) 2
      rw [sq_abs] at this
      nlinarith [sq_nonneg (offset.get r.plane_axis_1)]
    · have := pow_pos (abs_pos.mpr h) 2
      rw [sq_abs] at this
      nlinarith [sq_nonneg (offset.get r.plane_axis_0)]
  have hrad : 0 < arc_radius Libm.real r offset := by
    simp only [arc_radius, Libm.real]
    exact Real.sqrt_pos.mpr hsq
  refine ⟨?_, hccw, hpath, ?_, hcw, ?_⟩
  · intro x hx
    have h0 : Complex.arg ⟨x, 0⟩ = 0 := Complex.arg_eq_zero_iff.mpr ⟨hx.le, rfl⟩
    simp only [arc_angular_travel_of, Libm.real, h0, lt_irrefl, if_false, if_true,
      Bool.false_eq_true]
    exact ⟨trivial, by ring⟩
  · simp only [append_arc, if_pos hpath]
  · simp only [arc_millimeters_of_travel, hcw]
    generalize arc_radius Libm.real r offset = radius at hrad
    simp only [Libm.real, sub_self, abs_zero]
    apply ne_of_gt
    apply Real.sqrt_pos.mpr
    have hpi := Real.pi_pos
    have hne : -(2 * Real.pi) * radius ≠ 0 := mul_ne_zero (by linarith) hrad.ne'
    have := pow_pos (abs_pos.mpr hne) 2
    rw [sq_abs] at this
    nlinarith

/-- C20, witness: the full circle of radius `1` about the origin from `(1,0,0)`. -/
theorem C20_full_circle_witness :
    ((⟨-1, 0, 0⟩ : Vec3 ℝ).get (small_arc_robot : Robot ℝ).plane_axis_0 ≠ 0
      ∨ (⟨-1, 0, 0⟩ : Vec3 ℝ).get (small_arc_robot : Robot ℝ).plane_axis_1 ≠ 0)
    ∧ ((∀ x : ℝ, 0 < x →
        arc_angular_travel_of Libm.real 0 x false = 0
        ∧ arc_angular_travel_of Libm.real 0 x true = -(2 * Real.pi))
      ∧ arc_angular_travel Libm.real small_arc_robot
          (small_arc_robot : Robot ℝ).current_position ⟨-1, 0, 0⟩ false = 0
      ∧ arc_millimeters_of_travel Libm.real small_arc_robot
          (small_arc_robot : Robot ℝ).current_position ⟨-1, 0, 0⟩
          (arc_radius Libm.real small_arc_robot ⟨-1, 0, 0⟩) false = 0
      ∧ (append_arc Libm.real small_arc_robot (small_arc_robot : Robot ℝ).current_position
          ⟨-1, 0, 0⟩ (arc_radius Libm.real small_arc_robot ⟨-1, 0, 0⟩) false).2 = []
      ∧ arc_angular_travel Libm.real small_arc_robot
          (small_arc_robot : Robot ℝ).current_position ⟨-1, 0, 0⟩ true = -(2 * Real.pi)
      ∧ arc_millimeters_of_travel Libm.real small_arc_robot
          (small_arc_robot : Robot ℝ).current_position ⟨-1, 0, 0⟩
          (arc_radius Libm.real small_arc_robot ⟨-1, 0, 0⟩) true ≠ 0) :=
  have h : (⟨-1, 0, 0⟩ : Vec3 ℝ).get (small_arc_robot : Robot ℝ).plane_axis_0 ≠ 0
      ∨ (⟨-1, 0, 0⟩ : Vec3 ℝ).get (small_arc_robot : Robot ℝ).plane_axis_1 ≠ 0 := by
    left
    show (-1 : ℝ) ≠ 0
    norm_num
  ⟨h, C20_full_circle small_arc_robot ⟨-1, 0, 0⟩ h⟩

end Smoothie
